import Mathlib

/-! coredns-plugin-openstack: query dispatch and host directory

A shallow embedding of `openstack.go` (package `openstack`).  Go strings are
Lean strings, `net.IP` is the list of its bytes (`nil` is the empty list), a Go
`map[string]T` is an association list with unique keys kept in insertion order,
and `uint32` / `uint16` numbers are natural numbers.

The first part models the library calls the plugin makes (`miekg/dns`,
`coredns/plugin`, `coredns/plugin/pkg/dnsutil`, `coredns/plugin/pkg/fall` and
Go's `net`).  The second part is the plugin itself, function by function.
-/

namespace OpenStackPlugin

/-! ## Go maps with string keys -/

/-- A Go `map[string]T`: each key occurs at most once. -/
abbrev GoMap (α : Type) := List (String × α)

/-- The lookup `v, ok := m[k]`. -/
def GoMap.get? {α : Type} : GoMap α → String → Option α
  | [], _ => none
  | (k, v) :: rest, key => if k = key then some v else GoMap.get? rest key

/-- The assignment `m[k] = v`. -/
def GoMap.set {α : Type} : GoMap α → String → α → GoMap α
  | [], key, v => [(key, v)]
  | (k, w) :: rest, key, v =>
    if k = key then (k, v) :: rest else (k, w) :: GoMap.set rest key v

/-- The expression `m[k]` on a map of slices: the nil slice when `k` is absent. -/
def GoMap.getSlice {α : Type} (m : GoMap (List α)) (key : String) : List α :=
  match GoMap.get? m key with
  | some v => v
  | none => []

/-! ## `miekg/dns`: names -/

/-- Number of backslashes at the head of a (reversed) character list. -/
def leadingBackslashes : List Char → Nat
  | [] => 0
  | c :: rest => if c = '\\' then leadingBackslashes rest + 1 else 0

/-- The number `len(s) - i` of `dns.IsFqdn`, for a text `s` given in reverse
order: `i` is the byte index `strings.LastIndexFunc` returns for the last
character that is no backslash, or -1 when there is none.  The bytes from `i`
on are the backslashes at the end of `s`, one byte each, and before them the
UTF-8 bytes of that character. -/
def bytesFromLastOther (rest : List Char) : Nat :=
  leadingBackslashes rest +
    (match rest.drop (leadingBackslashes rest) with
      | [] => 1
      | e :: _ => e.utf8Size)

/-- `dns.IsFqdn`: the name ends in a dot, and either no backslash stands
before that dot or the byte count `len(s) - i` over the text before the dot
is odd. -/
def IsFqdn (s : String) : Bool :=
  match s.toList.reverse with
  | [] => false
  | c :: rest =>
    if c ≠ '.' then false
    else if leadingBackslashes rest = 0 then true
    else bytesFromLastOther rest % 2 ≠ 0

/-- `dns.Fqdn`: the name itself when it is fully qualified, else with a dot appended. -/
def Fqdn (s : String) : String :=
  if IsFqdn s then s else s ++ "."

/-- The labels of a name as `dns.Split` delimits them: every label keeps its
closing dot, a dot preceded by an odd number of backslashes does not close a
label, and neither does the last character of the name.  `cur` is the label
being read, reversed; `bs` counts the backslashes just before the position. -/
def splitLabels (cur : List Char) (bs : Nat) : List Char → List (List Char)
  | [] => [cur.reverse]
  | [c] => [(c :: cur).reverse]
  | c :: d :: rest =>
    if c = '.' && bs % 2 = 0 then
      (c :: cur).reverse :: splitLabels [] 0 (d :: rest)
    else
      splitLabels (c :: cur) (if c = '\\' then bs + 1 else 0) (d :: rest)

/-- ASCII lower-casing of one character code, as in `dns.equal`. -/
def lowerCode (c : Char) : Nat :=
  if 65 ≤ c.toNat ∧ c.toNat ≤ 90 then c.toNat + 32 else c.toNat

/-- The comparison `dns.equal`: equality of labels up to ASCII letter case. -/
def equalLabel (x y : List Char) : Bool :=
  x.map lowerCode = y.map lowerCode

/-- Length of the longest common head of two label lists under `equalLabel`. -/
def commonLabels : List (List Char) → List (List Char) → Nat
  | x :: xs, y :: ys => if equalLabel x y then commonLabels xs ys + 1 else 0
  | _, _ => 0

/-- `dns.CountLabel`. -/
def CountLabel (s : String) : Nat :=
  if s = "." then 0 else (splitLabels [] 0 s.toList).length

/-- `dns.CompareDomainName`: the number of labels two names share, counted
from the right. -/
def CompareDomainName (s1 s2 : String) : Nat :=
  if s1 = "." ∨ s2 = "." then 0
  else commonLabels (splitLabels [] 0 s1.toList).reverse (splitLabels [] 0 s2.toList).reverse

/-- `dns.IsSubDomain parent child`. -/
def IsSubDomain (parent child : String) : Bool :=
  CompareDomainName parent child = CountLabel parent

/-! ## `coredns/plugin`: zones and fallthrough -/

/-- The loop of `plugin.Zones.Matches`, with the zone found so far. -/
def matchesLoop (qname : String) : List String → String → String
  | [], zone => zone
  | zname :: rest, zone =>
    if IsSubDomain zname qname ∧ zname.utf8ByteSize > zone.utf8ByteSize then
      matchesLoop qname rest zname
    else
      matchesLoop qname rest zone

/-- `plugin.Zones(z).Matches(qname)`: the longest zone of `z` that `qname` is
under; the empty string stands for no match. -/
def Matches (z : List String) (qname : String) : String :=
  matchesLoop qname z ""

/-- The type `fall.F`. -/
structure F where
  Zones : List String
deriving Repr, DecidableEq

/-- `fall.F.Through`. -/
def F.Through (f : F) (qname : String) : Bool :=
  Matches f.Zones qname ≠ ""

/-- `dnsutil.Join(name, zone)`, the two-label call the plugin makes. -/
def Join (name zone : String) : String :=
  if zone = "." then name ++ "." else Fqdn (name ++ "." ++ zone)

/-! ## Go `net`: addresses -/

/-- A `net.IP`: the bytes of the slice; the nil slice is the empty list. -/
abbrev IP := List Nat

/-- The twelve bytes that open an IPv4 address held in sixteen bytes. -/
def v4InV6Head : List Nat := [0, 0, 0, 0, 0, 0, 0, 0, 0, 0, 255, 255]

/-- `IP.To4`. -/
def To4 (ip : IP) : IP :=
  if ip.length = 4 then ip
  else if ip.length = 16 ∧ ip.take 12 = v4InV6Head then ip.drop 12
  else []

/-- `IP.To16`. -/
def To16 (ip : IP) : IP :=
  if ip.length = 4 then v4InV6Head ++ ip
  else if ip.length = 16 then ip
  else []

/-- Loop state of the dotted-decimal reader: the octets already closed by a
dot, the value of the octet being read and its number of digits. -/
structure V4State where
  fields : List Nat
  val : Nat
  digLen : Nat
deriving Repr, DecidableEq

/-- The character loop of `parseIPv4`; `prev` is the character before the
position, if any. -/
def parseIPv4Loop (st : V4State) (prev : Option Char) : List Char → Option V4State
  | [] => some st
  | c :: rest =>
    if '0' ≤ c ∧ c ≤ '9' then
      if st.digLen = 1 ∧ st.val = 0 then none
      else if st.val * 10 + (c.toNat - 48) > 255 then none
      else
        parseIPv4Loop ⟨st.fields, st.val * 10 + (c.toNat - 48), st.digLen + 1⟩ (some c) rest
    else if c = '.' then
      if prev = none ∨ rest = [] ∨ prev = some '.' then none
      else if st.fields.length = 3 then none
      else parseIPv4Loop ⟨st.fields ++ [st.val], 0, 0⟩ (some c) rest
    else none

/-- The four octets of a dotted-decimal IPv4 address, if the text is one. -/
def parseIPv4 (s : List Char) : Option (List Nat) :=
  match parseIPv4Loop ⟨[], 0, 0⟩ none s with
  | none => none
  | some st => if st.fields.length < 3 then none else some (st.fields ++ [st.val])

/-- Value of a hexadecimal digit. -/
def hexVal (c : Char) : Option Nat :=
  if '0' ≤ c ∧ c ≤ '9' then some (c.toNat - 48)
  else if 'a' ≤ c ∧ c ≤ 'f' then some (c.toNat - 97 + 10)
  else if 'A' ≤ c ∧ c ≤ 'F' then some (c.toNat - 65 + 10)
  else none

/-- The inner loop of `parseIPv6` reading one group of hexadecimal digits:
the value read, the number of digits and the text left; `none` when the group
has more than four digits. -/
def hexGroup : List Char → Nat → Nat → Option (Nat × Nat × List Char)
  | [], acc, off => some (acc, off, [])
  | c :: rest, acc, off =>
    match hexVal c with
    | none => some (acc, off, c :: rest)
    | some v =>
      if off > 3 then none
      else if acc * 16 + v > 65535 then none
      else hexGroup rest (acc * 16 + v) (off + 1)

/-- Loop state of the IPv6 reader: the bytes written so far, the position of
the `::` if one was met, and the text left. -/
structure V6State where
  ip : List Nat
  ellipsis : Option Nat
  s : List Char
deriving Repr, DecidableEq

/-- The group loop of `parseIPv6`.  Every round writes at least two bytes and
the loop stops at sixteen, so nine rounds of fuel are never used up. -/
def parseIPv6Loop : Nat → V6State → Option V6State
  | 0, _ => none
  | fuel + 1, st =>
    if st.ip.length ≥ 16 then some st
    else
      match hexGroup st.s 0 0 with
      | none => none
      | some (acc, off, rest) =>
        if off = 0 then none
        else if rest.head? = some '.' then
          if st.ellipsis = none ∧ st.ip.length ≠ 12 then none
          else if st.ip.length + 4 > 16 then none
          else
            match parseIPv4 st.s with
            | none => none
            | some f => some ⟨st.ip ++ f, st.ellipsis, []⟩
        else
          match rest with
          | [] => some ⟨st.ip ++ [acc / 256, acc % 256], st.ellipsis, []⟩
          | [_] => none
          | c :: d :: more =>
            if c ≠ ':' then none
            else if d = ':' then
              if st.ellipsis.isSome then none
              else if more = [] then
                some ⟨st.ip ++ [acc / 256, acc % 256], some (st.ip.length + 2), []⟩
              else
                parseIPv6Loop fuel ⟨st.ip ++ [acc / 256, acc % 256], some (st.ip.length + 2), more⟩
            else
              parseIPv6Loop fuel ⟨st.ip ++ [acc / 256, acc % 256], st.ellipsis, d :: more⟩

/-- The sixteen bytes of an IPv6 address in text form, if the text is one.  A
text with a zone (a percent sign) is no address for `net.ParseIP`. -/
def parseIPv6 (s : List Char) : Option (List Nat) :=
  if '%' ∈ s then none
  else
    let start : V6State :=
      match s with
      | ':' :: ':' :: r => ⟨[], some 0, r⟩
      | _ => ⟨[], none, s⟩
    if start.ellipsis.isSome ∧ start.s = [] then some (List.replicate 16 0)
    else
      match parseIPv6Loop 9 start with
      | none => none
      | some st =>
        if st.s ≠ [] then none
        else if st.ip.length < 16 then
          match st.ellipsis with
          | none => none
          | some e => some (st.ip.take e ++ List.replicate (16 - st.ip.length) 0 ++ st.ip.drop e)
        else if st.ellipsis.isSome then none
        else some st.ip

/-- `net.ParseIP`: the first of the characters `.`, `:` and `%` selects the
reader; the result is the nil address when the text is no address, and
sixteen bytes otherwise. -/
def ParseIP (s : String) : IP :=
  match s.toList.find? (fun c => c = '.' ∨ c = ':' ∨ c = '%') with
  | none => []
  | some c =>
    if c = '.' then
      match parseIPv4 s.toList with
      | none => []
      | some f => v4InV6Head ++ f
    else if c = ':' then
      match parseIPv6 s.toList with
      | none => []
      | some b => b
    else []

/-- Decimal digits of one byte, without leading zeros. -/
def appendDecimal (x : Nat) : List Char :=
  (if x ≥ 100 then [Nat.digitChar (x / 100)] else []) ++
  (if x ≥ 10 then [Nat.digitChar (x / 10 % 10)] else []) ++
  [Nat.digitChar (x % 10)]

/-- Dotted-decimal text of four bytes. -/
def string4 (p : List Nat) : List Char :=
  appendDecimal (p.getD 0 0) ++ ['.'] ++ appendDecimal (p.getD 1 0) ++ ['.'] ++
  appendDecimal (p.getD 2 0) ++ ['.'] ++ appendDecimal (p.getD 3 0)

/-- Hexadecimal digits of one 16-bit group, without leading zeros. -/
def appendHex (x : Nat) : List Char :=
  (if x ≥ 4096 then [Nat.digitChar (x / 4096)] else []) ++
  (if x ≥ 256 then [Nat.digitChar (x / 256 % 16)] else []) ++
  (if x ≥ 16 then [Nat.digitChar (x / 16 % 16)] else []) ++
  [Nat.digitChar (x % 16)]

/-- The eight 16-bit groups of sixteen bytes. -/
def groups16 (ip : List Nat) : List Nat :=
  (List.range 8).map (fun i => ip.getD (2 * i) 0 * 256 + ip.getD (2 * i + 1) 0)

/-- The first longest run of at least two zero groups, as start and end;
`(255, 255)` when there is none. -/
def longestZeroRun (g : List Nat) : Nat × Nat :=
  (List.range 8).foldl
    (fun z i =>
      let l := ((g.drop i).takeWhile (fun x => x = 0)).length
      if l ≥ 2 ∧ l > z.2 - z.1 then (i, i + l) else z)
    (255, 255)

/-- The printing loop of the IPv6 text form, from group `i`. -/
def appendTo6 (g : List Nat) (zs ze : Nat) : Nat → Nat → List Char
  | 0, _ => []
  | fuel + 1, i =>
    if i ≥ 8 then []
    else if i = zs then
      [':', ':'] ++ (if ze ≥ 8 then [] else appendHex (g.getD ze 0) ++ appendTo6 g zs ze fuel (ze + 1))
    else
      (if i > 0 then [':'] else []) ++ appendHex (g.getD i 0) ++ appendTo6 g zs ze fuel (i + 1)

/-- IPv6 text of sixteen bytes. -/
def string6 (ip : List Nat) : List Char :=
  let g := groups16 ip
  appendTo6 g (longestZeroRun g).1 (longestZeroRun g).2 9 0

/-- Two hexadecimal digits per byte. -/
def hexString (b : List Nat) : List Char :=
  b.flatMap (fun x => [Nat.digitChar (x / 16 % 16), Nat.digitChar (x % 16)])

/-- `IP.String`: the text `<nil>` for the nil address, dotted decimal for an
IPv4 address in either length, the IPv6 text form otherwise. -/
def IP.String (ip : IP) : String :=
  if ip.length = 0 then "<nil>"
  else if ip.length ≠ 4 ∧ ip.length ≠ 16 then String.mk ('?' :: hexString ip)
  else if (To4 ip).length = 4 then String.mk (string4 (To4 ip))
  else String.mk (string6 ip)

/-! ## `coredns/plugin/pkg/dnsutil`: reverse names -/

/-- `strings.HasSuffix` on character lists. -/
def hasSuffix (s suffix : List Char) : Bool :=
  s.drop (s.length - suffix.length) = suffix

/-- `strings.Split(s, ".")` on character lists. -/
def splitOnDot : List Char → List (List Char)
  | [] => [[]]
  | c :: rest =>
    if c = '.' then [] :: splitOnDot rest
    else
      match splitOnDot rest with
      | [] => [[c]]
      | h :: t => (c :: h) :: t

/-- `strings.Join` on character lists. -/
def joinWith (sep : List Char) : List (List Char) → List Char
  | [] => []
  | [x] => x
  | x :: y :: rest => x ++ sep ++ joinWith sep (y :: rest)

/-- The suffix `dnsutil.IP4arpa`. -/
def IP4arpa : String := ".in-addr.arpa."

/-- The suffix `dnsutil.IP6arpa`. -/
def IP6arpa : String := ".ip6.arpa."

/-- The helper `reverse` of `dnsutil`: the labels in reverse order, read as an
IPv4 address. -/
def reverse4 (slice : List (List Char)) : String :=
  let ip := To4 (ParseIP (String.mk (joinWith ['.'] slice.reverse)))
  if ip = [] then "" else IP.String ip

/-- Consecutive blocks of four labels, each glued into one group; labels left
over at the end are dropped. -/
def nibbleGroups : Nat → List (List Char) → List (List Char)
  | 0, _ => []
  | fuel + 1, a :: b :: c :: d :: rest => (a ++ b ++ c ++ d) :: nibbleGroups fuel rest
  | _ + 1, _ => []

/-- The helper `reverse6` of `dnsutil`: the nibbles in reverse order, grouped
by four and read as an IPv6 address. -/
def reverse6 (slice : List (List Char)) : String :=
  let ip := To16 (ParseIP (String.mk (joinWith [':'] (nibbleGroups slice.length slice.reverse))))
  if ip = [] then "" else IP.String ip

/-- `dnsutil.ExtractAddressFromReverse`: the address a reverse name stands
for, or the empty string when the name is no reverse name. -/
def ExtractAddressFromReverse (reverseName : String) : String :=
  let s := reverseName.toList
  if hasSuffix s IP4arpa.toList then
    reverse4 (splitOnDot (s.take (s.length - IP4arpa.toList.length)))
  else if hasSuffix s IP6arpa.toList then
    reverse6 (splitOnDot (s.take (s.length - IP6arpa.toList.length)))
  else ""

/-! ## `miekg/dns`: messages -/

/-- The constant `dns.TypeA`. -/
def TypeA : Nat := 1

/-- The constant `dns.TypePTR`. -/
def TypePTR : Nat := 12

/-- The constant `dns.ClassINET`. -/
def ClassINET : Nat := 1

/-- The constant `dns.RcodeSuccess`. -/
def RcodeSuccess : Nat := 0

/-- The constant `dns.RcodeServerFailure`. -/
def RcodeServerFailure : Nat := 2

/-- The type `dns.RR_Header`, without the length of the data. -/
structure RR_Header where
  Name : String
  Rrtype : Nat
  Class : Nat
  Ttl : Nat
deriving Repr, DecidableEq

/-- The two kinds of `dns.RR` the plugin builds: `dns.A` and `dns.PTR`. -/
inductive RR where
  | A (Hdr : RR_Header) (A : IP)
  | PTR (Hdr : RR_Header) (Ptr : String)
deriving Repr, DecidableEq

/-- The fields of a `dns.Msg` the handler sets on its reply, next to what
`SetReply` copies from the request (identifier, opcode, question). -/
structure Msg where
  Response : Bool
  Authoritative : Bool
  Rcode : Nat
  Answer : List RR
  Ns : List RR
  Extra : List RR
deriving Repr, DecidableEq

/-- What `request.Request` gives the handler: `state.Name()`, the query name
lower-cased and fully qualified, and `state.QType()`. -/
structure Request where
  name : String
  qtype : Nat
deriving Repr, DecidableEq

/-! ## The plugin: `openstack.go` -/

/-- The type `Map`: the forward and the reverse directory. -/
structure Map where
  name4 : GoMap (List IP)
  addr : GoMap (List String)
deriving Repr, DecidableEq

/-- `newMap`. -/
def newMap : Map := ⟨[], []⟩

/-- The fields of `gophercloud.AuthOptions` the plugin sets. -/
structure AuthOptions where
  IdentityEndpoint : String
  Username : String
  Password : String
  DomainName : String
  TenantID : String
deriving Repr, DecidableEq

/-- The type `OpenStack`, without the lock and the next handler; `reload` is
in nanoseconds. -/
structure OpenStack where
  Fall : F
  origins : List String
  hmap : Map
  ttl : Nat
  reload : Nat
  authOptions : AuthOptions
  region : String
deriving Repr, DecidableEq

/-- How `ServeDNS` ends: with the call `plugin.NextOrFailure(...)`, whose
result is the next handler's, or with its own return code, after writing a
reply or nothing. -/
inductive Outcome where
  | next
  | done (rcode : Nat) (written : Option Msg)
deriving Repr, DecidableEq

/-- `OpenStack.lookupHostV4`. -/
def lookupHostV4 (os : OpenStack) (host : String) : List IP :=
  match os.hmap.name4.get? host with
  | none => []
  | some ips => ips

/-- `OpenStack.LookupAddr`. -/
def LookupAddr (os : OpenStack) (addr : String) : List String :=
  let addr := (ParseIP addr).String
  if addr = "" then []
  else
    let hosts := os.hmap.addr.getSlice addr
    if hosts.length = 0 then [] else hosts

/-- The function `a`: one address record for each address. -/
def a (zone : String) (ttl : Nat) (ips : List IP) : List RR :=
  ips.map (fun ip => RR.A ⟨zone, TypeA, ClassINET, ttl⟩ ip)

/-- The function `ptr`: one pointer record for each name. -/
def ptr (zone : String) (ttl : Nat) (names : List String) : List RR :=
  names.map (fun n => RR.PTR ⟨zone, TypePTR, ClassINET, ttl⟩ (Fqdn n))

/-- The `switch` of `ServeDNS`: the answers it builds, or the outcome of the
return inside it. -/
def serveSwitch (os : OpenStack) (state : Request) : Except Outcome (List RR) :=
  if state.qtype = TypePTR then
    let names := LookupAddr os (ExtractAddressFromReverse state.name)
    if names.length = 0 then Except.error Outcome.next
    else Except.ok (ptr state.name os.ttl names)
  else if state.qtype = TypeA then
    Except.ok (a state.name os.ttl (lookupHostV4 os state.name))
  else Except.ok []

/-- `OpenStack.ServeDNS`. -/
def ServeDNS (os : OpenStack) (state : Request) : Outcome :=
  let qname := state.name
  let zone := Matches os.origins qname
  if zone = "" ∧ state.qtype ≠ TypePTR then Outcome.next
  else
    match serveSwitch os state with
    | Except.error o => o
    | Except.ok answers =>
      if answers.length = 0 then
        if os.Fall.Through qname then Outcome.next
        else Outcome.done RcodeServerFailure none
      else
        Outcome.done RcodeSuccess (some ⟨true, true, RcodeSuccess, answers, [], []⟩)

/-- One address entry of a server, as the provider lists it: the value under
`OS-EXT-IPS:type` when it is a string, the number under `version` and the
string under `addr`. -/
structure AddrEntry where
  ipsType : Option String
  version : Nat
  addr : String
deriving Repr, DecidableEq

/-- The fields of `servers.Server` the plugin reads.  `Addresses` lists the
networks in the order the `range` over the Go map visits them. -/
structure Server where
  Name : String
  Addresses : List (String × List AddrEntry)
deriving Repr, DecidableEq

/-- `OpenStack.extractAddrs`. -/
def extractAddrs (serverAddresses : List (String × List AddrEntry)) : List IP :=
  serverAddresses.foldl
    (fun addrs addrList =>
      addrList.2.foldl
        (fun addrs k =>
          if k.ipsType ≠ some "floating" ∧ k.version = 4 then addrs ++ [ParseIP k.addr]
          else addrs)
        addrs)
    []

/-- The body of the innermost loop of `updateMap`: one address recorded under
one name, in both directions. -/
def recordAddr (name : String) (hmap : Map) (addr : IP) : Map :=
  ⟨hmap.name4.set name (hmap.name4.getSlice name ++ [addr]),
   hmap.addr.set addr.String (hmap.addr.getSlice addr.String ++ [name])⟩

/-- The innermost loop of `updateMap`: the addresses of one server recorded
under one name. -/
def recordAddrs (name : String) (hmap : Map) (addrs : List IP) : Map :=
  addrs.foldl (recordAddr name) hmap

/-- The body of the loop over the servers of a page. -/
def recordServer (origins : List String) (hmap : Map) (s : Server) : Map :=
  origins.foldl (fun h zone => recordAddrs (Join s.Name zone) h (extractAddrs s.Addresses)) hmap

/-- What one refresh cycle gets from the provider: the results of
`openstack.AuthenticatedClient` and `openstack.NewComputeV2`, and the pages
`pager.EachPage` walks, each one the result of fetching it and of
`servers.ExtractServers`. -/
structure Provider where
  client : Except String Unit
  compute : Except String Unit
  pages : List (Except String (List Server))

/-- `pager.EachPage` with the callback of `updateMap`: the first failing page
ends the walk with its error. -/
def eachPage (origins : List String) : Map → List (Except String (List Server)) → Except String Map
  | hmap, [] => Except.ok hmap
  | _, Except.error e :: _ => Except.error e
  | hmap, Except.ok serverList :: rest =>
    eachPage origins (serverList.foldl (recordServer origins) hmap) rest

/-- `OpenStack.updateMap`: the plugin after one refresh cycle. -/
def updateMap (os : OpenStack) (p : Provider) : OpenStack :=
  match p.client with
  | Except.error _ => os
  | Except.ok _ =>
    match p.compute with
    | Except.error _ => os
    | Except.ok _ =>
      match eachPage os.origins newMap p.pages with
      | Except.error _ => os
      | Except.ok hmap => { os with hmap := hmap }

/-! ## Example configurations -/

/-- A plugin as `openstackParse` sets it up for the zone `example.org.`, with
the given fallthrough zones and directory. -/
def exampleOS (fallZones : List String) (hmap : Map) : OpenStack :=
  ⟨⟨fallZones⟩, ["example.org."], hmap, 3600, 30000000000,
   ⟨"", "coredns", "", "default", ""⟩, "RegionOne"⟩

/-- The server `web1` with one fixed and one floating address. -/
def web1 : Server :=
  ⟨"web1", [("private", [⟨some "fixed", 4, "10.0.0.10"⟩, ⟨some "floating", 4, "203.0.113.5"⟩])]⟩

/-- A provider that answers every step and lists the given servers on one page. -/
def onePage (servers : List Server) : Provider :=
  ⟨Except.ok (), Except.ok (), [Except.ok servers]⟩

/-- The plugin for `example.org.` after a refresh that listed `web1`. -/
def web1OS (fallZones : List String) : OpenStack :=
  updateMap (exampleOS fallZones newMap) (onePage [web1])

/-- The server `web6`: a fixed IPv4 address, a floating one and a fixed IPv6
address, on two networks. -/
def web6 : Server :=
  ⟨"web6", [("private", [⟨some "fixed", 4, "10.0.0.16"⟩, ⟨some "fixed", 6, "fe80::16"⟩]),
            ("public", [⟨some "floating", 4, "203.0.113.16"⟩])]⟩

/-- The server `bad`: its first address entry is no address, its second is. -/
def bad : Server :=
  ⟨"bad", [("private", [⟨some "fixed", 4, "bogus"⟩, ⟨some "fixed", 4, "10.0.0.20"⟩])]⟩

/-- The plugin for `example.org.` after a refresh that listed `bad`. -/
def badOS : OpenStack :=
  updateMap (exampleOS [] newMap) (onePage [bad])

/-- The server whose name is the letter `a` and two backslashes. -/
def escServer : Server :=
  ⟨"a\\\\", [("private", [⟨some "fixed", 4, "10.0.0.40"⟩])]⟩

/-- The server whose name is the letter `é` and two backslashes. -/
def escWideServer : Server :=
  ⟨"é\\\\", [("private", [⟨some "fixed", 4, "10.0.0.41"⟩])]⟩

/-- The server whose name is the letter `é` and one backslash. -/
def escWideOneServer : Server :=
  ⟨"é\\", [("private", [⟨some "fixed", 4, "10.0.0.42"⟩])]⟩

/-- The plugin for the root zone after a refresh that listed the three
servers with backslashes in their names. -/
def rootOS : OpenStack :=
  updateMap { exampleOS [] newMap with origins := ["."] }
    (onePage [escServer, escWideServer, escWideOneServer])

/-! ## Directory contents -/

/-- The pair of `name` and `ip` is in the directory, in both directions. -/
def Recorded (m : Map) (name : String) (ip : IP) : Prop :=
  ip ∈ m.name4.getSlice name ∧ name ∈ m.addr.getSlice ip.String

/-! ## The address selection in the specification's words -/

/-- An address entry is included when its IP version is 4 and its role tag is
not `floating`. -/
def included (k : AddrEntry) : Bool :=
  k.version = 4 ∧ k.ipsType ≠ some "floating"

/-- The addresses of a server as the specification selects them: of all its
address entries, in order, those that are included, each one parsed. -/
def includedAddrs (serverAddresses : List (String × List AddrEntry)) : List IP :=
  ((serverAddresses.flatMap (fun addrList => addrList.2)).filter included).map
    (fun k => ParseIP k.addr)

/-! ## `strconv` and the configuration parser: `setup.go` -/

/-- `strconv.Atoi` for a 64-bit `int`: an optional sign and at least one
decimal digit, nothing else; `none` for a syntax error and for a value out of
range. -/
def Atoi (s : String) : Option Int :=
  let body : Bool × List Char :=
    match s.toList with
    | '-' :: r => (true, r)
    | '+' :: r => (false, r)
    | cs => (false, cs)
  if body.2 = [] then none
  else if body.2.all (fun c => '0' ≤ c ∧ c ≤ '9') = false then none
  else
    let n : Nat := body.2.foldl (fun n c => n * 10 + (c.toNat - 48)) 0
    if body.1 then (if n > 9223372036854775808 then none else some (-(n : Int)))
    else (if n ≥ 9223372036854775808 then none else some (n : Int))

/-- The errors `openstackParse` returns: `c.ArgErr()`, the four `c.Errf`
messages about `ttl` and `reload`, the one about an unknown property, and
`plugin.ErrOnce`. -/
inductive ParseError where
  | ArgErr
  | ttlNotNumber
  | ttlInvalid
  | reloadInvalid (arg : String)
  | reloadNegative (arg : String)
  | unknownProperty (val : String)
  | ErrOnce
deriving Repr, DecidableEq

/-- One line of the block of the directive: `c.Val()` and `c.RemainingArgs()`. -/
structure Property where
  name : String
  args : List String
deriving Repr, DecidableEq

/-- One occurrence of the `openstack` directive: its arguments and the lines
of its block. -/
structure Directive where
  args : List String
  block : List Property
deriving Repr, DecidableEq

/-- The library calls of `openstackParse` whose results are taken as given:
`plugin.OriginsFromArgsOrServerBlock`, `time.ParseDuration` (in nanoseconds,
`none` for an error) and the zones `fall.F.SetZonesFromArgs` stores. -/
structure ConfigLib where
  OriginsFromArgsOrServerBlock : List String → List String → List String
  ParseDuration : String → Option Int
  SetZonesFromArgs : List String → List String

/-- The `switch` of `openstackParse` on one line of the block. -/
def parseProperty (lib : ConfigLib) (os : OpenStack) (p : Property) :
    Except ParseError OpenStack :=
  if p.name = "auth_url" then
    match p.args with
    | [x] => Except.ok { os with authOptions := { os.authOptions with IdentityEndpoint := x } }
    | _ => Except.error ParseError.ArgErr
  else if p.name = "username" then
    match p.args with
    | [x] => Except.ok { os with authOptions := { os.authOptions with Username := x } }
    | _ => Except.error ParseError.ArgErr
  else if p.name = "password" then
    match p.args with
    | [x] => Except.ok { os with authOptions := { os.authOptions with Password := x } }
    | _ => Except.error ParseError.ArgErr
  else if p.name = "domain_name" then
    match p.args with
    | [x] => Except.ok { os with authOptions := { os.authOptions with DomainName := x } }
    | _ => Except.error ParseError.ArgErr
  else if p.name = "tenant_id" then
    match p.args with
    | [x] => Except.ok { os with authOptions := { os.authOptions with TenantID := x } }
    | _ => Except.error ParseError.ArgErr
  else if p.name = "region" then
    match p.args with
    | [x] => Except.ok { os with region := x }
    | _ => Except.error ParseError.ArgErr
  else if p.name = "ttl" then
    match p.args with
    | [x] =>
      match Atoi x with
      | none => Except.error ParseError.ttlNotNumber
      | some ttl =>
        if ttl ≤ 0 ∨ ttl > 65535 then Except.error ParseError.ttlInvalid
        else Except.ok { os with ttl := (ttl % 4294967296).toNat }
    | _ => Except.error ParseError.ArgErr
  else if p.name = "reload" then
    match p.args with
    | [x] =>
      match lib.ParseDuration x with
      | none => Except.error (ParseError.reloadInvalid x)
      | some reload =>
        if reload < 0 then Except.error (ParseError.reloadNegative x)
        else Except.ok { os with reload := reload.toNat }
    | _ => Except.error ParseError.ArgErr
  else if p.name = "fallthrough" then
    Except.ok { os with Fall := ⟨lib.SetZonesFromArgs p.args⟩ }
  else Except.error (ParseError.unknownProperty p.name)

/-- The loop `for c.NextBlock()` of `openstackParse`. -/
def parseBlock (lib : ConfigLib) : OpenStack → List Property → Except ParseError OpenStack
  | os, [] => Except.ok os
  | os, p :: rest =>
    match parseProperty lib os p with
    | Except.error e => Except.error e
    | Except.ok os1 => parseBlock lib os1 rest

/-- The value `openstackParse` starts from. -/
def initialOS : OpenStack :=
  ⟨⟨[]⟩, [], newMap, 3600, 30000000000, ⟨"", "coredns", "", "default", ""⟩, "RegionOne"⟩

/-- The loop `for c.Next()` of `openstackParse`, with the counter `i`. -/
def parseDirectives (lib : ConfigLib) (serverBlockKeys : List String) :
    OpenStack → Nat → List Directive → Option OpenStack × Option ParseError
  | os, _, [] => (some os, none)
  | os, i, d :: rest =>
    if i > 0 then (some os, some ParseError.ErrOnce)
    else
      match parseBlock lib
          { os with origins := lib.OriginsFromArgsOrServerBlock d.args serverBlockKeys }
          d.block with
      | Except.error e => (none, some e)
      | Except.ok os1 => parseDirectives lib serverBlockKeys os1 (i + 1) rest

/-- `openstackParse`: the settings pointer and the error it returns. -/
def openstackParse (lib : ConfigLib) (serverBlockKeys : List String)
    (directives : List Directive) : Option OpenStack × Option ParseError :=
  parseDirectives lib serverBlockKeys initialOS 0 directives

/-- The header of a record. -/
def RR.Hdr : RR → RR_Header
  | RR.A h _ => h
  | RR.PTR h _ => h

/-- A library that leaves zone names as they are written, takes the
arguments of the directive (or else the keys of the server block) as origins
and reads no duration. -/
def plainLib : ConfigLib :=
  ⟨fun args keys => if args = [] then keys else args, fun _ => none,
   fun zones => if zones = [] then ["."] else zones⟩

/-! ## The build in the specification's words -/

/-- The pairs of name and address one refresh records, in accumulation order:
host by host, for each host zone by zone, for each zone the addresses in the
order `extractAddrs` returned them. -/
def recordedPairs (origins : List String) (servers : List Server) : List (String × IP) :=
  servers.flatMap (fun s =>
    origins.flatMap (fun z => (extractAddrs s.Addresses).map (fun addr => (Join s.Name z, addr))))

/-- The servers of all pages of a listing, in listing order. -/
def listedServers : List (Except String (List Server)) → List Server
  | [] => []
  | Except.ok serverList :: rest => serverList ++ listedServers rest
  | Except.error _ :: rest => listedServers rest

/-- The sum of the lengths of the slices of a map. -/
def GoMap.total {α : Type} (m : GoMap (List α)) : Nat :=
  (m.map (fun kv => kv.2.length)).sum

/-- The keys of a map, in insertion order. -/
def GoMap.keys {α : Type} (m : GoMap α) : List String :=
  m.map Prod.fst

/-- The server `Web1`, with a capital letter in its name. -/
def webUpper : Server :=
  ⟨"Web1", [("private", [⟨some "fixed", 4, "10.0.0.30"⟩])]⟩

/-- The plugin for `example.org.` after a refresh that listed `Web1`. -/
def webUpperOS : OpenStack :=
  updateMap (exampleOS [] newMap) (onePage [webUpper])

/-- A character is an upper-case ASCII letter. -/
def isUpperASCII (c : Char) : Bool :=
  'A' ≤ c ∧ c ≤ 'Z'

/-! ## Reading the IPv6 text form back -/

/-- The text split at every colon. -/
def splitColon : List Char → List (List Char)
  | [] => [[]]
  | c :: rest =>
    if c = ':' then [] :: splitColon rest
    else
      match splitColon rest with
      | [] => [[c]]
      | h :: t => (c :: h) :: t

/-- The number a run of hexadecimal digits stands for. -/
def unhex (cs : List Char) : Nat :=
  cs.foldl (fun n c => n * 16 + (hexVal c).getD 0) 0

/-- The eight groups an IPv6 text stands for: the fields between the colons,
with the empty fields of a `::` replaced by as many zero groups as are
missing. -/
def decode6 (text : List Char) : List Nat :=
  let fs := splitColon text
  let left := fs.takeWhile (fun f => f ≠ [])
  let right := (fs.reverse.takeWhile (fun f => f ≠ [])).reverse
  if left.length = fs.length then fs.map unhex
  else left.map unhex ++ List.replicate (8 - left.length - right.length) 0 ++ right.map unhex

/-- Colon-separated hexadecimal text of a list of groups. -/
def render6 : List Nat → List Char
  | [] => []
  | [x] => appendHex x
  | x :: y :: rest => appendHex x ++ ':' :: render6 (y :: rest)

/-- The values a `net.IP` returned by `net.ParseIP` can take: the nil address
or sixteen bytes. -/
def ValidIP (ip : IP) : Prop :=
  ip = [] ∨ (ip.length = 16 ∧ ∀ b ∈ ip, b < 256)

/-- The directory is consistent: an address is in the forward list of a name
exactly when the name is in the reverse list of the text of that address. -/
def Consistent (m : Map) : Prop :=
  ∀ (n : String) (ip : IP), ValidIP ip →
    (ip ∈ m.name4.getSlice n ↔ n ∈ m.addr.getSlice ip.String)

/-! ## Query dispatch -/

/-- Outcome of a query whose `switch` built no answer: the fallthrough policy. -/
theorem ServeDNS_of_no_answer (os : OpenStack) (state : Request)
    (hgate : ¬ (Matches os.origins state.name = "" ∧ state.qtype ≠ TypePTR))
    (hsw : serveSwitch os state = Except.ok []) :
    ServeDNS os state =
      if os.Fall.Through state.name then Outcome.next
      else Outcome.done RcodeServerFailure none := by
  simp only [ServeDNS, hsw, if_neg hgate]
  simp

/-- Outcome of a query whose `switch` built at least one answer. -/
theorem ServeDNS_of_answers (os : OpenStack) (state : Request) (answers : List RR)
    (hgate : ¬ (Matches os.origins state.name = "" ∧ state.qtype ≠ TypePTR))
    (hsw : serveSwitch os state = Except.ok answers) (hne : answers ≠ []) :
    ServeDNS os state =
      Outcome.done RcodeSuccess (some ⟨true, true, RcodeSuccess, answers, [], []⟩) := by
  have hlen : answers.length ≠ 0 := fun h => hne (List.length_eq_zero.mp h)
  simp only [ServeDNS, hsw, if_neg hgate, if_neg hlen]

/-- The `switch` on a reverse query that finds names. -/
theorem serveSwitch_PTR (os : OpenStack) (state : Request) (hP : state.qtype = TypePTR)
    (hne : LookupAddr os (ExtractAddressFromReverse state.name) ≠ []) :
    serveSwitch os state =
      Except.ok (ptr state.name os.ttl (LookupAddr os (ExtractAddressFromReverse state.name))) := by
  have hlen : (LookupAddr os (ExtractAddressFromReverse state.name)).length ≠ 0 :=
    fun h => hne (List.length_eq_zero.mp h)
  simp only [serveSwitch, hP, if_true, if_neg hlen]

/-- A reverse query is decided by the reverse lookup alone. -/
theorem ServeDNS_PTR (os : OpenStack) (state : Request) (hP : state.qtype = TypePTR) :
    ServeDNS os state =
      if LookupAddr os (ExtractAddressFromReverse state.name) = [] then Outcome.next
      else Outcome.done RcodeSuccess (some ⟨true, true, RcodeSuccess,
        ptr state.name os.ttl (LookupAddr os (ExtractAddressFromReverse state.name)), [], []⟩) := by
  have hgate : ¬ (Matches os.origins state.name = "" ∧ state.qtype ≠ TypePTR) :=
    fun h => h.2 hP
  by_cases hne : LookupAddr os (ExtractAddressFromReverse state.name) = []
  · simp [ServeDNS, serveSwitch, hP, hne]
  · rw [if_neg hne]
    apply ServeDNS_of_answers os state _ hgate (serveSwitch_PTR os state hP hne)
    simpa [ptr] using hne

/-- `dns.IsFqdn` on a name whose last character is `c`. -/
theorem IsFqdn_of_reverse (n : String) (c : Char) (rest : List Char)
    (hr : n.toList.reverse = c :: rest) :
    IsFqdn n =
      (if c ≠ '.' then false
       else if leadingBackslashes rest = 0 then true
       else decide (bytesFromLastOther rest % 2 ≠ 0)) := by
  unfold IsFqdn
  rw [hr]

/-- The empty name is not fully qualified. -/
theorem IsFqdn_of_empty (n : String) (hr : n.toList.reverse = []) : IsFqdn n = false := by
  unfold IsFqdn
  rw [hr]

/-- The characters of a name whose reverse is known. -/
theorem toList_of_reverse (n : String) (c : Char) (rest : List Char)
    (hr : n.toList.reverse = c :: rest) : n.toList = rest.reverse ++ [c] := by
  have := congrArg List.reverse hr
  simpa using this

/-- The backslashes counted at the head of a run of backslashes. -/
theorem leadingBackslashes_replicate (k : Nat) (Y : List Char) :
    leadingBackslashes (List.replicate k '\\' ++ Y) = k + leadingBackslashes Y := by
  induction k with
  | zero => simp
  | succ k ih =>
    rw [List.replicate_succ, List.cons_append, leadingBackslashes, if_pos rfl, ih]
    omega

theorem drop_replicate_append (k : Nat) (Y : List Char) :
    (List.replicate k '\\' ++ Y).drop k = Y := by
  induction k with
  | zero => simp
  | succ k ih => rw [List.replicate_succ, List.cons_append, List.drop_succ_cons, ih]

/-- The name `dns.Fqdn` returns ends in a dot. -/
theorem Fqdn_ends_in_dot (n : String) : (Fqdn n).toList.getLast? = some '.' := by
  unfold Fqdn
  by_cases h : IsFqdn n = true
  · rw [if_pos h]
    cases hr : n.toList.reverse with
    | nil =>
      rw [IsFqdn_of_empty n hr] at h
      exact absurd h (by decide)
    | cons c rest =>
      rw [IsFqdn_of_reverse n c rest hr] at h
      have hc : c = '.' := by
        by_contra hc
        rw [if_pos hc] at h
        exact absurd h (by decide)
      rw [toList_of_reverse n c rest hr, hc]
      simp
  · rw [if_neg h]
    simp

/-- C1: an address query under a configured zone whose forward lookup is empty
ends in server-failure with nothing written when the fallthrough set does not
cover the query name, and in the call of the next handler when it does. -/
theorem ServeDNS_A_miss (os : OpenStack) (state : Request)
    (hA : state.qtype = TypeA) (hzone : Matches os.origins state.name ≠ "")
    (hmiss : lookupHostV4 os state.name = []) :
    (os.Fall.Through state.name = false →
      ServeDNS os state = Outcome.done RcodeServerFailure none) ∧
    (os.Fall.Through state.name = true → ServeDNS os state = Outcome.next) := by
  have hgate : ¬ (Matches os.origins state.name = "" ∧ state.qtype ≠ TypePTR) :=
    fun h => hzone h.1
  have hsw : serveSwitch os state = Except.ok [] := by
    simp [serveSwitch, hA, hmiss, a, TypeA, TypePTR]
  rw [ServeDNS_of_no_answer os state hgate hsw]
  constructor
  · intro h; simp [h]
  · intro h; simp [h]

/-- Witness of C1: `web2.example.org.` is under the zone and absent from the
directory; without fallthrough the query fails, with fallthrough for
`example.org.` it goes to the next handler. -/
theorem ServeDNS_A_miss_witness :
    Matches (web1OS []).origins "web2.example.org." ≠ "" ∧
    lookupHostV4 (web1OS []) "web2.example.org." = [] ∧
    ServeDNS (web1OS []) ⟨"web2.example.org.", TypeA⟩ = Outcome.done RcodeServerFailure none ∧
    ServeDNS (web1OS ["example.org."]) ⟨"web2.example.org.", TypeA⟩ = Outcome.next :=
  ⟨by decide, by decide,
   (ServeDNS_A_miss (web1OS []) ⟨"web2.example.org.", TypeA⟩ rfl (by decide) (by decide)).1
     (by decide),
   (ServeDNS_A_miss (web1OS ["example.org."]) ⟨"web2.example.org.", TypeA⟩ rfl (by decide)
     (by decide)).2 (by decide)⟩

/-- C2 as stated fails: a reverse query that finds no name, with a fallthrough
set that does not cover the query name, ends in the call of the next handler
and not in server-failure. -/
theorem ServeDNS_PTR_miss_counterexample :
    LookupAddr (web1OS []) (ExtractAddressFromReverse "11.0.0.10.in-addr.arpa.") = [] ∧
    (web1OS []).Fall.Through "11.0.0.10.in-addr.arpa." = false ∧
    ServeDNS (web1OS []) ⟨"11.0.0.10.in-addr.arpa.", TypePTR⟩ = Outcome.next ∧
    ServeDNS (web1OS []) ⟨"11.0.0.10.in-addr.arpa.", TypePTR⟩ ≠
      Outcome.done RcodeServerFailure none := by
  decide

/-- C2, amended: a reverse query whose reverse lookup yields no hostname ends
in the call of the next handler, whatever the configured zones and whether or
not the fallthrough set covers the query name. -/
theorem ServeDNS_PTR_miss (os : OpenStack) (state : Request)
    (hP : state.qtype = TypePTR)
    (hmiss : LookupAddr os (ExtractAddressFromReverse state.name) = []) :
    ServeDNS os state = Outcome.next := by
  rw [ServeDNS_PTR os state hP, if_pos hmiss]

/-- Witness of C2, amended: no host has the address 10.0.0.11, and the name
`web1.example.org.` holds no address at all; both reverse queries go to the
next handler although nothing falls through. -/
theorem ServeDNS_PTR_miss_witness :
    ServeDNS (web1OS []) ⟨"11.0.0.10.in-addr.arpa.", TypePTR⟩ = Outcome.next ∧
    ServeDNS (web1OS []) ⟨"web1.example.org.", TypePTR⟩ = Outcome.next :=
  ⟨ServeDNS_PTR_miss (web1OS []) ⟨"11.0.0.10.in-addr.arpa.", TypePTR⟩ rfl (by decide),
   ServeDNS_PTR_miss (web1OS []) ⟨"web1.example.org.", TypePTR⟩ rfl (by decide)⟩

/-- C3 as stated fails: a query of type AAAA (28) for a name under the
configured zone, with a fallthrough set that does not cover it, ends in
server-failure. -/
theorem ServeDNS_other_type_counterexample :
    (28 : Nat) ≠ TypeA ∧ (28 : Nat) ≠ TypePTR ∧
    ServeDNS (web1OS []) ⟨"web1.example.org.", 28⟩ = Outcome.done RcodeServerFailure none := by
  decide

/-- C3, amended: a query whose type is neither A nor PTR goes to the next
handler when its name matches no configured zone or the fallthrough set covers
it; when the name is under a configured zone and not covered, the outcome is
server-failure with nothing written. -/
theorem ServeDNS_other_type (os : OpenStack) (state : Request)
    (hA : state.qtype ≠ TypeA) (hP : state.qtype ≠ TypePTR) :
    ServeDNS os state =
      if Matches os.origins state.name = "" ∨ os.Fall.Through state.name = true then Outcome.next
      else Outcome.done RcodeServerFailure none := by
  by_cases hz : Matches os.origins state.name = ""
  · simp [ServeDNS, hz, hP]
  · have hgate : ¬ (Matches os.origins state.name = "" ∧ state.qtype ≠ TypePTR) :=
      fun h => hz h.1
    have hsw : serveSwitch os state = Except.ok [] := by
      simp [serveSwitch, hA, hP]
    rw [ServeDNS_of_no_answer os state hgate hsw]
    simp [hz]

/-- Witness of C3, amended: an AAAA query outside the zone, one under the zone
with fallthrough, and one under the zone without. -/
theorem ServeDNS_other_type_witness :
    ServeDNS (web1OS []) ⟨"web1.example.com.", 28⟩ = Outcome.next ∧
    ServeDNS (web1OS ["."]) ⟨"web1.example.org.", 28⟩ = Outcome.next ∧
    ServeDNS (web1OS []) ⟨"web1.example.org.", 28⟩ = Outcome.done RcodeServerFailure none :=
  ⟨(ServeDNS_other_type (web1OS []) ⟨"web1.example.com.", 28⟩ (by decide) (by decide)).trans
     (by decide),
   (ServeDNS_other_type (web1OS ["."]) ⟨"web1.example.org.", 28⟩ (by decide) (by decide)).trans
     (by decide),
   (ServeDNS_other_type (web1OS []) ⟨"web1.example.org.", 28⟩ (by decide) (by decide)).trans
     (by decide)⟩

/-- C4: a query that is not a reverse query and whose name matches no
configured zone goes to the next handler, whatever the directory, the
fallthrough set and the other settings hold. -/
theorem ServeDNS_no_zone (os : OpenStack) (state : Request)
    (hz : Matches os.origins state.name = "") (hP : state.qtype ≠ TypePTR) :
    ServeDNS os state = Outcome.next := by
  simp [ServeDNS, hz, hP]

/-- Witness of C4: address queries for `web1.example.com.` against the zone
`example.org.`, with and without fallthrough. -/
theorem ServeDNS_no_zone_witness :
    Matches (web1OS []).origins "web1.example.com." = "" ∧
    ServeDNS (web1OS []) ⟨"web1.example.com.", TypeA⟩ = Outcome.next ∧
    ServeDNS (web1OS ["."]) ⟨"web1.example.com.", TypeA⟩ = Outcome.next :=
  ⟨by decide,
   ServeDNS_no_zone (web1OS []) ⟨"web1.example.com.", TypeA⟩ (by decide) (by decide),
   ServeDNS_no_zone (web1OS ["."]) ⟨"web1.example.com.", TypeA⟩ (by decide) (by decide)⟩

/-- A name that does not end in a dot is not fully qualified. -/
theorem IsFqdn_of_no_dot (n : String) (h : n.toList.getLast? ≠ some '.') : IsFqdn n = false := by
  cases hr : n.toList.reverse with
  | nil => exact IsFqdn_of_empty n hr
  | cons c rest =>
    have hc : c ≠ '.' := by
      intro hc
      apply h
      rw [toList_of_reverse n c rest hr, hc]
      simp
    rw [IsFqdn_of_reverse n c rest hr, if_pos hc]

/-- A name that ends in a dot with no backslash right before it is fully
qualified. -/
theorem IsFqdn_of_plain_dot (n : String) (pre : List Char) (c : Char)
    (h : n.toList = pre ++ [c, '.']) (hc : c ≠ '\\') : IsFqdn n = true := by
  have hr : n.toList.reverse = '.' :: (c :: pre.reverse) := by
    rw [h]; simp
  have h0 : leadingBackslashes (c :: pre.reverse) = 0 := by
    rw [leadingBackslashes, if_neg hc]
  have hd : ¬ (('.' : Char) ≠ '.') := fun h => h rfl
  rw [IsFqdn_of_reverse n '.' _ hr, if_neg hd, if_pos h0]

/-- A name that ends in `k` backslashes and a dot, with a one-byte character
that is no backslash before them: it is fully qualified exactly when `k` is
even. -/
theorem IsFqdn_of_backslashes (n : String) (pre : List Char) (c : Char) (k : Nat)
    (h : n.toList = pre ++ c :: (List.replicate k '\\' ++ ['.'])) (hc : c ≠ '\\')
    (hw : c.utf8Size = 1) : IsFqdn n = decide (k % 2 = 0) := by
  have hr : n.toList.reverse = '.' :: (List.replicate k '\\' ++ c :: pre.reverse) := by
    rw [h]; simp
  have hc0 : leadingBackslashes (c :: pre.reverse) = 0 := by
    rw [leadingBackslashes, if_neg hc]
  have hk : leadingBackslashes (List.replicate k '\\' ++ c :: pre.reverse) = k := by
    rw [leadingBackslashes_replicate, hc0, Nat.add_zero]
  have hb : bytesFromLastOther (List.replicate k '\\' ++ c :: pre.reverse) = k + 1 := by
    unfold bytesFromLastOther
    rw [hk, drop_replicate_append]
    show k + c.utf8Size = k + 1
    rw [hw]
  have hd : ¬ (('.' : Char) ≠ '.') := fun h => h rfl
  rw [IsFqdn_of_reverse n '.' _ hr, if_neg hd, hk, hb]
  by_cases h0 : k = 0
  · simp [h0]
  · rw [if_neg h0]
    by_cases he : k % 2 = 0
    · have : (k + 1) % 2 ≠ 0 := by omega
      simp [he, this]
    · have : ¬ (k + 1) % 2 ≠ 0 := by omega
      simp [he, this]

/-- A name that is `k` backslashes and a dot: it is fully qualified exactly
when `k` is even. -/
theorem IsFqdn_of_backslashes_only (n : String) (k : Nat)
    (h : n.toList = List.replicate k '\\' ++ ['.']) : IsFqdn n = decide (k % 2 = 0) := by
  have hr : n.toList.reverse = '.' :: List.replicate k '\\' := by
    rw [h]; simp
  have hk : leadingBackslashes (List.replicate k '\\') = k := by
    have := leadingBackslashes_replicate k []
    simpa [leadingBackslashes] using this
  have hb : bytesFromLastOther (List.replicate k '\\') = k + 1 := by
    unfold bytesFromLastOther
    rw [hk]
    have hdrop : (List.replicate k '\\').drop k = [] := by simp
    rw [hdrop]
  have hd : ¬ (('.' : Char) ≠ '.') := fun h => h rfl
  rw [IsFqdn_of_reverse n '.' _ hr, if_neg hd, hk, hb]
  by_cases h0 : k = 0
  · simp [h0]
  · rw [if_neg h0]
    by_cases he : k % 2 = 0
    · have : (k + 1) % 2 ≠ 0 := by omega
      simp [he, this]
    · have : ¬ (k + 1) % 2 ≠ 0 := by omega
      simp [he, this]

/-- C5: an address query under a configured zone whose forward lookup yields
at least one address ends in success with an authoritative reply; its answer
section holds exactly one address record for each address of the lookup, in
lookup order, each with the query name, the configured TTL and that address,
and the other sections are empty. -/
theorem ServeDNS_A_hit (os : OpenStack) (state : Request)
    (hA : state.qtype = TypeA) (hzone : Matches os.origins state.name ≠ "")
    (hhit : lookupHostV4 os state.name ≠ []) :
    ServeDNS os state =
      Outcome.done RcodeSuccess (some ⟨true, true, RcodeSuccess,
        (lookupHostV4 os state.name).map
          (fun ip => RR.A ⟨state.name, TypeA, ClassINET, os.ttl⟩ ip), [], []⟩) ∧
    ((lookupHostV4 os state.name).map
      (fun ip => RR.A ⟨state.name, TypeA, ClassINET, os.ttl⟩ ip)).length =
        (lookupHostV4 os state.name).length ∧
    ∀ (i : Nat) (hi : i < (lookupHostV4 os state.name).length),
      ((lookupHostV4 os state.name).map
        (fun ip => RR.A ⟨state.name, TypeA, ClassINET, os.ttl⟩ ip))[i]? =
        some (RR.A ⟨state.name, TypeA, ClassINET, os.ttl⟩
          ((lookupHostV4 os state.name).get ⟨i, hi⟩)) := by
  have hgate : ¬ (Matches os.origins state.name = "" ∧ state.qtype ≠ TypePTR) :=
    fun h => hzone h.1
  have hsw : serveSwitch os state = Except.ok (a state.name os.ttl (lookupHostV4 os state.name)) := by
    simp [serveSwitch, hA, TypeA, TypePTR]
  refine ⟨?_, by simp, ?_⟩
  · exact ServeDNS_of_answers os state _ hgate hsw (by simpa [a] using hhit)
  · intro i hi
    simp [List.getElem?_eq_getElem hi]

/-- Witness of C5: with `web1.example.org.` at 10.0.0.10 and TTL 3600 the
address query returns exactly one record with that name, TTL and address. -/
theorem ServeDNS_A_hit_witness :
    lookupHostV4 (web1OS []) "web1.example.org." = [ParseIP "10.0.0.10"] ∧
    ServeDNS (web1OS []) ⟨"web1.example.org.", TypeA⟩ =
      Outcome.done RcodeSuccess (some ⟨true, true, RcodeSuccess,
        [RR.A ⟨"web1.example.org.", TypeA, ClassINET, 3600⟩ (ParseIP "10.0.0.10")], [], []⟩) :=
  ⟨by decide,
   (ServeDNS_A_hit (web1OS []) ⟨"web1.example.org.", TypeA⟩ rfl (by decide) (by decide)).1.trans
     (by decide)⟩

/-- Reverse hit: a reverse query whose reverse lookup yields at least one
hostname ends in success with an authoritative reply; its answer section
holds exactly one pointer record for each hostname of the lookup, in lookup
order, each with the queried name, the configured TTL and, as target,
`dns.Fqdn` of that hostname.  That target always ends in a dot.  A dot is
appended when the hostname does not end in a dot; the hostname is kept as it
is when it ends in a dot with no backslash before it; when `k` backslashes
stand before the final dot and the character before them is a one-byte
character, or there is none, the hostname is kept when `k` is even and a dot
is appended when `k` is odd. -/
theorem ServeDNS_PTR_hit (os : OpenStack) (state : Request)
    (hP : state.qtype = TypePTR)
    (hhit : LookupAddr os (ExtractAddressFromReverse state.name) ≠ []) :
    ServeDNS os state =
      Outcome.done RcodeSuccess (some ⟨true, true, RcodeSuccess,
        (LookupAddr os (ExtractAddressFromReverse state.name)).map
          (fun n => RR.PTR ⟨state.name, TypePTR, ClassINET, os.ttl⟩ (Fqdn n)), [], []⟩) ∧
    ((LookupAddr os (ExtractAddressFromReverse state.name)).map
      (fun n => RR.PTR ⟨state.name, TypePTR, ClassINET, os.ttl⟩ (Fqdn n))).length =
        (LookupAddr os (ExtractAddressFromReverse state.name)).length ∧
    (∀ (i : Nat) (hi : i < (LookupAddr os (ExtractAddressFromReverse state.name)).length),
      ((LookupAddr os (ExtractAddressFromReverse state.name)).map
        (fun n => RR.PTR ⟨state.name, TypePTR, ClassINET, os.ttl⟩ (Fqdn n)))[i]? =
        some (RR.PTR ⟨state.name, TypePTR, ClassINET, os.ttl⟩
          (Fqdn ((LookupAddr os (ExtractAddressFromReverse state.name)).get ⟨i, hi⟩)))) ∧
    ∀ n : String,
      (Fqdn n).toList.getLast? = some '.' ∧
      (n.toList.getLast? ≠ some '.' → Fqdn n = n ++ ".") ∧
      (∀ (pre : List Char) (c : Char), n.toList = pre ++ [c, '.'] → c ≠ '\\' → Fqdn n = n) ∧
      (∀ (pre : List Char) (c : Char) (k : Nat),
        n.toList = pre ++ c :: (List.replicate k '\\' ++ ['.']) → c ≠ '\\' → c.utf8Size = 1 →
        Fqdn n = if k % 2 = 0 then n else n ++ ".") ∧
      (∀ k : Nat, n.toList = List.replicate k '\\' ++ ['.'] →
        Fqdn n = if k % 2 = 0 then n else n ++ ".") := by
  refine ⟨?_, by simp, ?_, ?_⟩
  · rw [ServeDNS_PTR os state hP, if_neg hhit]
    rfl
  · intro i hi
    simp [List.getElem?_eq_getElem hi]
  · intro n
    refine ⟨Fqdn_ends_in_dot n, ?_, ?_, ?_, ?_⟩
    · intro h; simp [Fqdn, IsFqdn_of_no_dot n h]
    · intro pre c h hc; simp [Fqdn, IsFqdn_of_plain_dot n pre c h hc]
    · intro pre c k h hc hw
      unfold Fqdn
      rw [IsFqdn_of_backslashes n pre c k h hc hw]
      by_cases he : k % 2 = 0 <;> simp [he]
    · intro k h
      unfold Fqdn
      rw [IsFqdn_of_backslashes_only n k h]
      by_cases he : k % 2 = 0 <;> simp [he]

/-- The reverse hit of the example: with `web1.example.org.` at 10.0.0.10 the
reverse query on 10.0.0.10 returns exactly one record whose target is
`web1.example.org.`; the hostname `web1.example.org` gets a dot, and the
letter `a`, one backslash and a dot gets one more dot. -/
theorem ServeDNS_PTR_hit_web1 :
    LookupAddr (web1OS []) (ExtractAddressFromReverse "10.0.0.10.in-addr.arpa.") =
      ["web1.example.org."] ∧
    ServeDNS (web1OS []) ⟨"10.0.0.10.in-addr.arpa.", TypePTR⟩ =
      Outcome.done RcodeSuccess (some ⟨true, true, RcodeSuccess,
        [RR.PTR ⟨"10.0.0.10.in-addr.arpa.", TypePTR, ClassINET, 3600⟩ "web1.example.org."],
        [], []⟩) ∧
    Fqdn "web1.example.org" = "web1.example.org." ∧
    Fqdn "a\\." = "a\\.." :=
  ⟨by decide,
   (ServeDNS_PTR_hit (web1OS []) ⟨"10.0.0.10.in-addr.arpa.", TypePTR⟩ rfl (by decide)).1.trans
     (by decide),
   ((ServeDNS_PTR_hit (web1OS []) ⟨"10.0.0.10.in-addr.arpa.", TypePTR⟩ rfl (by decide)).2.2.2
     "web1.example.org").2.1 (by decide),
   (((ServeDNS_PTR_hit (web1OS []) ⟨"10.0.0.10.in-addr.arpa.", TypePTR⟩ rfl (by decide)).2.2.2
     "a\\.").2.2.2.1 [] 'a' 1 (by decide) (by decide) (by decide)).trans (by decide)⟩

/-- C6, the code at the failing input: under the root zone the server named
`é` and two backslashes is stored as that name and a dot.  The final dot is
there and not escaped, two backslashes being one escaped backslash, and the
letter `é` takes two bytes.  The reverse query on its address 10.0.0.41 is
answered with a target that has a second dot.  The server named `a` and two
backslashes, at 10.0.0.40, gets its hostname back as it is.  The server named
`é` and one backslash, at 10.0.0.42, whose final dot is escaped, gets its
hostname back with no dot appended. -/
theorem ServeDNS_PTR_wide_character :
    LookupAddr rootOS (ExtractAddressFromReverse "41.0.0.10.in-addr.arpa.") = ["é\\\\."] ∧
    ("é\\\\.").toList = ['é', '\\', '\\', '.'] ∧
    'é'.utf8Size = 2 ∧
    IsFqdn "é\\\\." = false ∧
    ServeDNS rootOS ⟨"41.0.0.10.in-addr.arpa.", TypePTR⟩ =
      Outcome.done RcodeSuccess (some ⟨true, true, RcodeSuccess,
        [RR.PTR ⟨"41.0.0.10.in-addr.arpa.", TypePTR, ClassINET, 3600⟩ "é\\\\.."], [], []⟩) ∧
    LookupAddr rootOS (ExtractAddressFromReverse "40.0.0.10.in-addr.arpa.") = ["a\\\\."] ∧
    ServeDNS rootOS ⟨"40.0.0.10.in-addr.arpa.", TypePTR⟩ =
      Outcome.done RcodeSuccess (some ⟨true, true, RcodeSuccess,
        [RR.PTR ⟨"40.0.0.10.in-addr.arpa.", TypePTR, ClassINET, 3600⟩ "a\\\\."], [], []⟩) ∧
    LookupAddr rootOS (ExtractAddressFromReverse "42.0.0.10.in-addr.arpa.") = ["é\\."] ∧
    ServeDNS rootOS ⟨"42.0.0.10.in-addr.arpa.", TypePTR⟩ =
      Outcome.done RcodeSuccess (some ⟨true, true, RcodeSuccess,
        [RR.PTR ⟨"42.0.0.10.in-addr.arpa.", TypePTR, ClassINET, 3600⟩ "é\\."], [], []⟩) := by
  decide

/-- C7: the outcome of a reverse query does not depend on the configured
zones: it is the same under any two zone lists, all else equal; and a reverse
query that finds a hostname succeeds even when its name matches no configured
zone. -/
theorem ServeDNS_PTR_any_zones (os : OpenStack) (state : Request)
    (origins1 origins2 : List String) (hP : state.qtype = TypePTR) :
    ServeDNS { os with origins := origins1 } state =
      ServeDNS { os with origins := origins2 } state ∧
    (LookupAddr os (ExtractAddressFromReverse state.name) ≠ [] →
      Matches os.origins state.name = "" →
      ∃ m : Msg, ServeDNS os state = Outcome.done RcodeSuccess (some m) ∧
        m.Authoritative = true ∧ m.Answer ≠ []) := by
  constructor
  · rw [ServeDNS_PTR _ state hP, ServeDNS_PTR _ state hP]
    rfl
  · intro hhit _
    rw [ServeDNS_PTR os state hP, if_neg hhit]
    exact ⟨_, rfl, rfl, by simpa [ptr] using hhit⟩

/-- Witness of C7: the reverse name of 10.0.0.10 is under no zone of
`example.org.` or `example.com.`, and the query succeeds under both. -/
theorem ServeDNS_PTR_any_zones_witness :
    Matches ["example.org."] "10.0.0.10.in-addr.arpa." = "" ∧
    ServeDNS { web1OS [] with origins := ["example.org."] } ⟨"10.0.0.10.in-addr.arpa.", TypePTR⟩ =
      ServeDNS { web1OS [] with origins := ["example.com."] }
        ⟨"10.0.0.10.in-addr.arpa.", TypePTR⟩ ∧
    ∃ m : Msg, ServeDNS (web1OS []) ⟨"10.0.0.10.in-addr.arpa.", TypePTR⟩ =
      Outcome.done RcodeSuccess (some m) ∧ m.Authoritative = true ∧ m.Answer ≠ [] :=
  ⟨by decide,
   (ServeDNS_PTR_any_zones (web1OS []) ⟨"10.0.0.10.in-addr.arpa.", TypePTR⟩
     ["example.org."] ["example.com."] rfl).1,
   (ServeDNS_PTR_any_zones (web1OS []) ⟨"10.0.0.10.in-addr.arpa.", TypePTR⟩
     ["example.org."] ["example.com."] rfl).2 (by decide) (by decide)⟩

/-! ## Address selection -/

/-- The inner loop of `extractAddrs` appends the included entries of one list. -/
theorem extractAddrs_inner (l : List AddrEntry) (acc : List IP) :
    l.foldl
      (fun addrs k =>
        if k.ipsType ≠ some "floating" ∧ k.version = 4 then addrs ++ [ParseIP k.addr]
        else addrs) acc =
      acc ++ (l.filter included).map (fun k => ParseIP k.addr) := by
  induction l generalizing acc with
  | nil => simp
  | cons k rest ih =>
    rw [List.foldl_cons, ih]
    by_cases hk : k.ipsType ≠ some "floating" ∧ k.version = 4
    · have hi : included k = true := by simp [included, hk.1, hk.2]
      simp [hk, hi]
    · have hi : included k = false := by
        simp only [included, decide_eq_false_iff_not]
        exact fun h => hk ⟨h.2, h.1⟩
      simp [hk, hi]

/-- The outer loop of `extractAddrs` appends the included addresses. -/
theorem extractAddrs_outer (sa : List (String × List AddrEntry)) (acc : List IP) :
    sa.foldl
      (fun addrs addrList =>
        addrList.2.foldl
          (fun addrs k =>
            if k.ipsType ≠ some "floating" ∧ k.version = 4 then addrs ++ [ParseIP k.addr]
            else addrs) addrs) acc =
      acc ++ includedAddrs sa := by
  induction sa generalizing acc with
  | nil => simp [includedAddrs]
  | cons x rest ih =>
    rw [List.foldl_cons, ih, extractAddrs_inner]
    simp [includedAddrs, List.append_assoc]

/-- `extractAddrs` computes the selection of the specification. -/
theorem extractAddrs_eq (sa : List (String × List AddrEntry)) :
    extractAddrs sa = includedAddrs sa := by
  unfold extractAddrs
  rw [extractAddrs_outer]
  simp

/-- An entry that is not included can be dropped from the input. -/
theorem includedAddrs_drop (pre post : List (String × List AddrEntry)) (net : String)
    (l1 l2 : List AddrEntry) (e : AddrEntry) (he : included e = false) :
    includedAddrs (pre ++ (net, l1 ++ e :: l2) :: post) =
      includedAddrs (pre ++ (net, l1 ++ l2) :: post) := by
  simp [includedAddrs, List.filter_cons, he]

/-- C8: `extractAddrs` returns, in order, the parsed addresses of exactly the
entries whose version is 4 and whose role is not `floating`.  An entry of
version 6, whatever its role, or of role `floating` contributes nothing:
with or without it `extractAddrs` returns the same addresses and
`updateMap` records the same forward and reverse entries for the server. -/
theorem extractAddrs_selects (pre post : List (String × List AddrEntry)) (net : String)
    (l1 l2 : List AddrEntry) (e : AddrEntry)
    (he : e.version = 6 ∨ e.ipsType = some "floating") :
    extractAddrs (pre ++ (net, l1 ++ e :: l2) :: post) =
      ((((pre ++ (net, l1 ++ e :: l2) :: post).flatMap (fun addrList => addrList.2)).filter
        (fun k => decide (k.version = 4 ∧ k.ipsType ≠ some "floating"))).map
          (fun k => ParseIP k.addr)) ∧
    extractAddrs (pre ++ (net, l1 ++ e :: l2) :: post) =
      extractAddrs (pre ++ (net, l1 ++ l2) :: post) ∧
    ∀ (origins : List String) (hmap : Map) (name : String),
      recordServer origins hmap ⟨name, pre ++ (net, l1 ++ e :: l2) :: post⟩ =
        recordServer origins hmap ⟨name, pre ++ (net, l1 ++ l2) :: post⟩ := by
  have hinc : included e = false := by
    simp only [included, decide_eq_false_iff_not]
    rcases he with h | h
    · intro hc; rw [h] at hc; exact absurd hc.1 (by decide)
    · intro hc; exact hc.2 h
  have hdrop : extractAddrs (pre ++ (net, l1 ++ e :: l2) :: post) =
      extractAddrs (pre ++ (net, l1 ++ l2) :: post) := by
    rw [extractAddrs_eq, extractAddrs_eq]
    exact includedAddrs_drop pre post net l1 l2 e hinc
  refine ⟨?_, hdrop, ?_⟩
  · rw [extractAddrs_eq]
    rfl
  · intro origins hmap name
    simp only [recordServer, hdrop]

/-- Witness of C8: of the entries of `web6` only the fixed IPv4 one yields an
address; without the IPv6 entry the result is the same. -/
theorem extractAddrs_selects_witness :
    extractAddrs web6.Addresses = [ParseIP "10.0.0.16"] ∧
    extractAddrs web6.Addresses =
      extractAddrs [("private", [⟨some "fixed", 4, "10.0.0.16"⟩]),
        ("public", [⟨some "floating", 4, "203.0.113.16"⟩])] :=
  ⟨by decide,
   (extractAddrs_selects [] [("public", [⟨some "floating", 4, "203.0.113.16"⟩])] "private"
     [⟨some "fixed", 4, "10.0.0.16"⟩] [] ⟨some "fixed", 6, "fe80::16"⟩ (Or.inl rfl)).2.1⟩

/-! ## Building the directory -/

theorem GoMap.get?_set_self {α : Type} (m : GoMap α) (k : String) (v : α) :
    GoMap.get? (GoMap.set m k v) k = some v := by
  induction m with
  | nil => simp [GoMap.set, GoMap.get?]
  | cons x rest ih =>
    obtain ⟨k0, w⟩ := x
    by_cases h : k0 = k
    · simp [GoMap.set, GoMap.get?, h]
    · simp [GoMap.set, GoMap.get?, h, ih]

theorem GoMap.get?_set_ne {α : Type} (m : GoMap α) (k key : String) (v : α) (hne : k ≠ key) :
    GoMap.get? (GoMap.set m k v) key = GoMap.get? m key := by
  induction m with
  | nil => simp [GoMap.set, GoMap.get?, hne]
  | cons x rest ih =>
    obtain ⟨k0, w⟩ := x
    by_cases h : k0 = k
    · have h2 : ¬ k0 = key := fun h3 => hne (h.symm.trans h3)
      have h4 : ¬ k = key := hne
      simp [GoMap.set, GoMap.get?, h, h4]
    · by_cases h5 : k0 = key
      · subst h5
        simp [GoMap.set, GoMap.get?, h]
      · simp [GoMap.set, GoMap.get?, h, h5, ih]

theorem GoMap.getSlice_set_self {α : Type} (m : GoMap (List α)) (k : String) (v : List α) :
    GoMap.getSlice (GoMap.set m k v) k = v := by
  simp [GoMap.getSlice, GoMap.get?_set_self]

theorem GoMap.getSlice_set_ne {α : Type} (m : GoMap (List α)) (k key : String) (v : List α)
    (hne : k ≠ key) : GoMap.getSlice (GoMap.set m k v) key = GoMap.getSlice m key := by
  simp [GoMap.getSlice, GoMap.get?_set_ne m k key v hne]

/-- Recording an address keeps every slice of the forward map and can only
extend it at the end. -/
theorem mem_getSlice_set_append {α : Type} (m : GoMap (List α)) (k key : String) (x y : α)
    (h : x ∈ GoMap.getSlice m key) :
    x ∈ GoMap.getSlice (GoMap.set m k (GoMap.getSlice m k ++ [y])) key := by
  by_cases hk : k = key
  · subst hk
    rw [GoMap.getSlice_set_self]
    exact List.mem_append_left _ h
  · rw [GoMap.getSlice_set_ne m k key _ hk]
    exact h

/-- One step of the innermost loop records its pair. -/
theorem recordAddr_records (name : String) (hmap : Map) (addr : IP) :
    Recorded (recordAddr name hmap addr) name addr := by
  constructor
  · show addr ∈ GoMap.getSlice (GoMap.set hmap.name4 name _) name
    rw [GoMap.getSlice_set_self]
    simp
  · show name ∈ GoMap.getSlice (GoMap.set hmap.addr addr.String _) addr.String
    rw [GoMap.getSlice_set_self]
    simp

/-- One step of the innermost loop keeps the pairs recorded before. -/
theorem recordAddr_keeps (name : String) (hmap : Map) (addr : IP) (n : String) (ip : IP)
    (h : Recorded hmap n ip) : Recorded (recordAddr name hmap addr) n ip :=
  ⟨mem_getSlice_set_append hmap.name4 name n ip addr h.1,
   mem_getSlice_set_append hmap.addr addr.String ip.String n name h.2⟩

theorem recordAddrs_keeps (name : String) (addrs : List IP) (hmap : Map) (n : String) (ip : IP)
    (h : Recorded hmap n ip) : Recorded (recordAddrs name hmap addrs) n ip := by
  induction addrs generalizing hmap with
  | nil => exact h
  | cons x rest ih => exact ih _ (recordAddr_keeps name hmap x n ip h)

theorem recordAddrs_records (name : String) (addrs : List IP) (hmap : Map) (ip : IP)
    (hip : ip ∈ addrs) : Recorded (recordAddrs name hmap addrs) name ip := by
  induction addrs generalizing hmap with
  | nil => cases hip
  | cons x rest ih =>
    rcases List.mem_cons.mp hip with h | h
    · subst h
      exact recordAddrs_keeps name rest _ name ip (recordAddr_records name hmap ip)
    · exact ih _ h

theorem recordServer_keeps (origins : List String) (s : Server) (hmap : Map) (n : String)
    (ip : IP) (h : Recorded hmap n ip) : Recorded (recordServer origins hmap s) n ip := by
  unfold recordServer
  induction origins generalizing hmap with
  | nil => exact h
  | cons z rest ih => exact ih _ (recordAddrs_keeps _ _ hmap n ip h)

theorem recordServer_records (origins : List String) (s : Server) (hmap : Map) (z : String)
    (ip : IP) (hz : z ∈ origins) (hip : ip ∈ extractAddrs s.Addresses) :
    Recorded (recordServer origins hmap s) (Join s.Name z) ip := by
  induction origins generalizing hmap with
  | nil => cases hz
  | cons z0 rest ih =>
    rcases List.mem_cons.mp hz with h | h
    · subst h
      exact recordServer_keeps rest s _ _ ip (recordAddrs_records _ _ hmap ip hip)
    · exact ih _ h

theorem recordPage_keeps (origins : List String) (serverList : List Server) (hmap : Map)
    (n : String) (ip : IP) (h : Recorded hmap n ip) :
    Recorded (serverList.foldl (recordServer origins) hmap) n ip := by
  induction serverList generalizing hmap with
  | nil => exact h
  | cons s rest ih => exact ih _ (recordServer_keeps origins s hmap n ip h)

theorem recordPage_records (origins : List String) (serverList : List Server) (hmap : Map)
    (s : Server) (z : String) (ip : IP) (hs : s ∈ serverList) (hz : z ∈ origins)
    (hip : ip ∈ extractAddrs s.Addresses) :
    Recorded (serverList.foldl (recordServer origins) hmap) (Join s.Name z) ip := by
  induction serverList generalizing hmap with
  | nil => cases hs
  | cons s0 rest ih =>
    rcases List.mem_cons.mp hs with h | h
    · subst h
      exact recordPage_keeps origins rest _ _ ip (recordServer_records origins s hmap z ip hz hip)
    · exact ih _ h

theorem eachPage_keeps (origins : List String) (pages : List (Except String (List Server)))
    (hmap built : Map) (n : String) (ip : IP) (hb : eachPage origins hmap pages = Except.ok built)
    (h : Recorded hmap n ip) : Recorded built n ip := by
  induction pages generalizing hmap with
  | nil =>
    simp only [eachPage, Except.ok.injEq] at hb
    exact hb ▸ h
  | cons pg rest ih =>
    cases pg with
    | error e => simp [eachPage] at hb
    | ok serverList =>
      simp only [eachPage] at hb
      exact ih _ hb (recordPage_keeps origins serverList hmap n ip h)

theorem eachPage_records (origins : List String) (pages : List (Except String (List Server)))
    (hmap built : Map) (serverList : List Server) (s : Server) (z : String) (ip : IP)
    (hb : eachPage origins hmap pages = Except.ok built)
    (hpg : Except.ok serverList ∈ pages) (hs : s ∈ serverList) (hz : z ∈ origins)
    (hip : ip ∈ extractAddrs s.Addresses) : Recorded built (Join s.Name z) ip := by
  induction pages generalizing hmap with
  | nil => cases hpg
  | cons pg rest ih =>
    cases pg with
    | error e => simp [eachPage] at hb
    | ok sl =>
      simp only [eachPage] at hb
      rcases List.mem_cons.mp hpg with h | h
      · have hsl : serverList = sl := by injection h
        subst hsl
        exact eachPage_keeps origins rest _ built _ ip hb
          (recordPage_records origins serverList hmap s z ip hs hz hip)
      · exact ih _ hb h

/-- An included entry of a server yields its parsed address. -/
theorem mem_extractAddrs (sa : List (String × List AddrEntry)) (net : String × List AddrEntry)
    (e : AddrEntry) (hnet : net ∈ sa) (he : e ∈ net.2) (hv : e.version = 4)
    (hf : e.ipsType ≠ some "floating") : ParseIP e.addr ∈ extractAddrs sa := by
  rw [extractAddrs_eq]
  unfold includedAddrs
  apply List.mem_map.mpr
  refine ⟨e, ?_, rfl⟩
  apply List.mem_filter.mpr
  refine ⟨?_, by simp [included, hv, hf]⟩
  exact List.mem_flatMap.mpr ⟨net, hnet, he⟩

/-! ## Addresses: text form and back -/

/-- The decimal digit characters are digits of the reader, and none of the
characters that select a reader. -/
theorem digitChar_facts :
    ∀ d < 10, ('0' ≤ Nat.digitChar d ∧ Nat.digitChar d ≤ '9') ∧
      (Nat.digitChar d).toNat - 48 = d ∧ Nat.digitChar d ≠ '.' ∧
      Nat.digitChar d ≠ ':' ∧ Nat.digitChar d ≠ '%' := by
  decide

/-- The reader on one digit. -/
theorem parseIPv4Loop_digit (d : Nat) (hd : d < 10) (fields : List Nat) (val digLen : Nat)
    (prev : Option Char) (rest : List Char) (hz : ¬ (digLen = 1 ∧ val = 0))
    (hv : val * 10 + d ≤ 255) :
    parseIPv4Loop ⟨fields, val, digLen⟩ prev (Nat.digitChar d :: rest) =
      parseIPv4Loop ⟨fields, val * 10 + d, digLen + 1⟩ (some (Nat.digitChar d)) rest := by
  obtain ⟨h1, h2, _⟩ := digitChar_facts d hd
  have hv2 : ¬ (val * 10 + d > 255) := by omega
  rw [parseIPv4Loop]
  simp only [h1, h2, and_self, if_true, if_neg hz, if_neg hv2]

/-- The reader on a dot that closes an octet. -/
theorem parseIPv4Loop_dot (fields : List Nat) (val digLen : Nat) (c : Char)
    (rest : List Char) (hc : c ≠ '.') (hrest : rest ≠ []) (hlen : fields.length ≠ 3) :
    parseIPv4Loop ⟨fields, val, digLen⟩ (some c) ('.' :: rest) =
      parseIPv4Loop ⟨fields ++ [val], 0, 0⟩ (some '.') rest := by
  have hnd : ¬ ('0' ≤ '.' ∧ '.' ≤ '9') := by decide
  have hg : ¬ (some c = none ∨ rest = [] ∨ some c = some '.') := by
    simp [hrest, hc]
  rw [parseIPv4Loop]
  simp only [hnd, if_false, if_true, if_neg hg, if_neg hlen]

/-- The reader on the decimal text of one byte. -/
theorem parseIPv4Loop_octet (x : Nat) (hx : x < 256) :
    ∃ (k : Nat) (c : Char), c ≠ '.' ∧
      ∀ (fields : List Nat) (prev : Option Char) (rest : List Char),
        parseIPv4Loop ⟨fields, 0, 0⟩ prev (appendDecimal x ++ rest) =
          parseIPv4Loop ⟨fields, x, k⟩ (some c) rest := by
  by_cases h100 : x ≥ 100
  · have h10 : x ≥ 10 := by omega
    refine ⟨3, Nat.digitChar (x % 10), (digitChar_facts _ (by omega)).2.2.1, ?_⟩
    intro fields prev rest
    simp only [appendDecimal, if_pos h100, if_pos h10, List.append_assoc, List.singleton_append,
      List.cons_append, List.nil_append]
    rw [parseIPv4Loop_digit (x / 100) (by omega) fields 0 0 prev _ (by omega) (by omega)]
    rw [parseIPv4Loop_digit (x / 10 % 10) (by omega) fields _ _ _ _ (by omega) (by omega)]
    rw [parseIPv4Loop_digit (x % 10) (by omega) fields _ _ _ _ (by omega) (by omega)]
    have : (0 * 10 + x / 100) * 10 + x / 10 % 10 = x / 10 := by omega
    have h2 : ((0 * 10 + x / 100) * 10 + x / 10 % 10) * 10 + x % 10 = x := by omega
    rw [h2]
  · by_cases h10 : x ≥ 10
    · refine ⟨2, Nat.digitChar (x % 10), (digitChar_facts _ (by omega)).2.2.1, ?_⟩
      intro fields prev rest
      simp only [appendDecimal, if_neg h100, if_pos h10, List.nil_append, List.singleton_append,
        List.cons_append]
      rw [parseIPv4Loop_digit (x / 10 % 10) (by omega) fields 0 0 prev _ (by omega) (by omega)]
      rw [parseIPv4Loop_digit (x % 10) (by omega) fields _ _ _ _ (by omega) (by omega)]
      have h2 : (0 * 10 + x / 10 % 10) * 10 + x % 10 = x := by omega
      rw [h2]
    · refine ⟨1, Nat.digitChar (x % 10), (digitChar_facts _ (by omega)).2.2.1, ?_⟩
      intro fields prev rest
      simp only [appendDecimal, if_neg h100, if_neg h10, List.nil_append, List.singleton_append,
        List.cons_append]
      rw [parseIPv4Loop_digit (x % 10) (by omega) fields 0 0 prev _ (by omega) (by omega)]
      have h2 : 0 * 10 + x % 10 = x := by omega
      rw [h2]

theorem appendDecimal_ne_nil (x : Nat) : appendDecimal x ≠ [] := by
  simp [appendDecimal]

/-- Reading the dotted-decimal text of four bytes gives the four bytes. -/
theorem parseIPv4_string4 (a b c d : Nat) (ha : a < 256) (hb : b < 256) (hc : c < 256)
    (hd : d < 256) : parseIPv4 (string4 [a, b, c, d]) = some [a, b, c, d] := by
  obtain ⟨ka, ca, hca, ea⟩ := parseIPv4Loop_octet a ha
  obtain ⟨kb, cb, hcb, eb⟩ := parseIPv4Loop_octet b hb
  obtain ⟨kc, cc, hcc, ec⟩ := parseIPv4Loop_octet c hc
  obtain ⟨kd, cd, _, ed⟩ := parseIPv4Loop_octet d hd
  have hne : ∀ (x : Nat) (r : List Char), appendDecimal x ++ r ≠ [] := by
    intro x r h
    exact appendDecimal_ne_nil x (List.append_eq_nil.mp h).1
  have hd0 : parseIPv4Loop ⟨[a, b, c], 0, 0⟩ (some '.') (appendDecimal d) =
      parseIPv4Loop ⟨[a, b, c], d, kd⟩ (some cd) [] := by
    have := ed [a, b, c] (some '.') []
    simpa using this
  unfold parseIPv4
  simp only [string4, List.getD_cons_zero, List.getD_cons_succ, List.append_assoc,
    List.singleton_append, List.cons_append, List.nil_append]
  rw [ea, parseIPv4Loop_dot _ _ _ _ _ hca (hne _ _) (by simp), List.nil_append,
    eb, parseIPv4Loop_dot _ _ _ _ _ hcb (hne _ _) (by simp), List.singleton_append,
    ec, parseIPv4Loop_dot _ _ _ _ _ hcc (appendDecimal_ne_nil d) (by simp)]
  simp only [List.cons_append, List.nil_append]
  show (match parseIPv4Loop ⟨[a, b, c], 0, 0⟩ (some '.') (appendDecimal d) with
    | none => none
    | some st => if st.fields.length < 3 then none else some (st.fields ++ [st.val])) = _
  rw [hd0, parseIPv4Loop]
  simp

/-- The search for the character that selects the reader skips the decimal
text of a byte. -/
theorem find_special_appendDecimal (x : Nat) (hx : x < 256) (rest : List Char) :
    (appendDecimal x ++ rest).find? (fun c => c = '.' ∨ c = ':' ∨ c = '%') =
      rest.find? (fun c => c = '.' ∨ c = ':' ∨ c = '%') := by
  have hskip : ∀ d < 10, ∀ r : List Char,
      (Nat.digitChar d :: r).find? (fun c => c = '.' ∨ c = ':' ∨ c = '%') =
        r.find? (fun c => c = '.' ∨ c = ':' ∨ c = '%') := by
    intro d hd r
    obtain ⟨_, _, h1, h2, h3⟩ := digitChar_facts d hd
    simp [List.find?_cons, h1, h2, h3]
  by_cases h100 : x ≥ 100
  · have h10 : x ≥ 10 := by omega
    simp only [appendDecimal, if_pos h100, if_pos h10, List.append_assoc, List.singleton_append,
      List.cons_append, List.nil_append]
    rw [hskip _ (by omega), hskip _ (by omega), hskip _ (by omega)]
  · by_cases h10 : x ≥ 10
    · simp only [appendDecimal, if_neg h100, if_pos h10, List.nil_append, List.singleton_append,
        List.cons_append]
      rw [hskip _ (by omega), hskip _ (by omega)]
    · simp only [appendDecimal, if_neg h100, if_neg h10, List.nil_append, List.singleton_append,
        List.cons_append]
      rw [hskip _ (by omega)]

/-- `net.ParseIP` reads the dotted-decimal text of four bytes back. -/
theorem ParseIP_string4 (a b c d : Nat) (ha : a < 256) (hb : b < 256) (hc : c < 256)
    (hd : d < 256) : ParseIP (String.mk (string4 [a, b, c, d])) = v4InV6Head ++ [a, b, c, d] := by
  have hfind : (string4 [a, b, c, d]).find? (fun c => c = '.' ∨ c = ':' ∨ c = '%') =
      some '.' := by
    simp only [string4, List.getD_cons_zero, List.append_assoc]
    rw [find_special_appendDecimal a ha]
    simp [List.find?_cons]
  unfold ParseIP
  show (match (string4 [a, b, c, d]).find? (fun c => c = '.' ∨ c = ':' ∨ c = '%') with
    | none => []
    | some ch =>
      if ch = '.' then
        match parseIPv4 (string4 [a, b, c, d]) with
        | none => []
        | some f => v4InV6Head ++ f
      else if ch = ':' then
        match parseIPv6 (string4 [a, b, c, d]) with
        | none => []
        | some b => b
      else []) = _
  rw [hfind]
  simp only [if_true, parseIPv4_string4 a b c d ha hb hc hd]

/-- An IPv4 address is printed as the dotted-decimal text of its four bytes. -/
theorem String_of_To4 (ip : IP) (h4 : To4 ip ≠ []) :
    (To4 ip).length = 4 ∧ IP.String ip = String.mk (string4 (To4 ip)) := by
  have hlen : (To4 ip).length = 4 := by
    unfold To4 at h4 ⊢
    by_cases h : ip.length = 4
    · simp [h]
    · rw [if_neg h] at h4 ⊢
      by_cases h16 : ip.length = 16 ∧ ip.take 12 = v4InV6Head
      · rw [if_pos h16]
        simp [h16.1]
      · rw [if_neg h16] at h4
        exact absurd rfl h4
  refine ⟨hlen, ?_⟩
  have hl : ip.length = 4 ∨ ip.length = 16 := by
    unfold To4 at h4
    by_cases h : ip.length = 4
    · exact Or.inl h
    · rw [if_neg h] at h4
      by_cases h16 : ip.length = 16 ∧ ip.take 12 = v4InV6Head
      · exact Or.inr h16.1
      · rw [if_neg h16] at h4
        exact absurd rfl h4
  have h0 : ¬ ip.length = 0 := by omega
  have h1 : ¬ (ip.length ≠ 4 ∧ ip.length ≠ 16) := by omega
  unfold IP.String
  rw [if_neg h0, if_neg h1, if_pos hlen]

/-- The four bytes of an IPv4 address held in sixteen bytes. -/
theorem To4_v4InV6 (p : List Nat) (hp : p.length = 4) : To4 (v4InV6Head ++ p) = p := by
  unfold To4
  have h1 : ¬ (v4InV6Head ++ p).length = 4 := by simp [v4InV6Head, hp]
  have h2 : (v4InV6Head ++ p).length = 16 ∧ (v4InV6Head ++ p).take 12 = v4InV6Head := by
    constructor
    · simp [v4InV6Head, hp]
    · simp [v4InV6Head]
  rw [if_neg h1, if_pos h2]
  simp [v4InV6Head]

theorem To4_bytes (ip : IP) (hb : ∀ b ∈ ip, b < 256) : ∀ b ∈ To4 ip, b < 256 := by
  intro b hmem
  unfold To4 at hmem
  by_cases h : ip.length = 4
  · rw [if_pos h] at hmem
    exact hb b hmem
  · rw [if_neg h] at hmem
    by_cases h16 : ip.length = 16 ∧ ip.take 12 = v4InV6Head
    · rw [if_pos h16] at hmem
      exact hb b (List.mem_of_mem_drop hmem)
    · rw [if_neg h16] at hmem
      cases hmem

/-- The text of an IPv4 address is read back to an address with the same
text, and that text is not empty. -/
theorem String_ParseIP_String (ip : IP) (h4 : To4 ip ≠ []) (hb : ∀ b ∈ ip, b < 256) :
    IP.String (ParseIP (IP.String ip)) = IP.String ip ∧ IP.String ip ≠ "" := by
  obtain ⟨hlen, hs⟩ := String_of_To4 ip h4
  have hbytes := To4_bytes ip hb
  obtain ⟨a, b, c, d, hp⟩ : ∃ a b c d, To4 ip = [a, b, c, d] := by
    match hq : To4 ip, hlen with
    | [a, b, c, d], _ => exact ⟨a, b, c, d, rfl⟩
  rw [hp] at hbytes
  have ha : a < 256 := hbytes a (by simp)
  have hb2 : b < 256 := hbytes b (by simp)
  have hc : c < 256 := hbytes c (by simp)
  have hd : d < 256 := hbytes d (by simp)
  rw [hs, hp, ParseIP_string4 a b c d ha hb2 hc hd]
  constructor
  · have h5 : To4 (v4InV6Head ++ [a, b, c, d]) ≠ [] := by
      rw [To4_v4InV6 [a, b, c, d] rfl]; simp
    rw [(String_of_To4 _ h5).2, To4_v4InV6 [a, b, c, d] rfl]
  · intro h
    have h6 := congrArg String.toList h
    have h7 : string4 [a, b, c, d] = [] := h6
    have h8 : appendDecimal d = [] := by
      simp only [string4, List.getD_cons_zero, List.getD_cons_succ, List.append_eq_nil] at h7
      exact h7.2
    exact appendDecimal_ne_nil d h8

/-! ## Addresses: every byte is a byte -/

theorem parseIPv4Loop_bytes (s : List Char) (st : V4State) (prev : Option Char) (out : V4State)
    (hf : ∀ b ∈ st.fields, b < 256) (hv : st.val < 256)
    (h : parseIPv4Loop st prev s = some out) :
    (∀ b ∈ out.fields, b < 256) ∧ out.val < 256 := by
  induction s generalizing st prev with
  | nil =>
    simp only [parseIPv4Loop, Option.some.injEq] at h
    subst h
    exact ⟨hf, hv⟩
  | cons c rest ih =>
    rw [parseIPv4Loop] at h
    split at h
    · split at h
      · cases h
      · split at h
        · cases h
        · rename_i _ _ hle
          exact ih ⟨st.fields, st.val * 10 + (c.toNat - 48), st.digLen + 1⟩ _ hf
            (by show st.val * 10 + (c.toNat - 48) < 256; omega) h
    · split at h
      · split at h
        · cases h
        · split at h
          · cases h
          · refine ih ⟨st.fields ++ [st.val], 0, 0⟩ _ ?_ (Nat.zero_lt_succ 255) h
            intro b hb
            rcases List.mem_append.mp hb with h1 | h1
            · exact hf b h1
            · simp only [List.mem_singleton] at h1
              omega
      · cases h

theorem parseIPv4_bytes (s : List Char) (f : List Nat) (h : parseIPv4 s = some f) :
    ∀ b ∈ f, b < 256 := by
  unfold parseIPv4 at h
  split at h
  · cases h
  · rename_i st hst
    split at h
    · cases h
    · simp only [Option.some.injEq] at h
      subst h
      obtain ⟨h1, h2⟩ := parseIPv4Loop_bytes s _ none st (by simp) (by simp) hst
      intro b hb
      rcases List.mem_append.mp hb with h3 | h3
      · exact h1 b h3
      · simp only [List.mem_singleton] at h3
        omega

theorem hexGroup_bound (s : List Char) (acc off : Nat) (out : Nat × Nat × List Char)
    (ha : acc ≤ 65535) (h : hexGroup s acc off = some out) : out.1 ≤ 65535 := by
  induction s generalizing acc off with
  | nil =>
    simp only [hexGroup, Option.some.injEq] at h
    subst h
    exact ha
  | cons c rest ih =>
    rw [hexGroup] at h
    split at h
    · simp only [Option.some.injEq] at h
      subst h
      exact ha
    · split at h
      · cases h
      · split at h
        · cases h
        · exact ih _ _ (by omega) h

theorem append_group_bytes (ip : List Nat) (acc : Nat) (hip : ∀ b ∈ ip, b < 256)
    (ha : acc ≤ 65535) : ∀ b ∈ ip ++ [acc / 256, acc % 256], b < 256 := by
  intro b hb
  rcases List.mem_append.mp hb with h | h
  · exact hip b h
  · simp only [List.mem_cons, List.mem_singleton, List.not_mem_nil, or_false] at h
    rcases h with h | h <;> omega

theorem parseIPv6Loop_bytes (fuel : Nat) (st out : V6State) (hip : ∀ b ∈ st.ip, b < 256)
    (h : parseIPv6Loop fuel st = some out) : ∀ b ∈ out.ip, b < 256 := by
  induction fuel generalizing st with
  | zero => simp [parseIPv6Loop] at h
  | succ fuel ih =>
    rw [parseIPv6Loop] at h
    split at h
    · simp only [Option.some.injEq] at h
      subst h
      exact hip
    · split at h
      · cases h
      · rename_i acc off rest hg
        have hacc : acc ≤ 65535 := hexGroup_bound st.s 0 0 (acc, off, rest) (by omega) hg
        have hgrp := append_group_bytes st.ip acc hip hacc
        split at h
        · cases h
        · split at h
          · split at h
            · cases h
            · split at h
              · cases h
              · split at h
                · cases h
                · rename_i f hf
                  simp only [Option.some.injEq] at h
                  subst h
                  intro b hb
                  rcases List.mem_append.mp hb with h1 | h1
                  · exact hip b h1
                  · exact parseIPv4_bytes st.s f hf b h1
          · split at h
            · simp only [Option.some.injEq] at h
              subst h
              exact hgrp
            · cases h
            · split at h
              · cases h
              · split at h
                · split at h
                  · cases h
                  · split at h
                    · simp only [Option.some.injEq] at h
                      subst h
                      exact hgrp
                    · exact ih _ hgrp h
                · exact ih _ hgrp h

theorem parseIPv6_bytes (s : List Char) (f : List Nat) (h : parseIPv6 s = some f) :
    ∀ b ∈ f, b < 256 := by
  unfold parseIPv6 at h
  split at h
  · cases h
  · simp only at h
    split at h
    · simp only [Option.some.injEq] at h
      subst h
      intro b hb
      rw [List.mem_replicate] at hb
      omega
    · split at h
      · cases h
      · rename_i st hst
        have hbytes : ∀ b ∈ st.ip, b < 256 := by
          refine parseIPv6Loop_bytes 9 _ st ?_ hst
          intro b hb
          split at hb <;> cases hb
        split at h
        · cases h
        · split at h
          · split at h
            · cases h
            · simp only [Option.some.injEq] at h
              subst h
              intro b hb
              rcases List.mem_append.mp hb with h1 | h1
              · rcases List.mem_append.mp h1 with h2 | h2
                · exact hbytes b (List.mem_of_mem_take h2)
                · rw [List.mem_replicate] at h2
                  omega
              · exact hbytes b (List.mem_of_mem_drop h1)
          · split at h
            · cases h
            · simp only [Option.some.injEq] at h
              subst h
              exact hbytes

/-- Every byte of an address that `net.ParseIP` returns is below 256. -/
theorem ParseIP_bytes (s : String) : ∀ b ∈ ParseIP s, b < 256 := by
  intro b hb
  unfold ParseIP at hb
  split at hb
  · cases hb
  · split at hb
    · split at hb
      · cases hb
      · rename_i f hf
        rcases List.mem_append.mp hb with h1 | h1
        · have : ∀ x ∈ v4InV6Head, x < 256 := by decide
          exact this b h1
        · exact parseIPv4_bytes _ f hf b h1
    · split at hb
      · split at hb
        · cases hb
        · rename_i f hf
          exact parseIPv6_bytes _ f hf b hb
      · cases hb

/-! ## Refresh and lookups -/

theorem lookupHostV4_eq (os : OpenStack) (host : String) :
    lookupHostV4 os host = os.hmap.name4.getSlice host := by
  unfold lookupHostV4 GoMap.getSlice
  cases GoMap.get? os.hmap.name4 host <;> rfl

/-- The reverse lookup by the text of an IPv4 address returns the names
stored under that text. -/
theorem mem_LookupAddr (os : OpenStack) (ip : IP) (n : String) (h4 : To4 ip ≠ [])
    (hb : ∀ b ∈ ip, b < 256) (hn : n ∈ os.hmap.addr.getSlice (IP.String ip)) :
    n ∈ LookupAddr os (IP.String ip) := by
  obtain ⟨hrt, hne⟩ := String_ParseIP_String ip h4 hb
  have hlen : ¬ (GoMap.getSlice os.hmap.addr (IP.String ip)).length = 0 := by
    intro h0
    rw [List.length_eq_zero.mp h0] at hn
    cases hn
  unfold LookupAddr
  simp only [hrt, if_neg hne, if_neg hlen]
  exact hn

/-- A walk over pages none of which fails ends with a directory. -/
theorem eachPage_ok (origins : List String) (pages : List (Except String (List Server)))
    (hmap : Map) (hpages : ∀ err, Except.error err ∉ pages) :
    ∃ built, eachPage origins hmap pages = Except.ok built := by
  induction pages generalizing hmap with
  | nil => exact ⟨hmap, rfl⟩
  | cons pg rest ih =>
    cases pg with
    | error e => exact absurd (List.mem_cons_self _ _) (hpages e)
    | ok sl =>
      simp only [eachPage]
      exact ih _ (fun err h => hpages err (List.mem_cons_of_mem _ h))

/-- A cycle whose steps all succeed publishes the directory it built. -/
theorem updateMap_ok (os : OpenStack) (p : Provider) (built : Map)
    (hclient : p.client = Except.ok ()) (hcompute : p.compute = Except.ok ())
    (hb : eachPage os.origins newMap p.pages = Except.ok built) :
    (updateMap os p).hmap = built := by
  unfold updateMap
  rw [hclient, hcompute]
  simp only [hb]

/-- C9, the code at the failing input: the server `bad` has one entry whose
address is no address and one whose address is 10.0.0.20.  After the refresh
the forward list of `bad.example.org.` holds the nil address next to
10.0.0.20, the reverse map has the key `<nil>`, and the address query for the
name answers with a record whose address is nil. -/
theorem updateMap_records_malformed :
    ParseIP "bogus" = [] ∧
    extractAddrs bad.Addresses = [[], ParseIP "10.0.0.20"] ∧
    lookupHostV4 badOS "bad.example.org." = [[], ParseIP "10.0.0.20"] ∧
    badOS.hmap.addr =
      [("<nil>", ["bad.example.org."]), ("10.0.0.20", ["bad.example.org."])] ∧
    ServeDNS badOS ⟨"bad.example.org.", TypeA⟩ =
      Outcome.done RcodeSuccess (some ⟨true, true, RcodeSuccess,
        [RR.A ⟨"bad.example.org.", TypeA, ClassINET, 3600⟩ [],
         RR.A ⟨"bad.example.org.", TypeA, ClassINET, 3600⟩ (ParseIP "10.0.0.20")], [], []⟩) := by
  decide

/-- C10: after a refresh in which every step succeeds, for every listed
server, every configured zone and every address entry of the server that has
version 4, is not floating and parses to an IPv4 address, the forward lookup
of the joined name contains the address and the reverse lookup of the
address in its text form contains the joined name. -/
theorem updateMap_round_trip (os : OpenStack) (p : Provider) (serverList : List Server)
    (s : Server) (z : String) (net : String × List AddrEntry) (e : AddrEntry)
    (hclient : p.client = Except.ok ()) (hcompute : p.compute = Except.ok ())
    (hpages : ∀ err, Except.error err ∉ p.pages)
    (hpg : Except.ok serverList ∈ p.pages) (hs : s ∈ serverList) (hz : z ∈ os.origins)
    (hnet : net ∈ s.Addresses) (he : e ∈ net.2)
    (hv : e.version = 4) (hf : e.ipsType ≠ some "floating")
    (h4 : To4 (ParseIP e.addr) ≠ []) :
    ParseIP e.addr ∈ lookupHostV4 (updateMap os p) (Join s.Name z) ∧
    Join s.Name z ∈ LookupAddr (updateMap os p) (IP.String (ParseIP e.addr)) := by
  obtain ⟨built, hb⟩ := eachPage_ok os.origins p.pages newMap hpages
  have hmap := updateMap_ok os p built hclient hcompute hb
  have hrec : Recorded built (Join s.Name z) (ParseIP e.addr) :=
    eachPage_records os.origins p.pages newMap built serverList s z _ hb hpg hs hz
      (mem_extractAddrs s.Addresses net e hnet he hv hf)
  constructor
  · rw [lookupHostV4_eq, hmap]
    exact hrec.1
  · apply mem_LookupAddr _ _ _ h4 (ParseIP_bytes e.addr)
    rw [hmap]
    exact hrec.2

/-- Witness of C10: the server `web1` with the fixed address 10.0.0.10 and the
floating address 203.0.113.5, and the zone `example.org.`.  The forward
lookup of `web1.example.org.` is exactly 10.0.0.10, the reverse lookup of
10.0.0.10 is exactly that name, and the floating address is in neither
mapping. -/
theorem updateMap_round_trip_witness :
    (ParseIP "10.0.0.10" ∈ lookupHostV4 (web1OS []) (Join "web1" "example.org.") ∧
      Join "web1" "example.org." ∈ LookupAddr (web1OS []) (IP.String (ParseIP "10.0.0.10"))) ∧
    lookupHostV4 (web1OS []) "web1.example.org." = [ParseIP "10.0.0.10"] ∧
    LookupAddr (web1OS []) "10.0.0.10" = ["web1.example.org."] ∧
    LookupAddr (web1OS []) "203.0.113.5" = [] ∧
    (web1OS []).hmap =
      ⟨[("web1.example.org.", [[0, 0, 0, 0, 0, 0, 0, 0, 0, 0, 255, 255, 10, 0, 0, 10]])],
       [("10.0.0.10", ["web1.example.org."])]⟩ :=
  ⟨updateMap_round_trip (exampleOS [] newMap) (onePage [web1]) [web1] web1 "example.org."
     ("private", [⟨some "fixed", 4, "10.0.0.10"⟩, ⟨some "floating", 4, "203.0.113.5"⟩])
     ⟨some "fixed", 4, "10.0.0.10"⟩ rfl rfl (by simp [onePage]) (by simp [onePage])
     (by simp) (by simp [exampleOS]) (by simp [web1]) (by simp) rfl (by decide) (by decide),
   by decide, by decide, by decide, by decide⟩

/-! ## The configuration parser -/

theorem parseProperty_hmap (lib : ConfigLib) (os os1 : OpenStack) (p : Property)
    (h : parseProperty lib os p = Except.ok os1) : os1.hmap = os.hmap := by
  unfold parseProperty at h
  repeat' split at h
  all_goals (cases h <;> rfl)

theorem parseBlock_hmap (lib : ConfigLib) (props : List Property) (os os1 : OpenStack)
    (h : parseBlock lib os props = Except.ok os1) : os1.hmap = os.hmap := by
  induction props generalizing os with
  | nil =>
    simp only [parseBlock, Except.ok.injEq] at h
    rw [← h]
  | cons p rest ih =>
    rw [parseBlock] at h
    split at h
    · cases h
    · rename_i os2 hp
      rw [ih os2 h, parseProperty_hmap lib os os2 p hp]

theorem parseDirectives_hmap (lib : ConfigLib) (keys : List String) (ds : List Directive)
    (os : OpenStack) (i : Nat) (parsed : OpenStack) (err : Option ParseError)
    (h : parseDirectives lib keys os i ds = (some parsed, err)) : parsed.hmap = os.hmap := by
  induction ds generalizing os i with
  | nil =>
    simp only [parseDirectives, Prod.mk.injEq, Option.some.injEq] at h
    rw [← h.1]
  | cons d rest ih =>
    rw [parseDirectives] at h
    split at h
    · simp only [Prod.mk.injEq, Option.some.injEq] at h
      rw [← h.1]
    · split at h
      · simp at h
      · rename_i os1 hb
        rw [ih os1 (i + 1) h, parseBlock_hmap lib d.block _ os1 hb]

/-- The settings `openstackParse` returns hold the empty directory. -/
theorem openstackParse_hmap (lib : ConfigLib) (keys : List String) (ds : List Directive)
    (parsed : OpenStack) (err : Option ParseError)
    (h : openstackParse lib keys ds = (some parsed, err)) : parsed.hmap = newMap := by
  unfold openstackParse at h
  rw [parseDirectives_hmap lib keys ds initialOS 0 parsed err h]
  rfl
/-! ## Query dispatch: the whole decision -/

/-- `ServeDNS` as one decision on the query type, the zone match, the lookup
and the fallthrough set. -/
theorem ServeDNS_cases (os : OpenStack) (state : Request) :
    ServeDNS os state =
      if state.qtype = TypePTR then
        if LookupAddr os (ExtractAddressFromReverse state.name) = [] then Outcome.next
        else Outcome.done RcodeSuccess (some ⟨true, true, RcodeSuccess,
          ptr state.name os.ttl (LookupAddr os (ExtractAddressFromReverse state.name)), [], []⟩)
      else if Matches os.origins state.name = "" then Outcome.next
      else if state.qtype = TypeA then
        if lookupHostV4 os state.name = [] then
          if os.Fall.Through state.name then Outcome.next
          else Outcome.done RcodeServerFailure none
        else Outcome.done RcodeSuccess (some ⟨true, true, RcodeSuccess,
          a state.name os.ttl (lookupHostV4 os state.name), [], []⟩)
      else
        if os.Fall.Through state.name then Outcome.next
        else Outcome.done RcodeServerFailure none := by
  by_cases hP : state.qtype = TypePTR
  · rw [if_pos hP]
    exact ServeDNS_PTR os state hP
  · rw [if_neg hP]
    by_cases hz : Matches os.origins state.name = ""
    · rw [if_pos hz]
      simp [ServeDNS, hz, hP]
    · rw [if_neg hz]
      have hgate : ¬ (Matches os.origins state.name = "" ∧ state.qtype ≠ TypePTR) :=
        fun h => hz h.1
      by_cases hA : state.qtype = TypeA
      · rw [if_pos hA]
        have hsw : serveSwitch os state =
            Except.ok (a state.name os.ttl (lookupHostV4 os state.name)) := by
          simp [serveSwitch, hA, TypeA, TypePTR]
        by_cases hl : lookupHostV4 os state.name = []
        · rw [if_pos hl]
          rw [hl] at hsw
          exact ServeDNS_of_no_answer os state hgate hsw
        · rw [if_neg hl]
          exact ServeDNS_of_answers os state _ hgate hsw (by simpa [a] using hl)
      · rw [if_neg hA]
        have hsw : serveSwitch os state = Except.ok [] := by
          simp [serveSwitch, hA, hP]
        exact ServeDNS_of_no_answer os state hgate hsw

/-- The lookups in the empty directory find nothing. -/
theorem lookups_newMap (os : OpenStack) (hempty : os.hmap = newMap) :
    (∀ host, lookupHostV4 os host = []) ∧ (∀ addr, LookupAddr os addr = []) := by
  constructor
  · intro host
    simp [lookupHostV4, hempty, newMap, GoMap.get?]
  · intro addr
    simp [LookupAddr, hempty, newMap, GoMap.getSlice, GoMap.get?]

/-- C19: `ServeDNS` returns server-failure exactly when the query name is
under a configured zone, the fallthrough set does not cover it, and the type
is A with an empty forward lookup or is neither A nor PTR; nothing is written
then.  No reverse query and no query outside every configured zone ends in
server-failure. -/
theorem ServeDNS_server_failure_iff (os : OpenStack) (state : Request) :
    ((∃ w, ServeDNS os state = Outcome.done RcodeServerFailure w) ↔
      (Matches os.origins state.name ≠ "" ∧ os.Fall.Through state.name = false ∧
        ((state.qtype = TypeA ∧ lookupHostV4 os state.name = []) ∨
          (state.qtype ≠ TypeA ∧ state.qtype ≠ TypePTR)))) ∧
    (∀ w, ServeDNS os state = Outcome.done RcodeServerFailure w → w = none) ∧
    (state.qtype = TypePTR → ∀ w, ServeDNS os state ≠ Outcome.done RcodeServerFailure w) ∧
    (Matches os.origins state.name = "" →
      ∀ w, ServeDNS os state ≠ Outcome.done RcodeServerFailure w) := by
  have hcode : RcodeSuccess ≠ RcodeServerFailure := by decide
  have hAP : TypeA ≠ TypePTR := by decide
  have hPA : TypePTR ≠ TypeA := by decide
  by_cases hP : state.qtype = TypePTR
  · by_cases hl : LookupAddr os (ExtractAddressFromReverse state.name) = []
    · have hv : ServeDNS os state = Outcome.next := by
        rw [ServeDNS_cases os state, if_pos hP, if_pos hl]
      simp [hv, hP, hPA]
    · have hv : ServeDNS os state = Outcome.done RcodeSuccess (some ⟨true, true, RcodeSuccess,
          ptr state.name os.ttl (LookupAddr os (ExtractAddressFromReverse state.name)), [], []⟩) := by
        rw [ServeDNS_cases os state, if_pos hP, if_neg hl]
      simp [hv, hP, hPA, hcode]
  · by_cases hz : Matches os.origins state.name = ""
    · have hv : ServeDNS os state = Outcome.next := by
        rw [ServeDNS_cases os state, if_neg hP, if_pos hz]
      simp [hv, hz]
    · by_cases hA : state.qtype = TypeA
      · by_cases hl : lookupHostV4 os state.name = []
        · by_cases hf : os.Fall.Through state.name = true
          · have hv : ServeDNS os state = Outcome.next := by
              rw [ServeDNS_cases os state, if_neg hP, if_neg hz, if_pos hA, if_pos hl, if_pos hf]
            simp [hv, hz, hf]
          · have hv : ServeDNS os state = Outcome.done RcodeServerFailure none := by
              rw [ServeDNS_cases os state, if_neg hP, if_neg hz, if_pos hA, if_pos hl, if_neg hf]
            simp [hv, hz, hf, hA, hl, hAP]
        · have hv : ServeDNS os state = Outcome.done RcodeSuccess (some ⟨true, true, RcodeSuccess,
              a state.name os.ttl (lookupHostV4 os state.name), [], []⟩) := by
            rw [ServeDNS_cases os state, if_neg hP, if_neg hz, if_pos hA, if_neg hl]
          simp [hv, hz, hA, hl, hcode, hAP]
      · by_cases hf : os.Fall.Through state.name = true
        · have hv : ServeDNS os state = Outcome.next := by
            rw [ServeDNS_cases os state, if_neg hP, if_neg hz, if_neg hA, if_pos hf]
          simp [hv, hz, hf]
        · have hv : ServeDNS os state = Outcome.done RcodeServerFailure none := by
            rw [ServeDNS_cases os state, if_neg hP, if_neg hz, if_neg hA, if_neg hf]
          simp [hv, hz, hf, hA, hP]

/-- Witness of C19: against `web1` under `example.org.` without fallthrough,
an unknown name and an AAAA query fail, the known name does not, and neither
does a reverse query or a query outside the zone. -/
theorem ServeDNS_server_failure_iff_witness :
    (∃ w, ServeDNS (web1OS []) ⟨"web2.example.org.", TypeA⟩ =
      Outcome.done RcodeServerFailure w) ∧
    (∃ w, ServeDNS (web1OS []) ⟨"web1.example.org.", 28⟩ =
      Outcome.done RcodeServerFailure w) ∧
    (¬ ∃ w, ServeDNS (web1OS []) ⟨"web1.example.org.", TypeA⟩ =
      Outcome.done RcodeServerFailure w) ∧
    (∀ w, ServeDNS (web1OS []) ⟨"11.0.0.10.in-addr.arpa.", TypePTR⟩ ≠
      Outcome.done RcodeServerFailure w) ∧
    (∀ w, ServeDNS (web1OS []) ⟨"web1.example.com.", TypeA⟩ ≠
      Outcome.done RcodeServerFailure w) :=
  ⟨(ServeDNS_server_failure_iff (web1OS []) ⟨"web2.example.org.", TypeA⟩).1.mpr (by decide),
   (ServeDNS_server_failure_iff (web1OS []) ⟨"web1.example.org.", 28⟩).1.mpr (by decide),
   fun h => absurd
     ((ServeDNS_server_failure_iff (web1OS []) ⟨"web1.example.org.", TypeA⟩).1.mp h)
     (by decide),
   (ServeDNS_server_failure_iff (web1OS []) ⟨"11.0.0.10.in-addr.arpa.", TypePTR⟩).2.2.1 rfl,
   (ServeDNS_server_failure_iff (web1OS []) ⟨"web1.example.com.", TypeA⟩).2.2.2 (by decide)⟩

/-- C15 as stated fails: with the empty directory of `openstackParse` in
service and no fallthrough, an address query under the configured zone ends in
server-failure. -/
theorem ServeDNS_empty_directory_counterexample :
    openstackParse plainLib ["example.org."] [⟨[], []⟩] =
      (some (exampleOS [] newMap), none) ∧
    (exampleOS [] newMap).hmap = newMap ∧
    ServeDNS (exampleOS [] newMap) ⟨"web1.example.org.", TypeA⟩ =
      Outcome.done RcodeServerFailure none := by
  decide

/-- C15, amended: with the empty directory in service no query is answered.
A reverse query, a query outside every configured zone and a query whose name
the fallthrough set covers go to the next handler; any other query, that is
one of another type under a configured zone that does not fall through, ends
in server-failure with nothing written.  The settings `openstackParse`
returns hold the empty directory. -/
theorem ServeDNS_empty_directory (os : OpenStack) (state : Request)
    (hempty : os.hmap = newMap) :
    ServeDNS os state =
      (if state.qtype = TypePTR ∨ Matches os.origins state.name = "" ∨
          os.Fall.Through state.name = true then Outcome.next
       else Outcome.done RcodeServerFailure none) ∧
    (∀ rcode m, ServeDNS os state ≠ Outcome.done rcode (some m)) ∧
    (∀ (lib : ConfigLib) (keys : List String) (ds : List Directive) (parsed : OpenStack)
       (err : Option ParseError),
      openstackParse lib keys ds = (some parsed, err) → parsed.hmap = newMap) := by
  obtain ⟨hf, hr⟩ := lookups_newMap os hempty
  have hmain : ServeDNS os state =
      (if state.qtype = TypePTR ∨ Matches os.origins state.name = "" ∨
          os.Fall.Through state.name = true then Outcome.next
       else Outcome.done RcodeServerFailure none) := by
    rw [ServeDNS_cases os state, hf, hr]
    by_cases hP : state.qtype = TypePTR
    · simp [hP]
    · by_cases hz : Matches os.origins state.name = ""
      · simp [hP, hz]
      · by_cases hA : state.qtype = TypeA
        · by_cases hfall : os.Fall.Through state.name = true <;> simp [hP, hz, hA, hfall]
        · by_cases hfall : os.Fall.Through state.name = true <;> simp [hP, hz, hA, hfall]
  refine ⟨hmain, ?_, ?_⟩
  · intro rcode m
    rw [hmain]
    split <;> simp
  · intro lib keys ds parsed err hparse
    exact openstackParse_hmap lib keys ds parsed err hparse

/-- Witness of C15, amended: with the empty directory a reverse query and an
address query that falls through go to the next handler, and an address query
under the zone without fallthrough ends in server-failure. -/
theorem ServeDNS_empty_directory_witness :
    ServeDNS (exampleOS [] newMap) ⟨"10.0.0.10.in-addr.arpa.", TypePTR⟩ = Outcome.next ∧
    ServeDNS (exampleOS ["."] newMap) ⟨"web1.example.org.", TypeA⟩ = Outcome.next ∧
    ServeDNS (exampleOS [] newMap) ⟨"web1.example.com.", TypeA⟩ = Outcome.next ∧
    ServeDNS (exampleOS [] newMap) ⟨"web1.example.org.", TypeA⟩ =
      Outcome.done RcodeServerFailure none :=
  ⟨(ServeDNS_empty_directory (exampleOS [] newMap) ⟨"10.0.0.10.in-addr.arpa.", TypePTR⟩
     rfl).1.trans (by decide),
   (ServeDNS_empty_directory (exampleOS ["."] newMap) ⟨"web1.example.org.", TypeA⟩
     rfl).1.trans (by decide),
   (ServeDNS_empty_directory (exampleOS [] newMap) ⟨"web1.example.com.", TypeA⟩
     rfl).1.trans (by decide),
   (ServeDNS_empty_directory (exampleOS [] newMap) ⟨"web1.example.org.", TypeA⟩
     rfl).1.trans (by decide)⟩

/-! ## Failed refresh cycles -/

/-- A walk that meets a failing page ends with an error. -/
theorem eachPage_error (origins : List String) (pages : List (Except String (List Server)))
    (hmap : Map) (e : String) (he : Except.error e ∈ pages) :
    ∃ err, eachPage origins hmap pages = Except.error err := by
  induction pages generalizing hmap with
  | nil => cases he
  | cons pg rest ih =>
    cases pg with
    | error e0 => exact ⟨e0, rfl⟩
    | ok sl =>
      simp only [eachPage]
      rcases List.mem_cons.mp he with h | h
      · cases h
      · exact ih _ h

/-- C13: when the authentication, the creation of the compute client or the
listing of any page fails, `updateMap` leaves the plugin as it was; the
forward and reverse lookups return after the cycle what they returned before
it, whatever the pages before the failure listed. -/
theorem updateMap_failure (os : OpenStack) (p : Provider)
    (hfail : (∃ e, p.client = Except.error e) ∨ (∃ e, p.compute = Except.error e) ∨
      (∃ e, Except.error e ∈ p.pages)) :
    updateMap os p = os ∧
    (∀ host, lookupHostV4 (updateMap os p) host = lookupHostV4 os host) ∧
    (∀ addr, LookupAddr (updateMap os p) addr = LookupAddr os addr) := by
  have hsame : updateMap os p = os := by
    unfold updateMap
    rcases hfail with ⟨e, h⟩ | ⟨e, h⟩ | ⟨e, h⟩
    · rw [h]
    · rw [h]
      cases p.client <;> rfl
    · obtain ⟨err, herr⟩ := eachPage_error os.origins p.pages newMap e h
      rw [herr]
      cases p.client <;> cases p.compute <;> rfl
  refine ⟨hsame, ?_, ?_⟩
  · intro host; rw [hsame]
  · intro addr; rw [hsame]

/-- Witness of C13: with `web1` in service, a cycle whose first page lists
`web6` and whose second page fails publishes nothing, and neither does one
whose authentication fails. -/
theorem updateMap_failure_witness :
    updateMap (web1OS []) ⟨Except.ok (), Except.ok (), [Except.ok [web6], Except.error "EOF"]⟩ =
      web1OS [] ∧
    lookupHostV4
      (updateMap (web1OS []) ⟨Except.ok (), Except.ok (), [Except.ok [web6], Except.error "EOF"]⟩)
      "web6.example.org." = [] ∧
    lookupHostV4
      (updateMap (web1OS []) ⟨Except.ok (), Except.ok (), [Except.ok [web6], Except.error "EOF"]⟩)
      "web1.example.org." = [ParseIP "10.0.0.10"] ∧
    updateMap (web1OS []) ⟨Except.error "401", Except.ok (), [Except.ok [web6]]⟩ = web1OS [] :=
  ⟨(updateMap_failure (web1OS [])
      ⟨Except.ok (), Except.ok (), [Except.ok [web6], Except.error "EOF"]⟩
      (Or.inr (Or.inr ⟨"EOF", by simp⟩))).1,
   by decide, by decide,
   (updateMap_failure (web1OS []) ⟨Except.error "401", Except.ok (), [Except.ok [web6]]⟩
      (Or.inl ⟨"401", rfl⟩)).1⟩

/-! ## Reverse lookup of a text that is no address -/

/-- C12, the code at the failing input: the directory published after listing
the server `bad` has the reverse key `<nil>`.  The empty string and a host
name are no addresses, `LookupAddr` turns both into the text `<nil>`, passes
its test for the empty string and returns the hostname stored under that key;
a reverse query whose name is no reverse name is answered with it. -/
theorem LookupAddr_invalid_finds_names :
    ParseIP "" = [] ∧ ParseIP "bogus.example.org." = [] ∧
    IP.String (ParseIP "") = "<nil>" ∧
    LookupAddr badOS "" = ["bad.example.org."] ∧
    LookupAddr badOS "bogus.example.org." = ["bad.example.org."] ∧
    ExtractAddressFromReverse "bogus.example.org." = "" ∧
    ServeDNS badOS ⟨"bogus.example.org.", TypePTR⟩ =
      Outcome.done RcodeSuccess (some ⟨true, true, RcodeSuccess,
        [RR.PTR ⟨"bogus.example.org.", TypePTR, ClassINET, 3600⟩ "bad.example.org."],
        [], []⟩) := by
  decide

/-! ## The `ttl` property -/

/-- The `ttl` line is accepted exactly for one argument that `strconv.Atoi`
reads as a number from 1 to 65535, and then sets the TTL to that number. -/
theorem parseProperty_ttl_iff (lib : ConfigLib) (os os1 : OpenStack) (args : List String) :
    parseProperty lib os ⟨"ttl", args⟩ = Except.ok os1 ↔
      ∃ (x : String) (n : Int), args = [x] ∧ Atoi x = some n ∧ 1 ≤ n ∧ n ≤ 65535 ∧
        os1 = { os with ttl := n.toNat } := by
  have hname : ∀ s : String, s ≠ "ttl" → ¬ (("ttl" : String) = s) := fun s h h2 => h h2.symm
  have hred : parseProperty lib os ⟨"ttl", args⟩ =
      (match args with
        | [x] =>
          match Atoi x with
          | none => Except.error ParseError.ttlNotNumber
          | some ttl =>
            if ttl ≤ 0 ∨ ttl > 65535 then Except.error ParseError.ttlInvalid
            else Except.ok { os with ttl := (ttl % 4294967296).toNat }
        | _ => Except.error ParseError.ArgErr) := by
    unfold parseProperty
    simp only [hname "auth_url" (by decide), hname "username" (by decide),
      hname "password" (by decide), hname "domain_name" (by decide),
      hname "tenant_id" (by decide), hname "region" (by decide), if_false, if_true]
  rw [hred]
  constructor
  · intro h
    split at h
    · rename_i x
      split at h
      · cases h
      · rename_i n hn
        split at h
        · cases h
        · rename_i hr
          refine ⟨x, n, rfl, hn, by omega, by omega, ?_⟩
          have hmod : (n % 4294967296).toNat = n.toNat := by omega
          simp only [Except.ok.injEq] at h
          rw [← h, hmod]
    · cases h
  · rintro ⟨x, n, rfl, hn, h1, h2, rfl⟩
    have hr : ¬ (n ≤ 0 ∨ n > 65535) := by omega
    have hmod : (n % 4294967296).toNat = n.toNat := by omega
    simp only [hn, if_neg hr, hmod]

/-- A line other than `ttl` leaves the TTL as it is. -/
theorem parseProperty_ttl_other (lib : ConfigLib) (os os1 : OpenStack) (p : Property)
    (hp : p.name ≠ "ttl") (h : parseProperty lib os p = Except.ok os1) : os1.ttl = os.ttl := by
  unfold parseProperty at h
  simp only [if_neg hp] at h
  repeat' split at h
  all_goals (cases h <;> rfl)

/-- Every accepted line keeps the TTL between 1 and 65535. -/
theorem parseProperty_ttl_range (lib : ConfigLib) (os os1 : OpenStack) (p : Property)
    (hr : 1 ≤ os.ttl ∧ os.ttl ≤ 65535) (h : parseProperty lib os p = Except.ok os1) :
    1 ≤ os1.ttl ∧ os1.ttl ≤ 65535 := by
  by_cases hp : p.name = "ttl"
  · have hp2 : p = ⟨"ttl", p.args⟩ := by
      cases p; simp only [Property.mk.injEq, and_true]; exact hp
    rw [hp2] at h
    obtain ⟨x, n, _, _, h1, h2, rfl⟩ := (parseProperty_ttl_iff lib os os1 p.args).mp h
    show 1 ≤ n.toNat ∧ n.toNat ≤ 65535
    omega
  · rw [parseProperty_ttl_other lib os os1 p hp h]
    exact hr

theorem parseBlock_ttl_range (lib : ConfigLib) (props : List Property) (os os1 : OpenStack)
    (hr : 1 ≤ os.ttl ∧ os.ttl ≤ 65535) (h : parseBlock lib os props = Except.ok os1) :
    1 ≤ os1.ttl ∧ os1.ttl ≤ 65535 := by
  induction props generalizing os with
  | nil =>
    simp only [parseBlock, Except.ok.injEq] at h
    rw [← h]; exact hr
  | cons p rest ih =>
    rw [parseBlock] at h
    split at h
    · cases h
    · rename_i os2 hp
      exact ih os2 (parseProperty_ttl_range lib os os2 p hr hp) h

theorem parseBlock_ttl_other (lib : ConfigLib) (props : List Property) (os os1 : OpenStack)
    (hno : ∀ p ∈ props, p.name ≠ "ttl") (h : parseBlock lib os props = Except.ok os1) :
    os1.ttl = os.ttl := by
  induction props generalizing os with
  | nil =>
    simp only [parseBlock, Except.ok.injEq] at h
    rw [← h]
  | cons p rest ih =>
    rw [parseBlock] at h
    split at h
    · cases h
    · rename_i os2 hp
      rw [ih os2 (fun q hq => hno q (List.mem_cons_of_mem _ hq)) h,
        parseProperty_ttl_other lib os os2 p (hno p (List.mem_cons_self _ _)) hp]

/-- The block is read line by line. -/
theorem parseBlock_append (lib : ConfigLib) (l1 l2 : List Property) (os : OpenStack) :
    parseBlock lib os (l1 ++ l2) =
      match parseBlock lib os l1 with
      | Except.error e => Except.error e
      | Except.ok os1 => parseBlock lib os1 l2 := by
  induction l1 generalizing os with
  | nil => rfl
  | cons p rest ih =>
    simp only [List.cons_append, parseBlock]
    cases parseProperty lib os p with
    | error e => rfl
    | ok os2 => exact ih os2

/-- What a parse without error went through: no directive at all, or exactly
one, whose block was accepted. -/
theorem parseDirectives_ok (lib : ConfigLib) (keys : List String) (ds : List Directive)
    (os0 os : OpenStack) (h : parseDirectives lib keys os0 0 ds = (some os, none)) :
    (ds = [] ∧ os = os0) ∨
    ∃ d, ds = [d] ∧
      parseBlock lib { os0 with origins := lib.OriginsFromArgsOrServerBlock d.args keys }
        d.block = Except.ok os := by
  cases ds with
  | nil =>
    simp only [parseDirectives, Prod.mk.injEq, Option.some.injEq, and_true] at h
    exact Or.inl ⟨rfl, h.symm⟩
  | cons d rest =>
    right
    rw [parseDirectives] at h
    simp only [gt_iff_lt, Nat.lt_irrefl, if_false] at h
    split at h
    · simp at h
    · rename_i os1 hb
      cases rest with
      | nil =>
        simp only [parseDirectives, Prod.mk.injEq, Option.some.injEq, and_true] at h
        exact ⟨d, rfl, h ▸ hb⟩
      | cons d2 rest2 =>
        rw [parseDirectives] at h
        simp at h

theorem updateMap_ttl (os : OpenStack) (p : Provider) : (updateMap os p).ttl = os.ttl := by
  unfold updateMap
  repeat' split
  all_goals rfl

theorem foldl_updateMap_ttl (ps : List Provider) (os : OpenStack) :
    (ps.foldl updateMap os).ttl = os.ttl := by
  induction ps generalizing os with
  | nil => rfl
  | cons p rest ih => rw [List.foldl_cons, ih, updateMap_ttl]

/-- Every record of a reply carries the configured TTL. -/
theorem ServeDNS_answer_ttl (os : OpenStack) (state : Request) (rc : Nat) (m : Msg)
    (h : ServeDNS os state = Outcome.done rc (some m)) :
    ∀ rr ∈ m.Answer, rr.Hdr.Ttl = os.ttl := by
  rw [ServeDNS_cases os state] at h
  repeat' split at h
  all_goals cases h
  all_goals
    intro rr hrr
    simp only [ptr, a, List.mem_map] at hrr
    obtain ⟨n, _, rfl⟩ := hrr
    rfl

/-- C17: the parser accepts a `ttl` line exactly when it has one argument that
reads as an integer from 1 to 65535, and the TTL is then that integer.  A
`ttl` line with any other arguments in the block of the directive makes
`openstackParse` return an error and no settings.  Settings returned without
error have a TTL from 1 to 65535, which is 3600 when no `ttl` line is given
and the number of the last `ttl` line otherwise, and every record of every
reply, after any number of refresh cycles, carries that TTL. -/
theorem openstackParse_ttl (lib : ConfigLib) (keys : List String) :
    (∀ (os os1 : OpenStack) (args : List String),
      parseProperty lib os ⟨"ttl", args⟩ = Except.ok os1 ↔
        ∃ (x : String) (n : Int), args = [x] ∧ Atoi x = some n ∧ 1 ≤ n ∧ n ≤ 65535 ∧
          os1 = { os with ttl := n.toNat }) ∧
    (∀ (d : Directive) (rest : List Directive) (pre post : List Property) (args : List String),
      d.block = pre ++ ⟨"ttl", args⟩ :: post →
      (¬ ∃ (x : String) (n : Int), args = [x] ∧ Atoi x = some n ∧ 1 ≤ n ∧ n ≤ 65535) →
      ∃ e, openstackParse lib keys (d :: rest) = (none, some e)) ∧
    (∀ (ds : List Directive) (os : OpenStack),
      openstackParse lib keys ds = (some os, none) →
      (1 ≤ os.ttl ∧ os.ttl ≤ 65535) ∧
      ((∀ d ∈ ds, ∀ p ∈ d.block, p.name ≠ "ttl") → os.ttl = 3600) ∧
      (∀ (d : Directive) (pre post : List Property) (x : String) (n : Int),
        d ∈ ds → d.block = pre ++ ⟨"ttl", [x]⟩ :: post → (∀ p ∈ post, p.name ≠ "ttl") →
        Atoi x = some n → os.ttl = n.toNat) ∧
      (∀ (ps : List Provider) (state : Request) (rc : Nat) (m : Msg),
        ServeDNS (ps.foldl updateMap os) state = Outcome.done rc (some m) →
        ∀ rr ∈ m.Answer, rr.Hdr.Ttl = os.ttl ∧ 1 ≤ rr.Hdr.Ttl ∧ rr.Hdr.Ttl ≤ 65535)) := by
  refine ⟨fun os os1 args => parseProperty_ttl_iff lib os os1 args, ?_, ?_⟩
  · intro d rest pre post args hblock hbad
    have hprop : ∀ os : OpenStack, ∃ e, parseProperty lib os ⟨"ttl", args⟩ = Except.error e := by
      intro os
      cases hp : parseProperty lib os ⟨"ttl", args⟩ with
      | error e => exact ⟨e, rfl⟩
      | ok os1 =>
        obtain ⟨x, n, h1, h2, h3, h4, _⟩ := (parseProperty_ttl_iff lib os os1 args).mp hp
        exact absurd ⟨x, n, h1, h2, h3, h4⟩ hbad
    have hb : ∀ os : OpenStack, ∃ e, parseBlock lib os d.block = Except.error e := by
      intro os
      rw [hblock, parseBlock_append]
      cases parseBlock lib os pre with
      | error e => exact ⟨e, rfl⟩
      | ok os1 =>
        obtain ⟨e, he⟩ := hprop os1
        refine ⟨e, ?_⟩
        simp only [parseBlock, he]
    obtain ⟨e, he⟩ := hb { initialOS with origins := lib.OriginsFromArgsOrServerBlock d.args keys }
    refine ⟨e, ?_⟩
    unfold openstackParse
    rw [parseDirectives]
    simp only [gt_iff_lt, Nat.lt_irrefl, if_false, he]
  · intro ds os hparse
    have hinit : 1 ≤ initialOS.ttl ∧ initialOS.ttl ≤ 65535 := by decide
    have hcases := parseDirectives_ok lib keys ds initialOS os hparse
    have hrange : 1 ≤ os.ttl ∧ os.ttl ≤ 65535 := by
      rcases hcases with ⟨_, rfl⟩ | ⟨d, _, hb⟩
      · exact hinit
      · exact parseBlock_ttl_range lib d.block
          { initialOS with origins := lib.OriginsFromArgsOrServerBlock d.args keys } os hinit hb
    refine ⟨hrange, ?_, ?_, ?_⟩
    · intro hno
      rcases hcases with ⟨_, rfl⟩ | ⟨d, hd, hb⟩
      · rfl
      · rw [parseBlock_ttl_other lib d.block _ os (hno d (by rw [hd]; simp)) hb]
        rfl
    · intro d pre post x n hd hblock hpost hx
      rcases hcases with ⟨hnil, _⟩ | ⟨d0, hd0, hb⟩
      · rw [hnil] at hd; cases hd
      · have hdd : d = d0 := by rw [hd0] at hd; simpa using hd
        subst hdd
        rw [hblock, parseBlock_append] at hb
        split at hb
        · cases hb
        · rename_i os1 _
          rw [parseBlock] at hb
          split at hb
          · cases hb
          · rename_i os2 hp
            obtain ⟨x2, n2, hx2, hn2, _, _, rfl⟩ := (parseProperty_ttl_iff lib os1 os2 [x]).mp hp
            have hxx : x = x2 := by simpa using hx2
            subst hxx
            rw [hx] at hn2
            have hnn : n = n2 := by simpa using hn2
            subst hnn
            rw [parseBlock_ttl_other lib post _ os hpost hb]
    · intro ps state rc m hserve rr hrr
      have httl := ServeDNS_answer_ttl _ state rc m hserve rr hrr
      rw [foldl_updateMap_ttl] at httl
      rw [httl]
      exact ⟨rfl, hrange⟩

/-- Witness of C17: `ttl 300` is accepted and gives 300; `ttl 0`, `ttl 65536`,
`ttl soon` and `ttl 1 2` are rejected without settings; without a `ttl` line
the TTL is 3600. -/
theorem openstackParse_ttl_witness :
    (∃ os, openstackParse plainLib ["example.org."] [⟨[], [⟨"ttl", ["300"]⟩]⟩] = (some os, none) ∧
      os.ttl = 300) ∧
    (∃ e, openstackParse plainLib ["example.org."] [⟨[], [⟨"ttl", ["0"]⟩]⟩] = (none, some e)) ∧
    openstackParse plainLib ["example.org."] [⟨[], [⟨"ttl", ["65536"]⟩]⟩] =
      (none, some ParseError.ttlInvalid) ∧
    openstackParse plainLib ["example.org."] [⟨[], [⟨"ttl", ["soon"]⟩]⟩] =
      (none, some ParseError.ttlNotNumber) ∧
    openstackParse plainLib ["example.org."] [⟨[], [⟨"ttl", ["1", "2"]⟩]⟩] =
      (none, some ParseError.ArgErr) ∧
    (∃ os, openstackParse plainLib ["example.org."] [⟨[], []⟩] = (some os, none) ∧
      os.ttl = 3600) :=
  ⟨⟨{ exampleOS [] newMap with ttl := 300 }, by decide,
     ((openstackParse_ttl plainLib ["example.org."]).2.2 [⟨[], [⟨"ttl", ["300"]⟩]⟩]
       { exampleOS [] newMap with ttl := 300 } (by decide)).2.2.1
       ⟨[], [⟨"ttl", ["300"]⟩]⟩ [] [] "300" 300 (by simp) rfl (by simp) (by decide)⟩,
   (openstackParse_ttl plainLib ["example.org."]).2.1 ⟨[], [⟨"ttl", ["0"]⟩]⟩ [] [] [] ["0"] rfl
     (by
       rintro ⟨x, n, hx, hn, h1, _⟩
       have hx0 : x = "0" := by simpa using hx.symm
       subst hx0
       have h0 : Atoi "0" = some 0 := by decide
       rw [h0] at hn
       have : n = 0 := by simpa using hn.symm
       omega),
   by decide, by decide, by decide,
   ⟨exampleOS [] newMap, by decide,
     ((openstackParse_ttl plainLib ["example.org."]).2.2 [⟨[], []⟩] (exampleOS [] newMap)
       (by decide)).2.1 (by simp)⟩⟩

/-! ## The build as one pass over the recorded pairs -/

theorem recordAddrs_eq_pairs (name : String) (addrs : List IP) (hmap : Map) :
    recordAddrs name hmap addrs =
      (addrs.map (fun addr => (name, addr))).foldl (fun h p => recordAddr p.1 h p.2) hmap := by
  unfold recordAddrs
  induction addrs generalizing hmap with
  | nil => rfl
  | cons x rest ih => simp only [List.foldl_cons, List.map_cons, ih]

theorem recordServer_eq_pairs (origins : List String) (s : Server) (hmap : Map) :
    recordServer origins hmap s =
      (origins.flatMap (fun z =>
        (extractAddrs s.Addresses).map (fun addr => (Join s.Name z, addr)))).foldl
        (fun h p => recordAddr p.1 h p.2) hmap := by
  unfold recordServer
  induction origins generalizing hmap with
  | nil => rfl
  | cons z rest ih =>
    rw [List.foldl_cons, List.flatMap_cons, List.foldl_append, ih, recordAddrs_eq_pairs]

theorem recordPage_eq_pairs (origins : List String) (serverList : List Server) (hmap : Map) :
    serverList.foldl (recordServer origins) hmap =
      (recordedPairs origins serverList).foldl (fun h p => recordAddr p.1 h p.2) hmap := by
  unfold recordedPairs
  induction serverList generalizing hmap with
  | nil => rfl
  | cons s rest ih =>
    simp only [List.foldl_cons, List.flatMap_cons, List.foldl_append, ih, recordServer_eq_pairs]

theorem recordedPairs_append (origins : List String) (l1 l2 : List Server) :
    recordedPairs origins (l1 ++ l2) = recordedPairs origins l1 ++ recordedPairs origins l2 := by
  simp [recordedPairs, List.flatMap_append]

/-- A walk that ends with a directory has recorded the pairs of all its
pages, in order. -/
theorem eachPage_eq_pairs (origins : List String) (pages : List (Except String (List Server)))
    (hmap built : Map) (h : eachPage origins hmap pages = Except.ok built) :
    built = (recordedPairs origins (listedServers pages)).foldl
      (fun h p => recordAddr p.1 h p.2) hmap := by
  induction pages generalizing hmap with
  | nil =>
    simp only [eachPage, Except.ok.injEq] at h
    rw [← h]; rfl
  | cons pg rest ih =>
    cases pg with
    | error e => simp [eachPage] at h
    | ok sl =>
      simp only [eachPage] at h
      rw [ih _ h, listedServers, recordedPairs_append, List.foldl_append, recordPage_eq_pairs]

theorem listedServers_map_ok (sls : List (List Server)) :
    listedServers (sls.map Except.ok) = sls.flatten := by
  induction sls with
  | nil => rfl
  | cons sl rest ih => simp [listedServers, ih]

theorem eachPage_map_ok (origins : List String) (sls : List (List Server)) (hmap : Map) :
    eachPage origins hmap (sls.map Except.ok) =
      Except.ok ((recordedPairs origins sls.flatten).foldl
        (fun h p => recordAddr p.1 h p.2) hmap) := by
  obtain ⟨built, hb⟩ := eachPage_ok origins (sls.map Except.ok) hmap (by simp)
  rw [hb, eachPage_eq_pairs origins _ hmap built hb, listedServers_map_ok]

/-- The forward slice of a name after a pass: what it was, then the addresses
of the pairs with that name, in order. -/
theorem getSlice_name4_pairs (pairs : List (String × IP)) (m : Map) (name : String) :
    GoMap.getSlice (pairs.foldl (fun h p => recordAddr p.1 h p.2) m).name4 name =
      GoMap.getSlice m.name4 name ++ (pairs.filter (fun p => p.1 = name)).map Prod.snd := by
  induction pairs generalizing m with
  | nil => simp
  | cons p rest ih =>
    rw [List.foldl_cons, ih]
    by_cases hp : p.1 = name
    · subst hp
      have h1 : GoMap.getSlice (recordAddr p.1 m p.2).name4 p.1 =
          GoMap.getSlice m.name4 p.1 ++ [p.2] := by
        show GoMap.getSlice (GoMap.set m.name4 p.1 _) p.1 = _
        rw [GoMap.getSlice_set_self]
      simp [h1, List.filter_cons]
    · have h1 : GoMap.getSlice (recordAddr p.1 m p.2).name4 name =
          GoMap.getSlice m.name4 name := by
        show GoMap.getSlice (GoMap.set m.name4 p.1 _) name = _
        rw [GoMap.getSlice_set_ne _ _ _ _ hp]
      simp [h1, List.filter_cons, hp]

/-- The reverse slice of a key after a pass: what it was, then the names of
the pairs whose address has that text, in order. -/
theorem getSlice_addr_pairs (pairs : List (String × IP)) (m : Map) (key : String) :
    GoMap.getSlice (pairs.foldl (fun h p => recordAddr p.1 h p.2) m).addr key =
      GoMap.getSlice m.addr key ++
        (pairs.filter (fun p => IP.String p.2 = key)).map Prod.fst := by
  induction pairs generalizing m with
  | nil => simp
  | cons p rest ih =>
    rw [List.foldl_cons, ih]
    by_cases hp : IP.String p.2 = key
    · subst hp
      have h1 : GoMap.getSlice (recordAddr p.1 m p.2).addr (IP.String p.2) =
          GoMap.getSlice m.addr (IP.String p.2) ++ [p.1] := by
        show GoMap.getSlice (GoMap.set m.addr (IP.String p.2) _) (IP.String p.2) = _
        rw [GoMap.getSlice_set_self]
      simp [h1, List.filter_cons]
    · have h1 : GoMap.getSlice (recordAddr p.1 m p.2).addr key =
          GoMap.getSlice m.addr key := by
        show GoMap.getSlice (GoMap.set m.addr (IP.String p.2) _) key = _
        rw [GoMap.getSlice_set_ne _ _ _ _ hp]
      simp [h1, List.filter_cons, hp]

/-- Appending one element to the slice of a key adds one to the total. -/
theorem GoMap.total_set_append {α : Type} (m : GoMap (List α)) (k : String) (x : α) :
    GoMap.total (GoMap.set m k (GoMap.getSlice m k ++ [x])) = GoMap.total m + 1 := by
  induction m with
  | nil => simp [GoMap.set, GoMap.total, GoMap.getSlice, GoMap.get?]
  | cons e rest ih =>
    obtain ⟨k0, w⟩ := e
    by_cases h : k0 = k
    · simp [GoMap.set, GoMap.total, GoMap.getSlice, GoMap.get?, h]
      omega
    · have hs : GoMap.getSlice ((k0, w) :: rest) k = GoMap.getSlice rest k := by
        simp [GoMap.getSlice, GoMap.get?, h]
      rw [hs]
      have ih2 : (List.map (fun kv => kv.2.length)
          (GoMap.set rest k (GoMap.getSlice rest k ++ [x]))).sum =
          (List.map (fun kv => kv.2.length) rest).sum + 1 := ih
      simp [GoMap.set, GoMap.total, h, ih2]
      omega

theorem total_pairs (pairs : List (String × IP)) (m : Map) :
    GoMap.total (pairs.foldl (fun h p => recordAddr p.1 h p.2) m).name4 =
      GoMap.total m.name4 + pairs.length ∧
    GoMap.total (pairs.foldl (fun h p => recordAddr p.1 h p.2) m).addr =
      GoMap.total m.addr + pairs.length := by
  induction pairs generalizing m with
  | nil => simp
  | cons p rest ih =>
    rw [List.foldl_cons]
    obtain ⟨h1, h2⟩ := ih (recordAddr p.1 m p.2)
    have h3 : GoMap.total (recordAddr p.1 m p.2).name4 = GoMap.total m.name4 + 1 :=
      GoMap.total_set_append m.name4 p.1 p.2
    have h4 : GoMap.total (recordAddr p.1 m p.2).addr = GoMap.total m.addr + 1 :=
      GoMap.total_set_append m.addr (IP.String p.2) p.1
    rw [h1, h2, h3, h4, List.length_cons]
    constructor <;> omega

/-- An assignment keeps the keys distinct. -/
theorem GoMap.keys_set_nodup {α : Type} (m : GoMap α) (k : String) (v : α)
    (h : (GoMap.keys m).Nodup) : (GoMap.keys (GoMap.set m k v)).Nodup ∧
      ∀ key, key ∈ GoMap.keys (GoMap.set m k v) → key ∈ GoMap.keys m ∨ key = k := by
  induction m with
  | nil => simp [GoMap.set, GoMap.keys]
  | cons e rest ih =>
    obtain ⟨k0, w⟩ := e
    have hn : k0 ∉ GoMap.keys rest ∧ (GoMap.keys rest).Nodup := by
      simpa [GoMap.keys] using h
    obtain ⟨ih1, ih2⟩ := ih hn.2
    by_cases hk : k0 = k
    · simp only [GoMap.set, hk, if_true]
      constructor
      · simpa [GoMap.keys, hk] using h
      · intro key hkey
        left
        simpa [GoMap.keys, hk] using hkey
    · simp only [GoMap.set, hk, if_false]
      constructor
      · have : k0 ∉ GoMap.keys (GoMap.set rest k v) := by
          intro hmem
          rcases ih2 k0 hmem with h1 | h1
          · exact hn.1 h1
          · exact hk h1
        simpa [GoMap.keys] using And.intro this ih1
      · intro key hkey
        have hkey2 : key = k0 ∨ key ∈ GoMap.keys (GoMap.set rest k v) := by
          simpa [GoMap.keys] using hkey
        rcases hkey2 with h1 | h1
        · left; simp [GoMap.keys, h1]
        · rcases ih2 key h1 with h2 | h2
          · left
            have : key ∈ GoMap.keys ((k0, w) :: rest) := by
              simp only [GoMap.keys, List.map_cons, List.mem_cons]
              exact Or.inr h2
            exact this
          · right; exact h2

theorem keys_nodup_pairs (pairs : List (String × IP)) (m : Map)
    (h : (GoMap.keys m.name4).Nodup ∧ (GoMap.keys m.addr).Nodup) :
    (GoMap.keys (pairs.foldl (fun h p => recordAddr p.1 h p.2) m).name4).Nodup ∧
    (GoMap.keys (pairs.foldl (fun h p => recordAddr p.1 h p.2) m).addr).Nodup := by
  induction pairs generalizing m with
  | nil => exact h
  | cons p rest ih =>
    rw [List.foldl_cons]
    exact ih _ ⟨(GoMap.keys_set_nodup m.name4 p.1 _ h.1).1,
      (GoMap.keys_set_nodup m.addr (IP.String p.2) _ h.2).1⟩

/-! ## Accumulation order -/

theorem forward_of_zone (n name : String) (l : List IP) :
    ((l.map (fun addr => (n, addr))).filter (fun p => p.1 = name)).map Prod.snd =
      if n = name then l else [] := by
  induction l with
  | nil => simp
  | cons x rest ih =>
    by_cases h : n = name
    · simp only [h, if_true] at ih ⊢
      simp [List.filter_cons, ih]
    · simp only [h, if_false] at ih ⊢
      simp [List.filter_cons, h, ih]

theorem reverse_of_zone (n key : String) (l : List IP) :
    ((l.map (fun addr => (n, addr))).filter (fun p => IP.String p.2 = key)).map Prod.fst =
      l.flatMap (fun addr => if IP.String addr = key then [n] else []) := by
  induction l with
  | nil => simp
  | cons x rest ih =>
    by_cases h : IP.String x = key
    · simp [List.filter_cons, h, ih]
    · simp [List.filter_cons, h, ih]

theorem forward_of_server (origins : List String) (s : Server) (name : String) :
    ((origins.flatMap (fun z =>
        (extractAddrs s.Addresses).map (fun addr => (Join s.Name z, addr)))).filter
      (fun p => p.1 = name)).map Prod.snd =
      origins.flatMap (fun z =>
        if Join s.Name z = name then extractAddrs s.Addresses else []) := by
  induction origins with
  | nil => simp
  | cons z zs ihz =>
    rw [List.flatMap_cons, List.filter_append, List.map_append, ihz, List.flatMap_cons,
      forward_of_zone]

theorem reverse_of_server (origins : List String) (s : Server) (key : String) :
    ((origins.flatMap (fun z =>
        (extractAddrs s.Addresses).map (fun addr => (Join s.Name z, addr)))).filter
      (fun p => IP.String p.2 = key)).map Prod.fst =
      origins.flatMap (fun z =>
        (extractAddrs s.Addresses).flatMap (fun addr =>
          if IP.String addr = key then [Join s.Name z] else [])) := by
  induction origins with
  | nil => simp
  | cons z zs ihz =>
    rw [List.flatMap_cons, List.filter_append, List.map_append, ihz, List.flatMap_cons,
      reverse_of_zone]

theorem length_of_server (origins : List String) (s : Server) :
    (origins.flatMap (fun z =>
        (extractAddrs s.Addresses).map (fun addr => (Join s.Name z, addr)))).length =
      origins.length * (extractAddrs s.Addresses).length := by
  induction origins with
  | nil => simp
  | cons z zs ihz =>
    rw [List.flatMap_cons, List.length_append, ihz, List.length_map, List.length_cons,
      Nat.add_mul, Nat.one_mul, Nat.add_comm]

theorem forward_of_pairs (origins : List String) (servers : List Server) (name : String) :
    ((recordedPairs origins servers).filter (fun p => p.1 = name)).map Prod.snd =
      servers.flatMap (fun s =>
        origins.flatMap (fun z =>
          if Join s.Name z = name then extractAddrs s.Addresses else [])) := by
  unfold recordedPairs
  induction servers with
  | nil => simp
  | cons s rest ih =>
    rw [List.flatMap_cons, List.filter_append, List.map_append, ih, List.flatMap_cons,
      forward_of_server]

theorem reverse_of_pairs (origins : List String) (servers : List Server) (key : String) :
    ((recordedPairs origins servers).filter (fun p => IP.String p.2 = key)).map Prod.fst =
      servers.flatMap (fun s =>
        origins.flatMap (fun z =>
          (extractAddrs s.Addresses).flatMap (fun addr =>
            if IP.String addr = key then [Join s.Name z] else []))) := by
  unfold recordedPairs
  induction servers with
  | nil => simp
  | cons s rest ih =>
    rw [List.flatMap_cons, List.filter_append, List.map_append, ih, List.flatMap_cons,
      reverse_of_server]

theorem length_of_pairs (origins : List String) (servers : List Server) :
    (recordedPairs origins servers).length =
      (servers.map (fun s => origins.length * (extractAddrs s.Addresses).length)).sum := by
  unfold recordedPairs
  induction servers with
  | nil => rfl
  | cons s rest ih =>
    rw [List.flatMap_cons, List.length_append, ih, List.map_cons, List.sum_cons,
      length_of_server]

/-- A cycle whose steps all succeed publishes the pass over the recorded
pairs of its pages, started from the empty directory. -/
theorem updateMap_map_ok (os : OpenStack) (sls : List (List Server)) :
    (updateMap os ⟨Except.ok (), Except.ok (), sls.map Except.ok⟩).hmap =
      (recordedPairs os.origins sls.flatten).foldl (fun h p => recordAddr p.1 h p.2) newMap :=
  updateMap_ok os _ _ rfl rfl (eachPage_map_ok os.origins sls newMap)

/-- C18: after a refresh that listed the pages `sls`, the forward list of a
name is the concatenation, host by host in listing order, zone by zone in
configured order, of the addresses `extractAddrs` returned for every host and
zone whose joined name is that name; the reverse list of a key is the
concatenation, in the same order, of the joined names of every host, zone and
address whose text is the key.  Nothing is removed: the lengths of the forward
lists and the lengths of the reverse lists both add up to the number of
recorded pairs, and every key is stored once. -/
theorem updateMap_accumulates (os : OpenStack) (sls : List (List Server)) :
    (∀ name : String,
      lookupHostV4 (updateMap os ⟨Except.ok (), Except.ok (), sls.map Except.ok⟩) name =
        sls.flatten.flatMap (fun s =>
          os.origins.flatMap (fun z =>
            if Join s.Name z = name then extractAddrs s.Addresses else []))) ∧
    (∀ key : String,
      GoMap.getSlice (updateMap os ⟨Except.ok (), Except.ok (), sls.map Except.ok⟩).hmap.addr key =
        sls.flatten.flatMap (fun s =>
          os.origins.flatMap (fun z =>
            (extractAddrs s.Addresses).flatMap (fun addr =>
              if IP.String addr = key then [Join s.Name z] else [])))) ∧
    GoMap.total (updateMap os ⟨Except.ok (), Except.ok (), sls.map Except.ok⟩).hmap.name4 =
      (sls.flatten.map (fun s => os.origins.length * (extractAddrs s.Addresses).length)).sum ∧
    GoMap.total (updateMap os ⟨Except.ok (), Except.ok (), sls.map Except.ok⟩).hmap.name4 =
      GoMap.total (updateMap os ⟨Except.ok (), Except.ok (), sls.map Except.ok⟩).hmap.addr ∧
    (GoMap.keys (updateMap os ⟨Except.ok (), Except.ok (), sls.map Except.ok⟩).hmap.name4).Nodup ∧
    (GoMap.keys (updateMap os ⟨Except.ok (), Except.ok (), sls.map Except.ok⟩).hmap.addr).Nodup := by
  have hlen := length_of_pairs os.origins sls.flatten
  obtain ⟨ht1, ht2⟩ := total_pairs (recordedPairs os.origins sls.flatten) newMap
  obtain ⟨hk1, hk2⟩ := keys_nodup_pairs (recordedPairs os.origins sls.flatten) newMap
    ⟨List.nodup_nil, List.nodup_nil⟩
  have hz1 : GoMap.total newMap.name4 = 0 := rfl
  have hz2 : GoMap.total newMap.addr = 0 := rfl
  rw [updateMap_map_ok]
  refine ⟨?_, ?_, ?_, ?_, hk1, hk2⟩
  · intro name
    rw [lookupHostV4_eq, updateMap_map_ok, getSlice_name4_pairs, forward_of_pairs]
    rfl
  · intro key
    rw [getSlice_addr_pairs, reverse_of_pairs]
    rfl
  · rw [ht1, hz1, hlen, Nat.zero_add]
  · rw [ht1, ht2, hz1, hz2]

/-- Witness of C18: with the zone listed twice the address of `web1` is kept
twice in the forward list and its name twice in the reverse list; two servers
called `web1` give the same. -/
theorem updateMap_accumulates_witness :
    lookupHostV4
      (updateMap { exampleOS [] newMap with origins := ["example.org.", "example.org."] }
        ⟨Except.ok (), Except.ok (), [[web1]].map Except.ok⟩) "web1.example.org." =
      [ParseIP "10.0.0.10", ParseIP "10.0.0.10"] ∧
    GoMap.getSlice
      (updateMap { exampleOS [] newMap with origins := ["example.org.", "example.org."] }
        ⟨Except.ok (), Except.ok (), [[web1]].map Except.ok⟩).hmap.addr "10.0.0.10" =
      ["web1.example.org.", "web1.example.org."] ∧
    lookupHostV4
      (updateMap (exampleOS [] newMap)
        ⟨Except.ok (), Except.ok (), [[web1], [web1]].map Except.ok⟩) "web1.example.org." =
      [ParseIP "10.0.0.10", ParseIP "10.0.0.10"] :=
  ⟨((updateMap_accumulates
      { exampleOS [] newMap with origins := ["example.org.", "example.org."] } [[web1]]).1
      "web1.example.org.").trans (by decide),
   ((updateMap_accumulates
      { exampleOS [] newMap with origins := ["example.org.", "example.org."] } [[web1]]).2.1
      "10.0.0.10").trans (by decide),
   ((updateMap_accumulates (exampleOS [] newMap) [[web1], [web1]]).1
      "web1.example.org.").trans (by decide)⟩

/-! ## The names in the directory -/

theorem GoMap.keys_set {α : Type} (m : GoMap α) (k key : String) (v : α)
    (h : key ∈ GoMap.keys (GoMap.set m k v)) : key ∈ GoMap.keys m ∨ key = k := by
  induction m with
  | nil =>
    right
    simpa [GoMap.set, GoMap.keys] using h
  | cons e rest ih =>
    obtain ⟨k0, w⟩ := e
    by_cases hk : k0 = k
    · left
      simpa [GoMap.set, GoMap.keys, hk] using h
    · have h2 : key = k0 ∨ key ∈ GoMap.keys (GoMap.set rest k v) := by
        simpa [GoMap.set, GoMap.keys, hk] using h
      rcases h2 with h3 | h3
      · left; simp [GoMap.keys, h3]
      · rcases ih h3 with h4 | h4
        · left
          simp only [GoMap.keys, List.map_cons, List.mem_cons]
          exact Or.inr h4
        · right; exact h4

/-- With distinct keys, an entry of the list is what the lookup returns. -/
theorem GoMap.getSlice_of_mem {α : Type} (m : GoMap (List α)) (k : String) (v : List α)
    (hn : (GoMap.keys m).Nodup) (h : (k, v) ∈ m) : GoMap.getSlice m k = v := by
  induction m with
  | nil => cases h
  | cons e rest ih =>
    obtain ⟨k0, w⟩ := e
    have hn2 : k0 ∉ GoMap.keys rest ∧ (GoMap.keys rest).Nodup := by
      simpa [GoMap.keys] using hn
    rcases List.mem_cons.mp h with h1 | h1
    · have hk : k0 = k := by injection h1 with a b; exact a.symm
      have hv : w = v := by injection h1 with a b; exact b.symm
      simp [GoMap.getSlice, GoMap.get?, hk, hv]
    · have hk : k0 ≠ k := by
        intro hk
        apply hn2.1
        rw [hk]
        exact List.mem_map.mpr ⟨(k, v), h1, rfl⟩
      have := ih hn2.2 h1
      simpa [GoMap.getSlice, GoMap.get?, hk] using this

theorem keys_name4_pairs (pairs : List (String × IP)) (m : Map) (key : String)
    (h : key ∈ GoMap.keys (pairs.foldl (fun h p => recordAddr p.1 h p.2) m).name4) :
    key ∈ GoMap.keys m.name4 ∨ key ∈ pairs.map Prod.fst := by
  induction pairs generalizing m with
  | nil => exact Or.inl h
  | cons p rest ih =>
    rw [List.foldl_cons] at h
    rcases ih _ h with h1 | h1
    · rcases GoMap.keys_set m.name4 p.1 key _ h1 with h2 | h2
      · exact Or.inl h2
      · right; rw [h2]; simp
    · right
      simp only [List.map_cons, List.mem_cons]
      exact Or.inr h1

/-- The names of the recorded pairs are joined names of listed servers and
configured zones. -/
theorem name_of_recordedPairs (origins : List String) (servers : List Server) (n : String)
    (h : n ∈ (recordedPairs origins servers).map Prod.fst) :
    ∃ s ∈ servers, ∃ z ∈ origins, n = Join s.Name z := by
  obtain ⟨p, hp, rfl⟩ := List.mem_map.mp h
  unfold recordedPairs at hp
  obtain ⟨s, hs, hp2⟩ := List.mem_flatMap.mp hp
  obtain ⟨z, hz, hp3⟩ := List.mem_flatMap.mp hp2
  obtain ⟨addr, _, rfl⟩ := List.mem_map.mp hp3
  exact ⟨s, hs, z, hz, rfl⟩

theorem Join_ends_in_dot (name zone : String) :
    (Join name zone).toList.getLast? = some '.' := by
  unfold Join
  by_cases hz : zone = "."
  · rw [if_pos hz]
    simp [String.toList]
  · rw [if_neg hz]
    exact Fqdn_ends_in_dot _

/-- Every key of the forward map and every hostname stored in the reverse
map of a built directory is the joined name of a listed server and a
configured zone, and ends in a dot. -/
theorem updateMap_names_end_in_dot (os : OpenStack) (sls : List (List Server)) :
    (∀ (k : String) (v : List IP),
      (k, v) ∈ (updateMap os ⟨Except.ok (), Except.ok (), sls.map Except.ok⟩).hmap.name4 →
      (∃ s ∈ sls.flatten, ∃ z ∈ os.origins, k = Join s.Name z) ∧
        k.toList.getLast? = some '.') ∧
    (∀ (k : String) (v : List String) (n : String),
      (k, v) ∈ (updateMap os ⟨Except.ok (), Except.ok (), sls.map Except.ok⟩).hmap.addr →
      n ∈ v → (∃ s ∈ sls.flatten, ∃ z ∈ os.origins, n = Join s.Name z) ∧
        n.toList.getLast? = some '.') := by
  have hk := keys_nodup_pairs (recordedPairs os.origins sls.flatten) newMap
    ⟨List.nodup_nil, List.nodup_nil⟩
  have hdot : ∀ n : String, (∃ s ∈ sls.flatten, ∃ z ∈ os.origins, n = Join s.Name z) →
      (∃ s ∈ sls.flatten, ∃ z ∈ os.origins, n = Join s.Name z) ∧
        n.toList.getLast? = some '.' := by
    intro n h
    refine ⟨h, ?_⟩
    obtain ⟨s, _, z, _, rfl⟩ := h
    exact Join_ends_in_dot s.Name z
  rw [updateMap_map_ok]
  refine ⟨?_, ?_⟩
  · intro k v hkv
    have hkey : k ∈ GoMap.keys
        ((recordedPairs os.origins sls.flatten).foldl
          (fun h p => recordAddr p.1 h p.2) newMap).name4 :=
      List.mem_map.mpr ⟨(k, v), hkv, rfl⟩
    rcases keys_name4_pairs _ newMap k hkey with h1 | h1
    · cases h1
    · exact hdot k (name_of_recordedPairs os.origins sls.flatten k h1)
  · intro k v n hkv hn
    have hv := GoMap.getSlice_of_mem _ k v hk.2 hkv
    rw [getSlice_addr_pairs] at hv
    have hn2 : n ∈ ((recordedPairs os.origins sls.flatten).filter
        (fun p => IP.String p.2 = k)).map Prod.fst := by
      have h0 : GoMap.getSlice newMap.addr k = [] := rfl
      rw [h0, List.nil_append] at hv
      rw [hv]; exact hn
    obtain ⟨p, hp, rfl⟩ := List.mem_map.mp hn2
    exact hdot p.1 (name_of_recordedPairs os.origins sls.flatten p.1
      (List.mem_map.mpr ⟨p, (List.mem_filter.mp hp).1, rfl⟩))

/-- C14, the code at the failing input: the server `Web1` under the zone
`example.org.` is stored under the key `Web1.example.org.`, with its capital
letter, in the forward map and as hostname in the reverse map.  The address
query for the host arrives lower-cased as `web1.example.org.`, finds nothing
under that name and ends in server failure, while the reverse query on
10.0.0.30 is answered with `Web1.example.org.`. -/
theorem updateMap_keeps_letter_case :
    Join "Web1" "example.org." = "Web1.example.org." ∧
    webUpperOS.hmap.name4 = [("Web1.example.org.", [ParseIP "10.0.0.30"])] ∧
    webUpperOS.hmap.addr = [("10.0.0.30", ["Web1.example.org."])] ∧
    'W' ∈ "Web1.example.org.".toList ∧ isUpperASCII 'W' = true ∧
    lookupHostV4 webUpperOS "web1.example.org." = [] ∧
    ServeDNS webUpperOS ⟨"web1.example.org.", TypeA⟩ =
      Outcome.done RcodeServerFailure none ∧
    ServeDNS webUpperOS ⟨"30.0.0.10.in-addr.arpa.", TypePTR⟩ =
      Outcome.done RcodeSuccess (some ⟨true, true, RcodeSuccess,
        [RR.PTR ⟨"30.0.0.10.in-addr.arpa.", TypePTR, ClassINET, 3600⟩ "Web1.example.org."],
        [], []⟩) := by
  decide

/-! ## The IPv6 text form determines the address -/

/-- The hexadecimal digit characters: their value, and that none is a colon,
a dot or an angle bracket. -/
theorem hexDigit_facts :
    ∀ d < 16, hexVal (Nat.digitChar d) = some d ∧ Nat.digitChar d ≠ ':' ∧
      Nat.digitChar d ≠ '.' ∧ Nat.digitChar d ≠ '<' := by
  decide

theorem appendHex_ne_nil (x : Nat) : appendHex x ≠ [] := by
  simp [appendHex]

/-- The characters of a group are hexadecimal digits. -/
theorem mem_appendHex (x : Nat) (hx : x < 65536) (c : Char) (h : c ∈ appendHex x) :
    ∃ d < 16, c = Nat.digitChar d := by
  unfold appendHex at h
  simp only [List.mem_append, List.mem_singleton] at h
  rcases h with ((h | h) | h) | h
  · split at h
    · simp only [List.mem_singleton] at h
      exact ⟨x / 4096, by omega, h⟩
    · cases h
  · split at h
    · simp only [List.mem_singleton] at h
      exact ⟨x / 256 % 16, by omega, h⟩
    · cases h
  · split at h
    · simp only [List.mem_singleton] at h
      exact ⟨x / 16 % 16, by omega, h⟩
    · cases h
  · exact ⟨x % 16, by omega, h⟩

theorem unhex_appendHex (x : Nat) (hx : x < 65536) : unhex (appendHex x) = x := by
  have hv : ∀ d < 16, (hexVal (Nat.digitChar d)).getD 0 = d := by
    intro d hd
    rw [(hexDigit_facts d hd).1]
    rfl
  unfold unhex appendHex
  by_cases h3 : x ≥ 4096
  · have h2 : x ≥ 256 := by omega
    have h1 : x ≥ 16 := by omega
    simp only [if_pos h3, if_pos h2, if_pos h1, List.append_assoc, List.singleton_append,
      List.cons_append, List.nil_append, List.foldl_cons, List.foldl_nil, hv (x / 4096) (by omega), hv (x / 256 % 16) (by omega),
      hv (x / 16 % 16) (by omega), hv (x % 16) (by omega)]
    omega
  · by_cases h2 : x ≥ 256
    · have h1 : x ≥ 16 := by omega
      simp only [if_neg h3, if_pos h2, if_pos h1, List.append_assoc, List.singleton_append,
        List.cons_append, List.nil_append, List.foldl_cons, List.foldl_nil, hv (x / 256 % 16) (by omega),
        hv (x / 16 % 16) (by omega), hv (x % 16) (by omega)]
      omega
    · by_cases h1 : x ≥ 16
      · simp only [if_neg h3, if_neg h2, if_pos h1, List.append_assoc, List.singleton_append,
          List.cons_append, List.nil_append, List.foldl_cons, List.foldl_nil,
          hv (x / 16 % 16) (by omega), hv (x % 16) (by omega)]
        omega
      · simp only [if_neg h3, if_neg h2, if_neg h1, List.append_assoc, List.singleton_append,
          List.cons_append, List.nil_append, List.foldl_cons, List.foldl_nil, hv (x % 16) (by omega)]
        omega

theorem splitColon_ne_nil (l : List Char) : splitColon l ≠ [] := by
  cases l with
  | nil => simp [splitColon]
  | cons c rest =>
    rw [splitColon]
    split
    · simp
    · split <;> simp

theorem splitColon_append (w rest : List Char) (hw : ':' ∉ w) :
    splitColon (w ++ ':' :: rest) = w :: splitColon rest := by
  induction w with
  | nil => simp [splitColon]
  | cons c w ih =>
    have hc : c ≠ ':' := fun h => hw (by simp [h])
    have hw2 : ':' ∉ w := fun h => hw (List.mem_cons_of_mem _ h)
    rw [List.cons_append, splitColon, if_neg hc, ih hw2]

theorem splitColon_plain (w : List Char) (hw : ':' ∉ w) : splitColon w = [w] := by
  induction w with
  | nil => rfl
  | cons c w ih =>
    have hc : c ≠ ':' := fun h => hw (by simp [h])
    have hw2 : ':' ∉ w := fun h => hw (List.mem_cons_of_mem _ h)
    rw [splitColon, if_neg hc, ih hw2]

theorem not_colon_appendHex (x : Nat) (hx : x < 65536) : ':' ∉ appendHex x := by
  intro h
  obtain ⟨d, hd, hc⟩ := mem_appendHex x hx ':' h
  exact (hexDigit_facts d hd).2.1 hc.symm

/-- The fields of a colon-separated text of groups, followed by a colon and
more text. -/
theorem splitColon_render6_append (L : List Nat) (X : List Char) (hne : L ≠ [])
    (hL : ∀ x ∈ L, x < 65536) :
    splitColon (render6 L ++ ':' :: X) = L.map appendHex ++ splitColon X := by
  induction L with
  | nil => exact absurd rfl hne
  | cons x rest ih =>
    have hx : ':' ∉ appendHex x := not_colon_appendHex x (hL x (by simp))
    cases rest with
    | nil =>
      simp only [render6, List.map_cons, List.map_nil, List.singleton_append]
      exact splitColon_append _ _ hx
    | cons y r =>
      have h2 := ih (by simp) (fun z hz => hL z (List.mem_cons_of_mem _ hz))
      simp only [render6, List.append_assoc, List.cons_append, List.map_cons] at h2 ⊢
      rw [splitColon_append _ _ hx, h2]

/-- The fields of a colon-separated text of groups. -/
theorem splitColon_render6 (L : List Nat) (hne : L ≠ []) (hL : ∀ x ∈ L, x < 65536) :
    splitColon (render6 L) = L.map appendHex := by
  induction L with
  | nil => exact absurd rfl hne
  | cons x rest ih =>
    have hx : ':' ∉ appendHex x := not_colon_appendHex x (hL x (by simp))
    cases rest with
    | nil =>
      simp only [render6, List.map_cons, List.map_nil]
      exact splitColon_plain _ hx
    | cons y r =>
      have h2 := ih (by simp) (fun z hz => hL z (List.mem_cons_of_mem _ hz))
      simp only [render6, List.map_cons] at h2 ⊢
      rw [splitColon_append _ _ hx, h2]

theorem map_unhex_appendHex (L : List Nat) (hL : ∀ x ∈ L, x < 65536) :
    (L.map appendHex).map unhex = L := by
  induction L with
  | nil => rfl
  | cons x rest ih =>
    simp only [List.map_cons]
    rw [unhex_appendHex x (hL x (by simp)), ih (fun z hz => hL z (List.mem_cons_of_mem _ hz))]

theorem takeWhile_fields (L : List Nat) (rest : List (List Char)) :
    (L.map appendHex ++ [] :: rest).takeWhile (fun f => f ≠ []) = L.map appendHex := by
  induction L with
  | nil => simp
  | cons x r ih =>
    simp only [List.map_cons, List.cons_append]
    rw [List.takeWhile_cons]
    simp only [ne_eq, appendHex_ne_nil, not_false_eq_true, decide_True, if_true, List.cons.injEq,
      true_and]
    exact ih

theorem takeWhile_fields_all (L : List Nat) :
    (L.map appendHex).takeWhile (fun f => f ≠ []) = L.map appendHex := by
  induction L with
  | nil => simp
  | cons x r ih =>
    simp only [List.map_cons]
    rw [List.takeWhile_cons]
    simp only [ne_eq, appendHex_ne_nil, not_false_eq_true, decide_True, if_true, List.cons.injEq,
      true_and]
    exact ih

/-- A list whose middle part is zero is its two ends with zeros between. -/
theorem take_zeros_drop (g : List Nat) (zs ze : Nat) (h1 : zs ≤ ze) (h2 : ze ≤ g.length)
    (hz : ∀ j, zs ≤ j → j < ze → g.getD j 0 = 0) :
    g.take zs ++ List.replicate (ze - zs) 0 ++ g.drop ze = g := by
  induction g generalizing zs ze with
  | nil =>
    have : ze = 0 := by simpa using h2
    subst this
    simp
  | cons x r ih =>
    cases ze with
    | zero =>
      have : zs = 0 := by omega
      subst this
      simp
    | succ e =>
      have he : e ≤ r.length := by simpa using h2
      cases zs with
      | zero =>
        have hx : x = 0 := by simpa using hz 0 (Nat.le_refl 0) (Nat.succ_pos e)
        have ih2 := ih 0 e (Nat.zero_le e) he (fun j _ hj => by
          have := hz (j + 1) (Nat.zero_le _) (by omega)
          simpa using this)
        simp only [List.take_zero, List.nil_append, Nat.sub_zero, List.drop_succ_cons] at ih2 ⊢
        rw [List.replicate_succ, List.cons_append, ih2, hx]
      | succ s0 =>
        have ih2 := ih s0 e (by omega) he (fun j hj1 hj2 => by
          have := hz (j + 1) (by omega) (by omega)
          simpa using this)
        simp only [List.take_succ_cons, List.drop_succ_cons, Nat.succ_sub_succ_eq_sub,
          List.cons_append, List.append_assoc] at ih2 ⊢
        rw [ih2]

/-- The first zeros of a list of groups are zeros. -/
theorem takeWhile_zero_getD (l : List Nat) (k : Nat)
    (hk : k < (l.takeWhile (fun x => x = 0)).length) : l.getD k 0 = 0 := by
  induction l generalizing k with
  | nil => simp
  | cons x r ih =>
    rw [List.takeWhile_cons] at hk
    by_cases hx : x = 0
    · simp only [hx, decide_True, if_true, List.length_cons] at hk
      cases k with
      | zero => simp [hx]
      | succ k0 =>
        have := ih k0 (by omega)
        simpa using this
    · simp [hx] at hk

theorem getD_drop (g : List Nat) (i k : Nat) : (g.drop i).getD k 0 = g.getD (i + k) 0 := by
  simp [List.getD_eq_getElem?_getD, List.getElem?_drop]

/-- The run `longestZeroRun` returns, when it returns one, is at least two
groups long, lies within the eight groups and covers zero groups only. -/
theorem longestZeroRun_run (g : List Nat) (hg : g.length = 8) :
    longestZeroRun g = (255, 255) ∨
    ((longestZeroRun g).1 + 2 ≤ (longestZeroRun g).2 ∧ (longestZeroRun g).2 ≤ 8 ∧
      ∀ j, (longestZeroRun g).1 ≤ j → j < (longestZeroRun g).2 → g.getD j 0 = 0) := by
  have hstep : ∀ (l : List Nat) (z : Nat × Nat),
      (z = (255, 255) ∨ (z.1 + 2 ≤ z.2 ∧ z.2 ≤ 8 ∧ ∀ j, z.1 ≤ j → j < z.2 → g.getD j 0 = 0)) →
      (l.foldl (fun z i =>
          if ((g.drop i).takeWhile (fun x => x = 0)).length ≥ 2 ∧
            ((g.drop i).takeWhile (fun x => x = 0)).length > z.2 - z.1 then
            (i, i + ((g.drop i).takeWhile (fun x => x = 0)).length) else z) z = (255, 255) ∨
        ((l.foldl (fun z i =>
          if ((g.drop i).takeWhile (fun x => x = 0)).length ≥ 2 ∧
            ((g.drop i).takeWhile (fun x => x = 0)).length > z.2 - z.1 then
            (i, i + ((g.drop i).takeWhile (fun x => x = 0)).length) else z) z).1 + 2 ≤
          (l.foldl (fun z i =>
          if ((g.drop i).takeWhile (fun x => x = 0)).length ≥ 2 ∧
            ((g.drop i).takeWhile (fun x => x = 0)).length > z.2 - z.1 then
            (i, i + ((g.drop i).takeWhile (fun x => x = 0)).length) else z) z).2 ∧
         (l.foldl (fun z i =>
          if ((g.drop i).takeWhile (fun x => x = 0)).length ≥ 2 ∧
            ((g.drop i).takeWhile (fun x => x = 0)).length > z.2 - z.1 then
            (i, i + ((g.drop i).takeWhile (fun x => x = 0)).length) else z) z).2 ≤ 8 ∧
         ∀ j, (l.foldl (fun z i =>
          if ((g.drop i).takeWhile (fun x => x = 0)).length ≥ 2 ∧
            ((g.drop i).takeWhile (fun x => x = 0)).length > z.2 - z.1 then
            (i, i + ((g.drop i).takeWhile (fun x => x = 0)).length) else z) z).1 ≤ j →
           j < (l.foldl (fun z i =>
          if ((g.drop i).takeWhile (fun x => x = 0)).length ≥ 2 ∧
            ((g.drop i).takeWhile (fun x => x = 0)).length > z.2 - z.1 then
            (i, i + ((g.drop i).takeWhile (fun x => x = 0)).length) else z) z).2 →
           g.getD j 0 = 0)) := by
    intro l
    induction l with
    | nil => intro z hz; exact hz
    | cons i rest ih =>
      intro z hz
      rw [List.foldl_cons]
      apply ih
      split
      · rename_i hc
        right
        have hle : ((g.drop i).takeWhile (fun x => x = 0)).length ≤ (g.drop i).length :=
          (List.takeWhile_sublist _).length_le
        rw [List.length_drop, hg] at hle
        refine ⟨by simp only; omega, by simp only; omega, ?_⟩
        intro j hj1 hj2
        simp only at hj1 hj2
        have := takeWhile_zero_getD (g.drop i) (j - i) (by omega)
        rw [getD_drop] at this
        have hij : i + (j - i) = j := by omega
        rw [hij] at this
        exact this
      · exact hz
  exact hstep (List.range 8) (255, 255) (Or.inl rfl)

/-- The text of eight groups with the run from `zs` to `ze` written `::`. -/
theorem appendTo6_run (g : List Nat) (hg : g.length = 8) (zs ze : Nat) (h1 : zs + 2 ≤ ze)
    (h2 : ze ≤ 8) :
    appendTo6 g zs ze 9 0 = render6 (g.take zs) ++ ':' :: ':' :: render6 (g.drop ze) := by
  match g, hg with
  | [g0, g1, g2, g3, g4, g5, g6, g7], _ =>
    have hzs : zs ≤ 6 := by omega
    interval_cases zs <;> interval_cases ze <;> simp [appendTo6, render6]

/-- The text of eight groups without a run. -/
theorem appendTo6_plain (g : List Nat) (hg : g.length = 8) :
    appendTo6 g 255 255 9 0 = render6 g := by
  match g, hg with
  | [g0, g1, g2, g3, g4, g5, g6, g7], _ => simp [appendTo6, render6]

/-- Reading back a text with a `::`. -/
theorem decode6_run (g : List Nat) (hg : g.length = 8) (hlt : ∀ x ∈ g, x < 65536)
    (zs ze : Nat) (h1 : zs + 2 ≤ ze) (h2 : ze ≤ 8)
    (hz : ∀ j, zs ≤ j → j < ze → g.getD j 0 = 0) :
    decode6 (render6 (g.take zs) ++ ':' :: ':' :: render6 (g.drop ze)) = g := by
  have hL : ∀ x ∈ g.take zs, x < 65536 := fun x hx => hlt x (List.mem_of_mem_take hx)
  have hR : ∀ x ∈ g.drop ze, x < 65536 := fun x hx => hlt x (List.mem_of_mem_drop hx)
  have hfsR : ∃ Q, splitColon (render6 (g.drop ze)) = Q ∧
      ∃ P0, ([] : List Char) :: Q = P0 ++ [] :: (g.drop ze).map appendHex := by
    by_cases hr : g.drop ze = []
    · refine ⟨[[]], by rw [hr]; rfl, [[]], ?_⟩
      rw [hr]; rfl
    · exact ⟨_, splitColon_render6 _ hr hR, [], rfl⟩
  obtain ⟨Q, hQ, P0, hP0⟩ := hfsR
  have hfs : ∃ T, splitColon (render6 (g.take zs) ++ ':' :: ':' :: render6 (g.drop ze)) =
      (g.take zs).map appendHex ++ [] :: T ∧
      ∃ P, (g.take zs).map appendHex ++ [] :: T = P ++ [] :: (g.drop ze).map appendHex := by
    by_cases hl : g.take zs = []
    · refine ⟨[] :: Q, ?_, [] :: P0, ?_⟩
      · rw [hl]
        simp only [render6, List.nil_append, List.map_nil, splitColon, if_true, hQ]
      · rw [hl, hP0]
        simp
    · refine ⟨Q, ?_, (g.take zs).map appendHex ++ P0, ?_⟩
      · rw [splitColon_render6_append _ _ hl hL]
        simp only [splitColon, if_true, hQ]
      · rw [hP0]
        simp
  obtain ⟨T, hT, P, hP⟩ := hfs
  have hleft : (splitColon (render6 (g.take zs) ++ ':' :: ':' :: render6 (g.drop ze))).takeWhile
      (fun f => f ≠ []) = (g.take zs).map appendHex := by
    rw [hT, takeWhile_fields]
  have hright : ((splitColon (render6 (g.take zs) ++ ':' :: ':' ::
      render6 (g.drop ze))).reverse.takeWhile (fun f => f ≠ [])).reverse =
      (g.drop ze).map appendHex := by
    rw [hT, hP]
    simp only [List.reverse_append, List.reverse_cons, List.append_assoc, List.singleton_append]
    rw [← List.map_reverse, takeWhile_fields, List.map_reverse, List.reverse_reverse]
  have hlen : ¬ ((g.take zs).map appendHex).length =
      (splitColon (render6 (g.take zs) ++ ':' :: ':' :: render6 (g.drop ze))).length := by
    rw [hT]
    simp
  unfold decode6
  simp only [hleft, hright]
  rw [if_neg hlen, map_unhex_appendHex _ hL, map_unhex_appendHex _ hR]
  simp only [List.length_map, List.length_take, List.length_drop, hg]
  have hn : 8 - min zs 8 - (8 - ze) = ze - zs := by omega
  rw [hn]
  exact take_zeros_drop g zs ze (by omega) (by omega) hz

/-- Reading back a text without a `::`. -/
theorem decode6_plain (g : List Nat) (hg : g.length = 8) (hlt : ∀ x ∈ g, x < 65536) :
    decode6 (render6 g) = g := by
  have hne : g ≠ [] := by
    intro h; rw [h] at hg; cases hg
  unfold decode6
  simp only [splitColon_render6 g hne hlt, takeWhile_fields_all, if_true,
    map_unhex_appendHex g hlt]

theorem getD_byte (ip : List Nat) (hb : ∀ b ∈ ip, b < 256) (k : Nat) : ip.getD k 0 < 256 := by
  rw [List.getD_eq_getElem?_getD]
  cases h : ip[k]? with
  | none => simp
  | some v =>
    simp only [Option.getD_some]
    exact hb v (List.getElem?_mem h)

theorem groups16_facts (ip : List Nat) (hb : ∀ b ∈ ip, b < 256) :
    (groups16 ip).length = 8 ∧ ∀ x ∈ groups16 ip, x < 65536 := by
  constructor
  · simp [groups16]
  · intro x hx
    unfold groups16 at hx
    obtain ⟨i, _, rfl⟩ := List.mem_map.mp hx
    have h1 := getD_byte ip hb (2 * i)
    have h2 := getD_byte ip hb (2 * i + 1)
    omega

/-- The IPv6 text of sixteen bytes is read back to their eight groups. -/
theorem decode6_string6 (ip : List Nat) (hb : ∀ b ∈ ip, b < 256) :
    decode6 (string6 ip) = groups16 ip := by
  obtain ⟨hlen, hlt⟩ := groups16_facts ip hb
  unfold string6
  simp only
  rcases longestZeroRun_run (groups16 ip) hlen with h | ⟨h1, h2, h3⟩
  · rw [h]
    simp only
    rw [appendTo6_plain _ hlen]
    exact decode6_plain _ hlen hlt
  · rw [appendTo6_run _ hlen _ _ h1 h2]
    exact decode6_run _ hlen hlt _ _ h1 h2 h3

/-- Sixteen bytes are determined by their eight groups. -/
theorem groups16_inj (ip1 ip2 : List Nat) (h1 : ip1.length = 16) (h2 : ip2.length = 16)
    (hb1 : ∀ b ∈ ip1, b < 256) (hb2 : ∀ b ∈ ip2, b < 256)
    (h : groups16 ip1 = groups16 ip2) : ip1 = ip2 := by
  match ip1, h1, ip2, h2 with
  | [a0, a1, a2, a3, a4, a5, a6, a7, a8, a9, a10, a11, a12, a13, a14, a15], _,
    [b0, b1, b2, b3, b4, b5, b6, b7, b8, b9, b10, b11, b12, b13, b14, b15], _ =>
    simp [groups16, List.range, List.range.loop] at h
    simp only [List.mem_cons, List.mem_singleton, List.not_mem_nil, or_false,
      forall_eq_or_imp, forall_eq] at hb1 hb2
    simp only [List.cons.injEq, and_true]
    obtain ⟨g0, g1, g2, g3, g4, g5, g6, g7⟩ := h
    obtain ⟨p0, p1, p2, p3, p4, p5, p6, p7, p8, p9, p10, p11, p12, p13, p14, p15⟩ := hb1
    obtain ⟨q0, q1, q2, q3, q4, q5, q6, q7, q8, q9, q10, q11, q12, q13, q14, q15⟩ := hb2
    refine ⟨?_, ?_, ?_, ?_, ?_, ?_, ?_, ?_, ?_, ?_, ?_, ?_, ?_, ?_, ?_, ?_⟩ <;> omega

/-! ## The addresses `net.ParseIP` returns -/

theorem parseIPv4Loop_length (s : List Char) (st : V4State) (prev : Option Char) (out : V4State)
    (hf : st.fields.length ≤ 3) (h : parseIPv4Loop st prev s = some out) :
    out.fields.length ≤ 3 := by
  induction s generalizing st prev with
  | nil =>
    simp only [parseIPv4Loop, Option.some.injEq] at h
    subst h
    exact hf
  | cons c rest ih =>
    rw [parseIPv4Loop] at h
    split at h
    · split at h
      · cases h
      · split at h
        · cases h
        · exact ih ⟨st.fields, st.val * 10 + (c.toNat - 48), st.digLen + 1⟩ _ hf h
    · split at h
      · split at h
        · cases h
        · split at h
          · cases h
          · rename_i hne
            refine ih ⟨st.fields ++ [st.val], 0, 0⟩ _ ?_ h
            simp only [List.length_append, List.length_singleton]
            omega
      · cases h

theorem parseIPv4_length (s : List Char) (f : List Nat) (h : parseIPv4 s = some f) :
    f.length = 4 := by
  unfold parseIPv4 at h
  split at h
  · cases h
  · rename_i st hst
    split at h
    · cases h
    · rename_i hlt
      simp only [Option.some.injEq] at h
      subst h
      have := parseIPv4Loop_length s _ none st (by simp) hst
      simp only [List.length_append, List.length_singleton]
      omega

theorem parseIPv6Loop_length (fuel : Nat) (st out : V6State)
    (hl : st.ip.length % 2 = 0 ∧ st.ip.length ≤ 16)
    (h : parseIPv6Loop fuel st = some out) :
    out.ip.length % 2 = 0 ∧ out.ip.length ≤ 16 := by
  induction fuel generalizing st with
  | zero => simp [parseIPv6Loop] at h
  | succ fuel ih =>
    rw [parseIPv6Loop] at h
    split at h
    · simp only [Option.some.injEq] at h
      subst h
      exact hl
    · rename_i hlt
      have h2 : (st.ip ++ [0, 0]).length % 2 = 0 ∧ (st.ip ++ [0, 0]).length ≤ 16 := by
        simp only [List.length_append, List.length_cons, List.length_nil]
        omega
      have hgrp : ∀ acc : Nat, (st.ip ++ [acc / 256, acc % 256]).length % 2 = 0 ∧
          (st.ip ++ [acc / 256, acc % 256]).length ≤ 16 := by
        intro acc
        simpa using h2
      split at h
      · cases h
      · rename_i acc off rest hg
        split at h
        · cases h
        · split at h
          · split at h
            · cases h
            · split at h
              · cases h
              · split at h
                · cases h
                · rename_i hroom f hf
                  simp only [Option.some.injEq] at h
                  subst h
                  have := parseIPv4_length st.s f hf
                  simp only [List.length_append, this]
                  omega
          · split at h
            · simp only [Option.some.injEq] at h
              subst h
              exact hgrp acc
            · cases h
            · split at h
              · cases h
              · split at h
                · split at h
                  · cases h
                  · split at h
                    · simp only [Option.some.injEq] at h
                      subst h
                      exact hgrp acc
                    · exact ih _ (hgrp acc) h
                · exact ih _ (hgrp acc) h

theorem parseIPv6_length (s : List Char) (f : List Nat) (h : parseIPv6 s = some f) :
    f.length = 16 := by
  unfold parseIPv6 at h
  split at h
  · cases h
  · simp only at h
    split at h
    · simp only [Option.some.injEq] at h
      subst h
      simp
    · split at h
      · cases h
      · rename_i st hst
        have hlen : st.ip.length % 2 = 0 ∧ st.ip.length ≤ 16 := by
          refine parseIPv6Loop_length 9 _ st ?_ hst
          split <;> simp
        split at h
        · cases h
        · split at h
          · split at h
            · cases h
            · rename_i hlt e he
              simp only [Option.some.injEq] at h
              subst h
              simp only [List.length_append, List.length_take, List.length_replicate,
                List.length_drop]
              omega
          · split at h
            · cases h
            · simp only [Option.some.injEq] at h
              subst h
              omega

/-- The three ways `net.ParseIP` ends. -/
theorem ParseIP_cases (s : String) :
    ParseIP s = [] ∨
    (∃ f, parseIPv4 s.toList = some f ∧ ParseIP s = v4InV6Head ++ f) ∨
    (∃ f, parseIPv6 s.toList = some f ∧ ParseIP s = f) := by
  unfold ParseIP
  split
  · exact Or.inl rfl
  · split
    · split
      · exact Or.inl rfl
      · rename_i f hf
        exact Or.inr (Or.inl ⟨f, hf, rfl⟩)
    · split
      · split
        · exact Or.inl rfl
        · rename_i f hf
          exact Or.inr (Or.inr ⟨f, hf, rfl⟩)
      · exact Or.inl rfl

/-- What `net.ParseIP` returns is the nil address or sixteen bytes. -/
theorem ParseIP_valid (s : String) : ValidIP (ParseIP s) := by
  have hb := ParseIP_bytes s
  rcases ParseIP_cases s with h | ⟨f, hf, h⟩ | ⟨f, hf, h⟩
  · exact Or.inl h
  · right
    refine ⟨?_, hb⟩
    rw [h]
    simp [v4InV6Head, parseIPv4_length _ f hf]
  · right
    refine ⟨?_, hb⟩
    rw [h]
    exact parseIPv6_length _ f hf

/-! ## The text of an address determines the address -/

theorem mem_appendDecimal (x : Nat) (hx : x < 256) (c : Char) (h : c ∈ appendDecimal x) :
    ∃ d < 16, c = Nat.digitChar d := by
  unfold appendDecimal at h
  simp only [List.mem_append, List.mem_singleton] at h
  rcases h with (h | h) | h
  · split at h
    · simp only [List.mem_singleton] at h
      exact ⟨x / 100, by omega, h⟩
    · cases h
  · split at h
    · simp only [List.mem_singleton] at h
      exact ⟨x / 10 % 10, by omega, h⟩
    · cases h
  · exact ⟨x % 10, by omega, h⟩

/-- The dotted-decimal text consists of digits and dots, and has a dot. -/
theorem mem_string4 (a b c d : Nat) (ha : a < 256) (hb : b < 256) (hc : c < 256)
    (hd : d < 256) :
    '.' ∈ string4 [a, b, c, d] ∧
    ∀ ch ∈ string4 [a, b, c, d], ch = '.' ∨ ∃ k < 16, ch = Nat.digitChar k := by
  constructor
  · simp [string4]
  · intro ch h
    simp only [string4, List.getD_cons_zero, List.getD_cons_succ, List.mem_append,
      List.mem_singleton] at h
    rcases h with (((((h | h) | h) | h) | h) | h) | h
    · exact Or.inr (mem_appendDecimal a ha ch h)
    · exact Or.inl h
    · exact Or.inr (mem_appendDecimal b hb ch h)
    · exact Or.inl h
    · exact Or.inr (mem_appendDecimal c hc ch h)
    · exact Or.inl h
    · exact Or.inr (mem_appendDecimal d hd ch h)

theorem mem_render6 (L : List Nat) (hL : ∀ x ∈ L, x < 65536) (ch : Char)
    (h : ch ∈ render6 L) : ch = ':' ∨ ∃ k < 16, ch = Nat.digitChar k := by
  induction L with
  | nil => cases h
  | cons x rest ih =>
    cases rest with
    | nil =>
      simp only [render6] at h
      exact Or.inr (mem_appendHex x (hL x (by simp)) ch h)
    | cons y r =>
      simp only [render6, List.mem_append, List.mem_cons] at h
      rcases h with h | h | h
      · exact Or.inr (mem_appendHex x (hL x (by simp)) ch h)
      · exact Or.inl h
      · exact ih (fun z hz => hL z (List.mem_cons_of_mem _ hz)) h

/-- The IPv6 text consists of hexadecimal digits and colons. -/
theorem mem_string6 (ip : List Nat) (hb : ∀ b ∈ ip, b < 256) (ch : Char)
    (h : ch ∈ string6 ip) : ch = ':' ∨ ∃ k < 16, ch = Nat.digitChar k := by
  obtain ⟨hlen, hlt⟩ := groups16_facts ip hb
  unfold string6 at h
  simp only at h
  rcases longestZeroRun_run (groups16 ip) hlen with hr | ⟨h1, h2, _⟩
  · rw [hr] at h
    simp only at h
    rw [appendTo6_plain _ hlen] at h
    exact mem_render6 _ hlt ch h
  · rw [appendTo6_run _ hlen _ _ h1 h2] at h
    simp only [List.mem_append, List.mem_cons] at h
    rcases h with h | h | h | h
    · exact mem_render6 _ (fun x hx => hlt x (List.mem_of_mem_take hx)) ch h
    · exact Or.inl h
    · exact Or.inl h
    · exact mem_render6 _ (fun x hx => hlt x (List.mem_of_mem_drop hx)) ch h

/-- The text of sixteen bytes: dotted decimal when they hold an IPv4 address,
the IPv6 form otherwise. -/
theorem String_sixteen (ip : IP) (h16 : ip.length = 16) :
    (ip.take 12 = v4InV6Head ∧ ip = v4InV6Head ++ ip.drop 12 ∧ (ip.drop 12).length = 4 ∧
      IP.String ip = String.mk (string4 (ip.drop 12))) ∨
    (ip.take 12 ≠ v4InV6Head ∧ IP.String ip = String.mk (string6 ip)) := by
  have h0 : ¬ ip.length = 0 := by omega
  have h1 : ¬ (ip.length ≠ 4 ∧ ip.length ≠ 16) := by omega
  have h4 : ¬ ip.length = 4 := by omega
  by_cases ht : ip.take 12 = v4InV6Head
  · left
    have hto : To4 ip = ip.drop 12 := by
      unfold To4
      rw [if_neg h4, if_pos ⟨h16, ht⟩]
    have hl : (ip.drop 12).length = 4 := by simp [h16]
    refine ⟨ht, ?_, hl, ?_⟩
    · conv_lhs => rw [← List.take_append_drop 12 ip]
      rw [ht]
    · unfold IP.String
      rw [if_neg h0, if_neg h1, hto, if_pos hl]
  · right
    have hto : To4 ip = [] := by
      unfold To4
      rw [if_neg h4, if_neg (fun h => ht h.2)]
    refine ⟨ht, ?_⟩
    unfold IP.String
    rw [if_neg h0, if_neg h1, hto]
    rfl

theorem string4_inj (p q : List Nat) (hp : p.length = 4) (hq : q.length = 4)
    (hbp : ∀ b ∈ p, b < 256) (hbq : ∀ b ∈ q, b < 256) (h : string4 p = string4 q) : p = q := by
  match p, hp, q, hq with
  | [a, b, c, d], _, [a2, b2, c2, d2], _ =>
    have e1 := parseIPv4_string4 a b c d (hbp a (by simp)) (hbp b (by simp)) (hbp c (by simp))
      (hbp d (by simp))
    have e2 := parseIPv4_string4 a2 b2 c2 d2 (hbq a2 (by simp)) (hbq b2 (by simp))
      (hbq c2 (by simp)) (hbq d2 (by simp))
    rw [h, e2] at e1
    exact (Option.some.inj e1).symm

/-- Two addresses with the same text are the same address. -/
theorem String_inj (ip1 ip2 : IP) (h1 : ValidIP ip1) (h2 : ValidIP ip2)
    (h : IP.String ip1 = IP.String ip2) : ip1 = ip2 := by
  have hnil : IP.String ([] : IP) = "<nil>" := rfl
  have hlt : ∀ k < 16, Nat.digitChar k ≠ '<' := fun k hk => (hexDigit_facts k hk).2.2.2
  have hdot : ∀ k < 16, Nat.digitChar k ≠ '.' := fun k hk => (hexDigit_facts k hk).2.2.1
  -- the text of sixteen bytes has no angle bracket
  have hno : ∀ ip : IP, ip.length = 16 → (∀ b ∈ ip, b < 256) → IP.String ip ≠ "<nil>" := by
    intro ip h16 hb hs
    rcases String_sixteen ip h16 with ⟨_, _, hl, he⟩ | ⟨_, he⟩
    · rw [he] at hs
      have hmem : '<' ∈ string4 (ip.drop 12) := by
        have := congrArg String.toList hs
        simp only [String.toList] at this
        rw [this]
        decide
      match hq : ip.drop 12, hl with
      | [a, b, c, d], _ =>
        rw [hq] at hmem
        have hbd : ∀ x ∈ [a, b, c, d], x < 256 := by
          intro x hx
          rw [← hq] at hx
          exact hb x (List.mem_of_mem_drop hx)
        rcases (mem_string4 a b c d (hbd a (by simp)) (hbd b (by simp)) (hbd c (by simp))
          (hbd d (by simp))).2 '<' hmem with h3 | ⟨k, hk, h3⟩
        · exact absurd h3 (by decide)
        · exact hlt k hk h3.symm
    · rw [he] at hs
      have hmem : '<' ∈ string6 ip := by
        have := congrArg String.toList hs
        simp only [String.toList] at this
        rw [this]
        decide
      rcases mem_string6 ip hb '<' hmem with h3 | ⟨k, hk, h3⟩
      · exact absurd h3 (by decide)
      · exact hlt k hk h3.symm
  rcases h1 with h1 | ⟨l1, b1⟩
  · rcases h2 with h2 | ⟨l2, b2⟩
    · rw [h1, h2]
    · rw [h1, hnil] at h
      exact absurd h.symm (hno ip2 l2 b2)
  · rcases h2 with h2 | ⟨l2, b2⟩
    · rw [h2, hnil] at h
      exact absurd h (hno ip1 l1 b1)
    · rcases String_sixteen ip1 l1 with ⟨_, e1, q1, s1⟩ | ⟨_, s1⟩
      · rcases String_sixteen ip2 l2 with ⟨_, e2, q2, s2⟩ | ⟨_, s2⟩
        · rw [s1, s2] at h
          have h4 : string4 (ip1.drop 12) = string4 (ip2.drop 12) := congrArg String.data h
          have := string4_inj _ _ q1 q2 (fun b hb => b1 b (List.mem_of_mem_drop hb))
            (fun b hb => b2 b (List.mem_of_mem_drop hb)) h4
          rw [e1, e2, this]
        · rw [s1, s2] at h
          have h4 : string4 (ip1.drop 12) = string6 ip2 := congrArg String.data h
          exfalso
          match hq : ip1.drop 12, q1 with
          | [a, b, c, d], _ =>
            rw [hq] at h4
            have hbd : ∀ x ∈ [a, b, c, d], x < 256 := by
              intro x hx
              rw [← hq] at hx
              exact b1 x (List.mem_of_mem_drop hx)
            have hmem := (mem_string4 a b c d (hbd a (by simp)) (hbd b (by simp))
              (hbd c (by simp)) (hbd d (by simp))).1
            rw [h4] at hmem
            rcases mem_string6 ip2 b2 '.' hmem with h3 | ⟨k, hk, h3⟩
            · exact absurd h3 (by decide)
            · exact hdot k hk h3.symm
      · rcases String_sixteen ip2 l2 with ⟨_, e2, q2, s2⟩ | ⟨_, s2⟩
        · rw [s1, s2] at h
          have h4 : string6 ip1 = string4 (ip2.drop 12) := congrArg String.data h
          exfalso
          match hq : ip2.drop 12, q2 with
          | [a, b, c, d], _ =>
            rw [hq] at h4
            have hbd : ∀ x ∈ [a, b, c, d], x < 256 := by
              intro x hx
              rw [← hq] at hx
              exact b2 x (List.mem_of_mem_drop hx)
            have hmem := (mem_string4 a b c d (hbd a (by simp)) (hbd b (by simp))
              (hbd c (by simp)) (hbd d (by simp))).1
            rw [← h4] at hmem
            rcases mem_string6 ip1 b1 '.' hmem with h3 | ⟨k, hk, h3⟩
            · exact absurd h3 (by decide)
            · exact hdot k hk h3.symm
        · rw [s1, s2] at h
          have h4 : string6 ip1 = string6 ip2 := congrArg String.data h
          have hg : groups16 ip1 = groups16 ip2 := by
            rw [← decode6_string6 ip1 b1, ← decode6_string6 ip2 b2, h4]
          exact groups16_inj ip1 ip2 l1 l2 b1 b2 hg

/-! ## Consistency of the two directions -/

/-- The addresses of the recorded pairs come from `net.ParseIP`. -/
theorem valid_of_recordedPairs (origins : List String) (servers : List Server)
    (p : String × IP) (hp : p ∈ recordedPairs origins servers) : ValidIP p.2 := by
  unfold recordedPairs at hp
  obtain ⟨s, _, hp2⟩ := List.mem_flatMap.mp hp
  obtain ⟨z, _, hp3⟩ := List.mem_flatMap.mp hp2
  obtain ⟨addr, haddr, rfl⟩ := List.mem_map.mp hp3
  rw [extractAddrs_eq] at haddr
  unfold includedAddrs at haddr
  obtain ⟨k, _, rfl⟩ := List.mem_map.mp haddr
  exact ParseIP_valid k.addr

/-- A pass over recorded pairs from the empty directory stores every pair in
both directions, and nothing else. -/
theorem pairs_both_directions (origins : List String) (servers : List Server) :
    (∀ (n : String) (ip : IP),
      ip ∈ GoMap.getSlice ((recordedPairs origins servers).foldl
        (fun h p => recordAddr p.1 h p.2) newMap).name4 n →
      n ∈ GoMap.getSlice ((recordedPairs origins servers).foldl
        (fun h p => recordAddr p.1 h p.2) newMap).addr (IP.String ip)) ∧
    Consistent ((recordedPairs origins servers).foldl
      (fun h p => recordAddr p.1 h p.2) newMap) := by
  have h0 : ∀ k, GoMap.getSlice newMap.name4 k = [] := fun _ => rfl
  have h1 : ∀ k, GoMap.getSlice newMap.addr k = [] := fun _ => rfl
  have hfwd : ∀ (n : String) (ip : IP),
      ip ∈ GoMap.getSlice ((recordedPairs origins servers).foldl
        (fun h p => recordAddr p.1 h p.2) newMap).name4 n ↔
      (n, ip) ∈ recordedPairs origins servers := by
    intro n ip
    rw [getSlice_name4_pairs, h0, List.nil_append]
    constructor
    · intro h
      obtain ⟨p, hp, rfl⟩ := List.mem_map.mp h
      obtain ⟨hp1, hp2⟩ := List.mem_filter.mp hp
      have hn : p.1 = n := by simpa using hp2
      rw [← hn]
      exact hp1
    · intro h
      exact List.mem_map.mpr ⟨(n, ip), List.mem_filter.mpr ⟨h, by simp⟩, rfl⟩
  have hrev : ∀ (n key : String),
      n ∈ GoMap.getSlice ((recordedPairs origins servers).foldl
        (fun h p => recordAddr p.1 h p.2) newMap).addr key ↔
      ∃ ip, (n, ip) ∈ recordedPairs origins servers ∧ IP.String ip = key := by
    intro n key
    rw [getSlice_addr_pairs, h1, List.nil_append]
    constructor
    · intro h
      obtain ⟨p, hp, rfl⟩ := List.mem_map.mp h
      obtain ⟨hp1, hp2⟩ := List.mem_filter.mp hp
      exact ⟨p.2, hp1, by simpa using hp2⟩
    · rintro ⟨ip, hp, hk⟩
      exact List.mem_map.mpr ⟨(n, ip), List.mem_filter.mpr ⟨hp, by simpa using hk⟩, rfl⟩
  constructor
  · intro n ip h
    exact (hrev n (IP.String ip)).mpr ⟨ip, (hfwd n ip).mp h, rfl⟩
  · intro n ip hv
    constructor
    · intro h
      exact (hrev n (IP.String ip)).mpr ⟨ip, (hfwd n ip).mp h, rfl⟩
    · intro h
      obtain ⟨ip2, hp, hs⟩ := (hrev n (IP.String ip)).mp h
      have hv2 : ValidIP ip2 := valid_of_recordedPairs origins servers (n, ip2) hp
      have : ip2 = ip := String_inj ip2 ip hv2 hv hs
      rw [← this]
      exact (hfwd n ip2).mpr hp

/-- C11: in the directory a refresh builds, for every hostname and every
address (a value `net.ParseIP` can return), the address is in the forward
list of the hostname exactly when the hostname is in the reverse list under
the text of that address; the forward pair always has its reverse
counterpart.  The empty directory `openstackParse` starts with is consistent,
and every refresh cycle, successful or failed, leaves a consistent directory
in service. -/
theorem updateMap_consistent (os : OpenStack) (p : Provider) (sls : List (List Server)) :
    Consistent newMap ∧ Consistent initialOS.hmap ∧
    Consistent (updateMap os ⟨Except.ok (), Except.ok (), sls.map Except.ok⟩).hmap ∧
    (∀ (n : String) (ip : IP),
      ip ∈ lookupHostV4 (updateMap os ⟨Except.ok (), Except.ok (), sls.map Except.ok⟩) n →
      n ∈ GoMap.getSlice
        (updateMap os ⟨Except.ok (), Except.ok (), sls.map Except.ok⟩).hmap.addr (IP.String ip)) ∧
    (Consistent os.hmap → Consistent (updateMap os p).hmap) := by
  have hnew : Consistent newMap := by
    intro n ip _
    show ip ∈ ([] : List IP) ↔ n ∈ ([] : List String)
    simp
  refine ⟨hnew, hnew, ?_, ?_, ?_⟩
  · rw [updateMap_map_ok]
    exact (pairs_both_directions os.origins sls.flatten).2
  · intro n ip h
    rw [lookupHostV4_eq] at h
    rw [updateMap_map_ok] at h ⊢
    exact (pairs_both_directions os.origins sls.flatten).1 n ip h
  · intro hos
    unfold updateMap
    split
    · exact hos
    · split
      · exact hos
      · split
        · exact hos
        · rename_i built hb
          rw [eachPage_eq_pairs os.origins p.pages newMap built hb]
          exact (pairs_both_directions os.origins (listedServers p.pages)).2

/-- Witness of C11: after listing `web1`, 10.0.0.10 is in the forward list of
`web1.example.org.` and that name is in the reverse list of `10.0.0.10`;
203.0.113.5 is in no forward list and its text has no reverse list; a failed
cycle keeps the directory consistent. -/
theorem updateMap_consistent_witness :
    (ParseIP "10.0.0.10" ∈ (web1OS []).hmap.name4.getSlice "web1.example.org." ↔
      "web1.example.org." ∈ (web1OS []).hmap.addr.getSlice (IP.String (ParseIP "10.0.0.10"))) ∧
    (ParseIP "203.0.113.5" ∈ (web1OS []).hmap.name4.getSlice "web1.example.org." ↔
      "web1.example.org." ∈ (web1OS []).hmap.addr.getSlice (IP.String (ParseIP "203.0.113.5"))) ∧
    Consistent
      (updateMap (web1OS []) ⟨Except.error "401", Except.ok (), [Except.ok [web6]]⟩).hmap :=
  ⟨(updateMap_consistent (exampleOS [] newMap) (onePage [web1]) [[web1]]).2.2.1
      "web1.example.org." (ParseIP "10.0.0.10") (ParseIP_valid "10.0.0.10"),
   (updateMap_consistent (exampleOS [] newMap) (onePage [web1]) [[web1]]).2.2.1
      "web1.example.org." (ParseIP "203.0.113.5") (ParseIP_valid "203.0.113.5"),
   (updateMap_consistent (web1OS []) ⟨Except.error "401", Except.ok (), [Except.ok [web6]]⟩
      []).2.2.2.2
      ((updateMap_consistent (exampleOS [] newMap) (onePage [web1]) [[web1]]).2.2.1)⟩

end OpenStackPlugin
